import Mathlib

/-!
# Verification of the Canvas-MCP organize engine

A shallow embedding of `src/canvas_mcp/organize.py` (and the parts of
`models.py` it needs), together with proofs settling the frozen claims
about the layout engine.

Modelling conventions:
* Python floats are modelled by exact rationals (`ℚ`).  None of the inputs
  reachable by the claims produce non-finite values, so every
  `math.isfinite` test in the source evaluates to `True`; those dead
  branches are noted in comments where they occur.
* Python `round` (banker's rounding, half-to-even) is modelled by `pyRound`.
* Python dicts (insertion ordered) are modelled by association lists built
  exclusively through `dset`, which updates the first matching key in place
  and otherwise appends — exactly the Python insertion-order semantics.
* Python's in-place mutation of the canvas tree is modelled by returning
  updated copies of the structures.
-/

set_option maxHeartbeats 1000000

/-- Insertion-ordered dictionary, as a key/value association list. -/
abbrev Dict (κ : Type) (β : Type) := List (κ × β)

/-- Python `d.get(k)` / `d[k]`: first binding of `k`. -/
def dget [DecidableEq κ] : Dict κ β → κ → Option β
  | [], _ => none
  | (k, v) :: rest, key => if k = key then some v else dget rest key

/-- Python `d[k] = v`: update the first binding in place, else append. -/
def dset [DecidableEq κ] : Dict κ β → κ → β → Dict κ β
  | [], key, val => [(key, val)]
  | (k, v) :: rest, key, val =>
    if k = key then (k, val) :: rest else (k, v) :: dset rest key val

/-- Python `k in d`. -/
def dmem [DecidableEq κ] (d : Dict κ β) (key : κ) : Bool :=
  (dget d key).isSome

/-- The keys of a dictionary, in order. -/
def dkeys (d : Dict κ β) : List κ := d.map (·.1)

/-- The values of a dictionary, in order (Python `d.values()`). -/
def dvalues (d : Dict κ β) : List β := d.map (·.2)

/-- Python `round`: round half to even (banker's rounding), on exact
rationals. -/
def pyRound (q : ℚ) : ℤ :=
  let f := ⌊q⌋
  let r := q - f
  if r < 1/2 then f
  else if 1/2 < r then f + 1
  else if f % 2 = 0 then f else f + 1

/-- Lexicographic comparison of character lists by Unicode code point —
Python's string `<`. -/
def strLtb : List Char → List Char → Bool
  | [], [] => false
  | [], _ :: _ => true
  | _ :: _, [] => false
  | c :: cs, d :: ds =>
    if c.val < d.val then true
    else if d.val < c.val then false
    else strLtb cs ds

/-- Python's string `<=` (total order by code points). -/
def pyStrLe (a b : String) : Bool := !(strLtb b.data a.data)

/-- Insert `x` after every already-placed element `y` with `le y x` —
the insertion step of a stable sort. -/
def pyInsert (le : α → α → Bool) (x : α) : List α → List α
  | [] => [x]
  | y :: ys => if le y x then y :: pyInsert le x ys else x :: y :: ys

/-- Python `sorted(l, key=...)`: the unique stable sort of `l` under the
total preorder `le` (all the source's keys are tuples of floats/strings,
which order totally, so every stable sort — Python's timsort included —
returns exactly this list). -/
def pySorted (le : α → α → Bool) (l : List α) : List α :=
  l.foldl (fun acc x => pyInsert le x acc) []

-- --- Spacing constants (organize.py lines 36-51) ---

def NODE_HORIZONTAL_SPACING : ℚ := 90
def NODE_VERTICAL_SPACING : ℚ := 140

def CONTAINER_HORIZONTAL_SPACING : ℚ := 200
def CONTAINER_VERTICAL_SPACING : ℚ := 240

def NETWORK_HORIZONTAL_SPACING : ℚ := 260
def NETWORK_VERTICAL_SPACING : ℚ := 320

def MACHINE_PADDING : ℚ := 55
def FACTORY_PADDING : ℚ := 75
def NETWORK_PADDING : ℚ := 100

def GRID_COLUMNS_NODE : ℤ := 4
def GRID_COLUMNS_CONTAINER : ℤ := 3

/-- An item to be organized (node or container) — `OrganizeItem`. -/
structure OrganizeItem where
  id : String
  item_type : String := "node"
  width : ℚ
  height : ℚ
  x : ℚ
  y : ℚ
  node_ids : List String := []
  deriving Repr, DecidableEq

/-- A directed edge between organize items — `OrganizeEdge`. -/
structure OrganizeEdge where
  from_id : String
  to_id : String
  deriving Repr, DecidableEq

/-- Layout options — `OrganizeOptions`. -/
structure OrganizeOptions where
  orientation : String := "horizontal"
  horizontal_spacing : ℚ := NODE_HORIZONTAL_SPACING
  vertical_spacing : ℚ := NODE_VERTICAL_SPACING
  start_x : ℚ := 0
  start_y : ℚ := 0
  reference_center_x : ℚ := 0
  reference_center_y : ℚ := 0
  grid_columns : ℤ := GRID_COLUMNS_NODE
  deriving Repr, DecidableEq

/-- Computed position for an item — `LayoutPosition`.  The source always
stores the results of Python `round` here, so both fields hold integral
rationals. -/
structure LayoutPosition where
  x : ℚ
  y : ℚ
  deriving Repr, DecidableEq

/-- Bounding box for a container — `ContainerBounds`. -/
structure ContainerBounds where
  x : ℚ
  y : ℚ
  width : ℚ
  height : ℚ
  deriving Repr, DecidableEq

-- ---------------------------------------------------------------------------
-- compute_organized_layout, split into its steps (organize.py lines 106-319)
-- ---------------------------------------------------------------------------

/-- Step 1 (lines 128-135): build adjacency and indegree maps over the item
ids; edges with an endpoint that is not a known item id are skipped. -/
def buildGraph (items : List OrganizeItem) (edges : List OrganizeEdge) :
    Dict String (List String) × Dict String ℤ :=
  let adjacency0 : Dict String (List String) :=
    items.foldl (fun d it => dset d it.id []) []
  let indegree0 : Dict String ℤ :=
    items.foldl (fun d it => dset d it.id 0) []
  edges.foldl
    (fun ad e =>
      if dmem ad.1 e.from_id && dmem ad.2 e.to_id then
        (dset ad.1 e.from_id ((dget ad.1 e.from_id).getD [] ++ [e.to_id]),
         dset ad.2 e.to_id ((dget ad.2 e.to_id).getD 0 + 1))
      else ad)
    (adjacency0, indegree0)

/-- Python `sorted(items, key=lambda it: (it.x, it.y))` comparison. -/
def itemLeXY (a b : OrganizeItem) : Bool :=
  decide (a.x < b.x) || (decide (a.x = b.x) && decide (a.y ≤ b.y))

/-- Python `sorted(items, key=lambda it: (it.y, it.x))` comparison. -/
def itemLeYX (a b : OrganizeItem) : Bool :=
  decide (a.y < b.y) || (decide (a.y = b.y) && decide (a.x ≤ b.x))

/-- Lines 141-146: seed the queue with all indegree-0 items sorted by
`(x, y)`, each at level 0.  Returns `(levels, queue)`. -/
def seedQueue (items : List OrganizeItem) (indeg : Dict String ℤ) :
    Dict String ℤ × List String :=
  (pySorted itemLeXY items).foldl
    (fun lq it =>
      if (dget indeg it.id).getD 0 = 0 then
        (dset lq.1 it.id 0, lq.2 ++ [it.id])
      else lq)
    ([], [])

/-- Lines 151-159: process one outgoing edge target in the Kahn loop. -/
def kahnTarget (currentLevel : ℤ)
    (st : Dict String ℤ × Dict String ℤ × List String) (target : String) :
    Dict String ℤ × Dict String ℤ × List String :=
  let candidate := currentLevel + 1
  let levels1 :=
    match dget st.1 target with
    | none => dset st.1 target candidate
    | some existing =>
        if candidate > existing then dset st.1 target candidate else st.1
  let newDegree := (dget st.2.1 target).getD 0 - 1
  let indeg1 := dset st.2.1 target newDegree
  let queue1 := if newDegree = 0 then st.2.2 ++ [target] else st.2.2
  (levels1, indeg1, queue1)

/-- Termination measure of the Kahn loop: queue length plus the sum of the
positive indegrees. -/
def degSum (d : Dict String ℤ) : ℕ :=
  (d.map (fun kv => kv.2.toNat)).sum

/-- Lines 148-159: the Kahn BFS loop (`while queue:`), in fuel-indexed form
so that it is structural (and hence evaluates inside the kernel).
`kahnLoop` below always supplies fuel equal to the termination measure
`queue length + positive indegree sum`, which each iteration strictly
decreases (`kahnFold_measure`), so the zero-fuel clause is unreachable:
`kahnLoopGo_fuel_free` proves the result is the same for every sufficient
fuel, i.e. this computes exactly what the source's unbounded `while queue:`
loop computes. -/
def kahnLoopGo (adjacency : Dict String (List String)) :
    ℕ → List String → Dict String ℤ → Dict String ℤ → Dict String ℤ
  | 0, _, levels, _ => levels
  | _ + 1, [], levels, _ => levels
  | fuel + 1, current :: rest, levels, indeg =>
    let currentLevel := (dget levels current).getD 0
    let st := ((dget adjacency current).getD []).foldl
      (kahnTarget currentLevel) (levels, indeg, rest)
    kahnLoopGo adjacency fuel st.2.2 st.1 st.2.1

/-- The Kahn loop, supplied with (always sufficient) fuel. -/
def kahnLoop (adjacency : Dict String (List String)) (queue : List String)
    (levels indeg : Dict String ℤ) : Dict String ℤ :=
  kahnLoopGo adjacency (queue.length + degSum indeg) queue levels indeg

/-- Steps 1-2 together: the raw level map after Kahn's sort. -/
def kahnLevels (items : List OrganizeItem) (edges : List OrganizeEdge) :
    Dict String ℤ :=
  let g := buildGraph items edges
  let lq := seedQueue items g.2
  kahnLoop g.1 lq.2 lq.1 g.2

/-- Step 3 (lines 161-174): assign levels to unresolved (cyclic) items. -/
def resolveUnresolved (items : List OrganizeItem) (edges : List OrganizeEdge)
    (levels : Dict String ℤ) : Dict String ℤ :=
  let unresolved := items.filter (fun it => !(dmem levels it.id))
  if unresolved.isEmpty then levels
  else
    (pySorted itemLeYX unresolved).foldl
      (fun lv it =>
        let incoming := (edges.filter (fun e => e.to_id = it.id)).filterMap
          (fun e => dget lv e.from_id)
        match incoming with
        | [] => dset lv it.id 0
        | x :: xs => dset lv it.id (xs.foldl max x + 1))
      levels

/-- Insert an integer into a sorted duplicate-free list
(`sorted(set(...))` helper). -/
def insSortedU (x : ℤ) : List ℤ → List ℤ
  | [] => [x]
  | y :: ys =>
    if x < y then x :: y :: ys
    else if x = y then y :: ys
    else y :: insSortedU x ys

/-- Python `sorted(set(l))`: the distinct values of `l` in ascending order. -/
def sortedDistinct (l : List ℤ) : List ℤ := l.foldr insSortedU []

/-- Python `{lvl: idx for idx, lvl in enumerate(uniq)}.get(lvl, lvl)`. -/
def remapLookup : List ℤ → ℤ → ℤ → ℤ
  | [], _, lvl => lvl
  | u :: us, idx, lvl => if u = lvl then idx else remapLookup us (idx + 1) lvl

/-- Step 4 (lines 176-182): compress level gaps. -/
def normalizeLevels (levels : Dict String ℤ) : Dict String ℤ :=
  let uniq := sortedDistinct (dvalues levels)
  levels.map (fun kv => (kv.1, remapLookup uniq 0 kv.2))

/-- Line 184: `normalized if normalized else dict(levels)`. -/
def effectiveBase (levels : Dict String ℤ) : Dict String ℤ :=
  let n := normalizeLevels levels
  if n.isEmpty then levels else n

/-- Step 5 (lines 186-199): grid fallback for disconnected graphs.  Python
`//` is floor division, `Int.fdiv` here.  This definition totalizes the
division (`Int.fdiv x 0 = 0`), whereas Python raises `ZeroDivisionError`
at `grid_columns = 0`; the raising behaviour is modelled faithfully by
`applyGridFallbackChecked` below, which agrees with this totalization
whenever `grid_columns ≠ 0` (`applyGridFallbackChecked_some`). -/
def applyGridFallback (items : List OrganizeItem) (edges : List OrganizeEdge)
    (opts : OrganizeOptions) (eff : Dict String ℤ) : Dict String ℤ :=
  if edges.length = 0 && items.length > 1 then
    let ordered := pySorted itemLeYX items
    ordered.enum.foldl
      (fun e p =>
        if opts.orientation = "horizontal" then
          dset e p.2.id (Int.fdiv (p.1 : ℤ) opts.grid_columns)
        else
          dset e p.2.id (Int.fdiv (p.1 : ℤ) opts.grid_columns))
      eff
  else eff

/-- Python `a // b`: floor division, which raises `ZeroDivisionError` when
`b = 0`; the raise is modelled as `none`. -/
def fdivChecked (a b : ℤ) : Option ℤ :=
  if b = 0 then none else some (Int.fdiv a b)

/-- Step 5 (lines 186-199) with the division of lines 195/198 checked:
`none` exactly when the Python loop raises `ZeroDivisionError`, namely when
the fallback branch is taken (`total_edges == 0 and len(items) > 1`,
line 190) with `opts.grid_columns = 0` — the first iteration already
evaluates `idx // grid_columns`. -/
def applyGridFallbackChecked (items : List OrganizeItem)
    (edges : List OrganizeEdge) (opts : OrganizeOptions)
    (eff : Dict String ℤ) : Option (Dict String ℤ) :=
  if edges.length = 0 && items.length > 1 then
    let ordered := pySorted itemLeYX items
    ordered.enum.foldl
      (fun acc p =>
        match acc with
        | none => none
        | some e =>
          match fdivChecked (p.1 : ℤ) opts.grid_columns with
          | none => none
          | some q =>
            if opts.orientation = "horizontal" then some (dset e p.2.id q)
            else some (dset e p.2.id q))
      (some eff)
  else some eff

/-- Steps 1-5 together: the effective level assignment used for placement. -/
def effectiveLevels (items : List OrganizeItem) (edges : List OrganizeEdge)
    (opts : OrganizeOptions) : Dict String ℤ :=
  applyGridFallback items edges opts
    (effectiveBase (resolveUnresolved items edges (kahnLevels items edges)))

/-- Steps 1-5 with the grid-fallback division checked: steps 1-4 of the
source are total, so the only failure is the `ZeroDivisionError` of
step 5. -/
def effectiveLevelsChecked (items : List OrganizeItem)
    (edges : List OrganizeEdge) (opts : OrganizeOptions) :
    Option (Dict String ℤ) :=
  applyGridFallbackChecked items edges opts
    (effectiveBase (resolveUnresolved items edges (kahnLevels items edges)))

/-- Step 6 grouping (lines 201-208): group items by level, preserving the
level map's insertion order. -/
def groupByLevel (itemMap : Dict String OrganizeItem)
    (eff : Dict String ℤ) : Dict ℤ (List OrganizeItem) :=
  eff.foldl
    (fun g kv =>
      let g1 := if dmem g kv.2 then g else dset g kv.2 []
      match dget itemMap kv.1 with
      | some item => dset g1 kv.2 ((dget g1 kv.2).getD [] ++ [item])
      | none => g1)
    []

/-- Python `sum` over rationals. -/
def listSumQ (l : List ℚ) : ℚ := l.foldl (· + ·) 0

/-- Line 233-241: centers of the already-positioned predecessors of an item
(the `if parent_item and parent_pos` truthiness test always passes for the
dataclass instances the dictionaries hold). -/
def getParentCenters (edges : List OrganizeEdge)
    (itemMap : Dict String OrganizeItem)
    (layout : Dict String LayoutPosition) (item_id : String) : List ℚ :=
  edges.foldl
    (fun cs e =>
      if e.to_id = item_id && dmem layout e.from_id then
        match dget itemMap e.from_id, dget layout e.from_id with
        | some pitem, some ppos => cs ++ [ppos.y + pitem.height / 2]
        | _, _ => cs
      else cs)
    []

/-- One sortable column entry (the dict literal of lines 261-265). -/
structure ColumnEntry where
  item : OrganizeItem
  target_center : ℚ
  fallback_center : ℚ
  deriving Repr, DecidableEq

/-- Line 268 sort key: `(target_center, fallback_center, id)`. -/
def entryLe (a b : ColumnEntry) : Bool :=
  decide (a.target_center < b.target_center) ||
    (decide (a.target_center = b.target_center) &&
      (decide (a.fallback_center < b.fallback_center) ||
        (decide (a.fallback_center = b.fallback_center) &&
          pyStrLe a.item.id b.item.id)))

/-- Lines 270-290: place one column's sorted entries.  `previous_bottom`
starts as `float("-inf")`, modelled by `none`.  Over exact rationals the
two `math.isfinite(desired_top)` rescues (lines 276-280) never fire, so the
`reference_center_y` fallback is dead code here exactly as in every finite
run of the source. -/
def placeColumnEntries (v_spacing : ℚ) (current_x : ℚ)
    (entries : List ColumnEntry) (layout : Dict String LayoutPosition) :
    Dict String LayoutPosition :=
  (entries.foldl
    (fun (st : Dict String LayoutPosition × Option ℚ) entry =>
      let desired0 := entry.target_center - entry.item.height / 2
      let desired_top :=
        match st.2 with
        | none => desired0
        | some pb =>
          if desired0 < pb + v_spacing then pb + v_spacing else desired0
      let final_y : ℤ := pyRound desired_top
      (dset st.1 entry.item.id ⟨(pyRound current_x : ℤ), (final_y : ℤ)⟩,
       some ((final_y : ℚ) + entry.item.height)))
    (layout, none)).1

/-- The maximum width in a column (line 248); the column is nonempty at
every use site. -/
def columnWidth : List OrganizeItem → ℚ
  | [] => 0
  | c :: cs => cs.foldl (fun m it => max m it.width) c.width

/-- Lines 243-292: the horizontal branch.  Builds each column's entries
(target center = mean of positioned parent centers, else the item's own
center; the `math.isfinite(target_center)` test of line 257 always passes
over rationals), sorts them and places them left to right. -/
def placeHorizontal (edges : List OrganizeEdge)
    (itemMap : Dict String OrganizeItem)
    (grouped : Dict ℤ (List OrganizeItem)) (orderedLevels : List ℤ)
    (h_spacing v_spacing start_x : ℚ) : Dict String LayoutPosition :=
  (orderedLevels.foldl
    (fun (st : Dict String LayoutPosition × ℚ) level =>
      let column_items := (dget grouped level).getD []
      if column_items.isEmpty then st
      else
        let entries := column_items.map
          (fun item =>
            let pcs := getParentCenters edges itemMap st.1 item.id
            let fallback := item.y + item.height / 2
            let target :=
              if pcs.isEmpty then fallback
              else listSumQ pcs / (pcs.length : ℚ)
            ⟨item, target, fallback⟩)
        (placeColumnEntries v_spacing st.2 (pySorted entryLe entries) st.1,
         st.2 + columnWidth column_items + h_spacing))
    ([], start_x)).1

/-- Line 299 sort key: `(it.x, it.id)`. -/
def itemLeXId (a b : OrganizeItem) : Bool :=
  decide (a.x < b.x) || (decide (a.x = b.x) && pyStrLe a.id b.id)

/-- Lines 294-312: the vertical branch. -/
def placeVertical (grouped : Dict ℤ (List OrganizeItem))
    (orderedLevels : List ℤ) (h_spacing v_spacing reference_center_x start_y : ℚ) :
    Dict String LayoutPosition :=
  (orderedLevels.foldl
    (fun (st : Dict String LayoutPosition × ℚ) level =>
      let row_items := pySorted itemLeXId ((dget grouped level).getD [])
      if row_items.isEmpty then st
      else
        let total_width := listSumQ (row_items.map (·.width))
          + ((row_items.length : ℚ) - 1) * h_spacing
        let inner := row_items.foldl
          (fun (acc : Dict String LayoutPosition × ℚ × ℚ) item =>
            (dset acc.1 item.id
              ⟨(pyRound acc.2.1 : ℤ), (pyRound st.2 : ℤ)⟩,
             acc.2.1 + item.width + h_spacing,
             max acc.2.2 item.height))
          (st.1, reference_center_x - total_width / 2, 0)
        (inner.1, st.2 + inner.2.2 + v_spacing))
    ([], start_y)).1

/-- Minimum of a nonempty projection (Python `min(gen)`); 0 for `[]`,
which never occurs at the use sites. -/
def listMinQ (l : List ℚ) : ℚ :=
  match l with
  | [] => 0
  | x :: xs => xs.foldl min x

/-- Maximum counterpart of `listMinQ`. -/
def listMaxQ (l : List ℚ) : ℚ :=
  match l with
  | [] => 0
  | x :: xs => xs.foldl max x

/-- Line 126: `item_map = {item.id: item for item in items}`. -/
def layoutItemMap (items : List OrganizeItem) : Dict String OrganizeItem :=
  items.foldl (fun d it => dset d it.id it) []

/-- The grouped levels (lines 201-208) as used by `computeOrganizedLayout`. -/
def layoutGrouped (items : List OrganizeItem) (edges : List OrganizeEdge)
    (opts : OrganizeOptions) : Dict ℤ (List OrganizeItem) :=
  groupByLevel (layoutItemMap items) (effectiveLevels items edges opts)

/-- Line 210: `ordered_levels = sorted(grouped.keys())`. -/
def layoutOrderedLevels (items : List OrganizeItem) (edges : List OrganizeEdge)
    (opts : OrganizeOptions) : List ℤ :=
  pySorted (fun a b => decide (a ≤ b)) (dkeys (layoutGrouped items edges opts))

/-- Line 221: `opts.start_x if opts.start_x != 0 else min_x`. -/
def defaultStartX (items : List OrganizeItem) (opts : OrganizeOptions) : ℚ :=
  if opts.start_x ≠ 0 then opts.start_x else listMinQ (items.map (·.x))

/-- Line 222: `opts.start_y if opts.start_y != 0 else min_y`. -/
def defaultStartY (items : List OrganizeItem) (opts : OrganizeOptions) : ℚ :=
  if opts.start_y ≠ 0 then opts.start_y else listMinQ (items.map (·.y))

/-- Lines 212-312: the positioning phase of `compute_organized_layout` (the
dictionary built before the final unpositioned-item fallback).  The source
also computes `default_center_y` from `max_y` here; it is read only by the
dead `isfinite` rescue of the horizontal branch and hence dropped. -/
def layoutPlaced (items : List OrganizeItem) (edges : List OrganizeEdge)
    (opts : OrganizeOptions) : Dict String LayoutPosition :=
  if opts.orientation = "horizontal" then
    placeHorizontal edges (layoutItemMap items) (layoutGrouped items edges opts)
      (layoutOrderedLevels items edges opts)
      opts.horizontal_spacing opts.vertical_spacing (defaultStartX items opts)
  else
    let min_x := listMinQ (items.map (·.x))
    let max_x := listMaxQ (items.map (fun it => it.x + it.width))
    let reference_center_x :=
      if opts.reference_center_x ≠ 0 then opts.reference_center_x
      else (min_x + max_x) / 2
    placeVertical (layoutGrouped items edges opts)
      (layoutOrderedLevels items edges opts)
      opts.horizontal_spacing opts.vertical_spacing
      reference_center_x (defaultStartY items opts)

/-- Core organize algorithm — `compute_organized_layout()`
(organize.py lines 106-319). -/
def computeOrganizedLayout (items : List OrganizeItem)
    (edges : List OrganizeEdge) (opts : OrganizeOptions) :
    Dict String LayoutPosition :=
  if items.isEmpty then []
  else
    items.foldl
      (fun ly it =>
        if dmem ly it.id then ly
        else dset ly it.id ⟨(pyRound it.x : ℤ), (pyRound it.y : ℤ)⟩)
      (layoutPlaced items edges opts)

/-- `compute_organized_layout()` with its single failure path made
explicit.  Every step of the source is total except the grid fallback's
`idx // grid_columns` (lines 195/198), which raises `ZeroDivisionError`
when `opts.grid_columns = 0`; the raise is modelled as `none` (the
empty-item early return of line 122 precedes it).  On the non-raising
path the checked fallback returns exactly `applyGridFallback`
(`applyGridFallbackChecked_some`), so the remaining total steps are those
of `computeOrganizedLayout`. -/
def computeOrganizedLayoutChecked (items : List OrganizeItem)
    (edges : List OrganizeEdge) (opts : OrganizeOptions) :
    Option (Dict String LayoutPosition) :=
  if items.isEmpty then some []
  else
    match effectiveLevelsChecked items edges opts with
    | none => none
    | some _ => some (computeOrganizedLayout items edges opts)

-- ---------------------------------------------------------------------------
-- Canvas data model (models.py) — the fields the organizer reads or writes
-- ---------------------------------------------------------------------------

/-- A node on the canvas — `CanvasNode` (models.py).  Fields the organizer
never touches (type, content, label, style) are omitted; `width`/`height`
default to 250/120 as in the source. -/
structure CanvasNode where
  id : String
  x : ℚ := 0
  y : ℚ := 0
  width : ℚ := 250
  height : ℚ := 120
  inputs : List String := []
  outputs : List String := []
  deriving Repr, DecidableEq

/-- `CanvasMachine`. -/
structure CanvasMachine where
  id : String
  nodes : List CanvasNode := []
  deriving Repr, DecidableEq

/-- `CanvasFactory`. -/
structure CanvasFactory where
  id : String
  machines : List CanvasMachine := []
  deriving Repr, DecidableEq

/-- `CanvasNetwork`. -/
structure CanvasNetwork where
  id : String
  factories : List CanvasFactory := []
  deriving Repr, DecidableEq

/-- `Canvas` (layout-relevant part). -/
structure Canvas where
  networks : List CanvasNetwork := []
  deriving Repr, DecidableEq

/-- `Canvas.all_nodes()`. -/
def allNodes (c : Canvas) : List CanvasNode :=
  c.networks.foldl
    (fun acc net => net.factories.foldl
      (fun acc f => f.machines.foldl (fun acc m => acc ++ m.nodes) acc) acc)
    []

/-- `Canvas.all_connections()`: `(input, node)` and `(node, output)` pairs,
deduplicated.  The source deduplicates with `list(set(...))`, whose order
is unspecified; we keep the first occurrence of each pair. -/
def allConnections (c : Canvas) : List (String × String) :=
  let conns := (allNodes c).foldl
    (fun acc node =>
      acc ++ node.inputs.map (fun i => (i, node.id))
          ++ node.outputs.map (fun o => (node.id, o)))
    []
  (conns.foldl
    (fun (acc : List (String × String)) p =>
      if acc.contains p then acc else acc ++ [p]) [])

-- ---------------------------------------------------------------------------
-- compute_bounds_from_nodes (organize.py lines 326-358)
-- ---------------------------------------------------------------------------

/-- `compute_bounds_from_nodes()`.  Over exact rationals every coordinate is
finite, so the `math.isfinite` skip (line 343) and the final non-finite
check (line 350) only fire for the empty node list.  Python `node.width or
360` substitutes the default when the stored value is falsy, i.e. zero. -/
def computeBoundsFromNodes (nodes : List CanvasNode) : Option ContainerBounds :=
  let acc := nodes.foldl
    (fun (a : Option (ℚ × ℚ × ℚ × ℚ)) (n : CanvasNode) =>
      let w : ℚ := if n.width = 0 then 360 else n.width
      let h : ℚ := if n.height = 0 then 180 else n.height
      match a with
      | none => some (n.x, n.y, n.x + w, n.y + h)
      | some (mnx, mny, mxx, mxy) =>
          some (min mnx n.x, min mny n.y, max mxx (n.x + w), max mxy (n.y + h)))
    none
  match acc with
  | none => none
  | some (mnx, mny, mxx, mxy) =>
      some ⟨mnx, mny, max 1 (mxx - mnx), max 1 (mxy - mny)⟩

-- ---------------------------------------------------------------------------
-- _resolve_edges_for_containers (organize.py lines 365-398)
-- ---------------------------------------------------------------------------

/-- `_resolve_edges_for_containers()`.  `if not src_container` is Python
truthiness: it also skips empty-string container ids. -/
def resolveEdgesForContainers (connections : List (String × String))
    (node_to_container : Dict String String) (container_ids : List String) :
    List OrganizeEdge :=
  (connections.foldl
    (fun (st : List (String × String) × List OrganizeEdge) c =>
      match dget node_to_container c.1, dget node_to_container c.2 with
      | some sc, some dc =>
        if sc = "" || dc = "" then st
        else if sc = dc then st
        else if !(container_ids.contains sc) || !(container_ids.contains dc) then st
        else if st.1.contains (sc, dc) then st
        else (st.1 ++ [(sc, dc)], st.2 ++ [⟨sc, dc⟩])
      | _, _ => st)
    ([], [])).2

-- ---------------------------------------------------------------------------
-- Hierarchical organize (organize.py lines 405-847)
-- ---------------------------------------------------------------------------

/-- Translate one node by `(dx, dy)` (`node.x += dx; node.y += dy`). -/
def shiftNode (dx dy : ℚ) (n : CanvasNode) : CanvasNode :=
  { n with x := n.x + dx, y := n.y + dy }

/-- Translate every node of a machine. -/
def shiftMachine (dx dy : ℚ) (m : CanvasMachine) : CanvasMachine :=
  { m with nodes := m.nodes.map (shiftNode dx dy) }

/-- Translate every node of a factory. -/
def shiftFactory (dx dy : ℚ) (f : CanvasFactory) : CanvasFactory :=
  { f with machines := f.machines.map (shiftMachine dx dy) }

/-- Translate every node of a network. -/
def shiftNetwork (dx dy : ℚ) (net : CanvasNetwork) : CanvasNetwork :=
  { net with factories := net.factories.map (shiftFactory dx dy) }

/-- `_organize_machine()` (lines 405-462): lay out the nodes of one machine
and return the updated machine together with its bounds. -/
def organizeMachine (machine : CanvasMachine)
    (all_connections : List (String × String)) (start_x start_y : ℚ)
    (orientation : String) : CanvasMachine × Option ContainerBounds :=
  if machine.nodes.isEmpty then (machine, none)
  else
    let node_ids := machine.nodes.map (·.id)
    let items := machine.nodes.map
      (fun node =>
        ({ id := node.id, item_type := "node", width := node.width,
           height := node.height, x := node.x, y := node.y,
           node_ids := [node.id] } : OrganizeItem))
    let edges := (all_connections.filter
        (fun c => node_ids.contains c.1 && node_ids.contains c.2)).map
      (fun c => OrganizeEdge.mk c.1 c.2)
    let options : OrganizeOptions :=
      { orientation := orientation,
        horizontal_spacing := NODE_HORIZONTAL_SPACING,
        vertical_spacing := NODE_VERTICAL_SPACING,
        start_x := start_x + MACHINE_PADDING,
        start_y := start_y + MACHINE_PADDING,
        grid_columns := GRID_COLUMNS_NODE }
    let layout := computeOrganizedLayout items edges options
    let newNodes := machine.nodes.map
      (fun node =>
        match dget layout node.id with
        | some pos => { node with x := pos.x, y := pos.y }
        | none => node)
    ({ machine with nodes := newNodes }, computeBoundsFromNodes newNodes)

/-- Step 6 of `_organize_factory` (lines 550-566): translate one machine's
nodes to the machine's new position (40 = label header height). -/
def factoryPlaceMachine (layout : Dict String LayoutPosition)
    (machine_bounds : Dict String ContainerBounds) (m : CanvasMachine) :
    CanvasMachine :=
  match dget layout m.id, dget machine_bounds m.id with
  | some pos, some bounds =>
      shiftMachine (pos.x + MACHINE_PADDING - bounds.x)
        (pos.y + MACHINE_PADDING + 40 - bounds.y) m
  | _, _ => m

/-- `_organize_factory()` (lines 465-572). -/
def organizeFactory (factory : CanvasFactory)
    (all_connections : List (String × String)) (start_x start_y : ℚ)
    (orientation : String) : CanvasFactory × Option ContainerBounds :=
  if factory.machines.isEmpty then (factory, none)
  else
    let step1 := factory.machines.map
      (fun m => organizeMachine m all_connections 0 0 orientation)
    let machines1 := step1.map (·.1)
    let machine_bounds : Dict String ContainerBounds := step1.foldl
      (fun d mb => match mb.2 with
        | some b => dset d mb.1.id b
        | none => d) []
    let factory1 := { factory with machines := machines1 }
    if machine_bounds.isEmpty then (factory1, none)
    else
      let node_to_machine : Dict String String := machines1.foldl
        (fun d m => m.nodes.foldl (fun d n => dset d n.id m.id) d) []
      let machine_ids := machines1.map (·.id)
      let container_edges :=
        resolveEdgesForContainers all_connections node_to_machine machine_ids
      let items := machines1.foldl
        (fun acc m =>
          match dget machine_bounds m.id with
          | none => acc
          | some bounds =>
              acc ++ [({ id := m.id, item_type := "machine",
                           width := bounds.width + MACHINE_PADDING * 2,
                           height := bounds.height + MACHINE_PADDING * 2 + 40,
                           x := bounds.x, y := bounds.y,
                           node_ids := m.nodes.map (·.id) } : OrganizeItem)])
        []
      if items.isEmpty then (factory1, none)
      else
        let effective_grid_columns : ℤ :=
          if container_edges.isEmpty then items.length
          else GRID_COLUMNS_CONTAINER
        let options : OrganizeOptions :=
          { orientation := orientation,
            horizontal_spacing := CONTAINER_HORIZONTAL_SPACING,
            vertical_spacing := CONTAINER_VERTICAL_SPACING,
            start_x := start_x + FACTORY_PADDING,
            start_y := start_y + FACTORY_PADDING,
            grid_columns := effective_grid_columns }
        let layout := computeOrganizedLayout items container_edges options
        let machines2 := machines1.map (factoryPlaceMachine layout machine_bounds)
        ({ factory with machines := machines2 },
         computeBoundsFromNodes (machines2.foldl (fun acc m => acc ++ m.nodes) []))

/-- All nodes of a list of factories (`_get_all_network_nodes`). -/
def allFactoryListNodes (factories : List CanvasFactory) : List CanvasNode :=
  factories.foldl
    (fun acc f => f.machines.foldl (fun acc m => acc ++ m.nodes) acc) []

/-- Step 6 of `_organize_network` (lines 675-688): translate one factory's
nodes to the factory's new position. -/
def networkPlaceFactory (layout : Dict String LayoutPosition)
    (factory_bounds : Dict String ContainerBounds) (f : CanvasFactory) :
    CanvasFactory :=
  match dget layout f.id, dget factory_bounds f.id with
  | some pos, some bounds =>
      shiftFactory (pos.x + FACTORY_PADDING - bounds.x)
        (pos.y + FACTORY_PADDING + 40 - bounds.y) f
  | _, _ => f

/-- `_organize_network()` (lines 575-695).  In the single-factory branch the
source reads `factory_bounds[network.factories[0].id]`, which raises
`KeyError` when the only measured factory is not the first one; that crash
state is modelled by skipping the translation (no claim reaches it). -/
def organizeNetwork (network : CanvasNetwork)
    (all_connections : List (String × String)) (start_x start_y : ℚ)
    (orientation : String) : CanvasNetwork × Option ContainerBounds :=
  if network.factories.isEmpty then (network, none)
  else
    let step1 := network.factories.map
      (fun f => organizeFactory f all_connections 0 0 orientation)
    let factories1 := step1.map (·.1)
    let factory_bounds : Dict String ContainerBounds := step1.foldl
      (fun d fb => match fb.2 with
        | some b => dset d fb.1.id b
        | none => d) []
    let network1 := { network with factories := factories1 }
    if factory_bounds.isEmpty then (network1, none)
    else if factory_bounds.length = 1 then
      match factories1 with
      | [] => (network1, none)
      | f0 :: frest =>
        match dget factory_bounds f0.id with
        | some bounds =>
            let factories2 :=
              shiftFactory (start_x + NETWORK_PADDING - bounds.x)
                (start_y + NETWORK_PADDING - bounds.y) f0 :: frest
            ({ network with factories := factories2 },
             computeBoundsFromNodes (allFactoryListNodes factories2))
        | none =>
            (network1, computeBoundsFromNodes (allFactoryListNodes factories1))
    else
      let node_to_factory : Dict String String := factories1.foldl
        (fun d f => f.machines.foldl
          (fun d m => m.nodes.foldl (fun d n => dset d n.id f.id) d) d) []
      let factory_ids := factories1.map (·.id)
      let container_edges :=
        resolveEdgesForContainers all_connections node_to_factory factory_ids
      let items := factories1.foldl
        (fun acc f =>
          match dget factory_bounds f.id with
          | none => acc
          | some bounds =>
              acc ++ [({ id := f.id, item_type := "factory",
                           width := bounds.width + FACTORY_PADDING * 2,
                           height := bounds.height + FACTORY_PADDING * 2 + 40,
                           x := bounds.x, y := bounds.y,
                           node_ids := (f.machines.foldl
                             (fun a m => a ++ m.nodes) []).map (·.id) } : OrganizeItem)])
        []
      if items.isEmpty then (network1, none)
      else
        let effective_grid_columns : ℤ :=
          if container_edges.isEmpty then items.length
          else GRID_COLUMNS_CONTAINER
        let options : OrganizeOptions :=
          { orientation := orientation,
            horizontal_spacing := NETWORK_HORIZONTAL_SPACING,
            vertical_spacing := NETWORK_VERTICAL_SPACING,
            start_x := start_x + NETWORK_PADDING,
            start_y := start_y + NETWORK_PADDING,
            grid_columns := effective_grid_columns }
        let layout := computeOrganizedLayout items container_edges options
        let factories2 := factories1.map (networkPlaceFactory layout factory_bounds)
        ({ network with factories := factories2 },
         computeBoundsFromNodes (allFactoryListNodes factories2))

/-- `_get_all_network_nodes()`. -/
def allNetworkNodes (net : CanvasNetwork) : List CanvasNode :=
  allFactoryListNodes net.factories

def INTER_NETWORK_HORIZONTAL_SPACING : ℚ := 320
def INTER_NETWORK_VERTICAL_SPACING : ℚ := 380

/-- Final placement pass of `organize_canvas` (lines 833-847). -/
def canvasPlaceNetwork (layout : Dict String LayoutPosition)
    (network_bounds : Dict String ContainerBounds) (net : CanvasNetwork) :
    CanvasNetwork :=
  match dget layout net.id, dget network_bounds net.id with
  | some pos, some bounds =>
      shiftNetwork (pos.x + NETWORK_PADDING - bounds.x)
        (pos.y + NETWORK_PADDING - bounds.y) net
  | _, _ => net

/-- `organize_canvas()` (lines 716-847), as a pure function on the canvas.
`spacing_level` is accepted and, as in the source, never read. -/
def organizeCanvas (canvas : Canvas) (spacing_level : String)
    (orientation : String) : Canvas :=
  if (allNodes canvas).isEmpty then canvas
  else
    let _ := spacing_level
    let all_connections := allConnections canvas
    let start_x : ℚ := 80
    let start_y : ℚ := 100
    let networks1 := canvas.networks.map
      (fun net => (organizeNetwork net all_connections 0 0 orientation).1)
    let network_bounds : Dict String ContainerBounds := networks1.foldl
      (fun d net =>
        match computeBoundsFromNodes (allNetworkNodes net) with
        | some b => dset d net.id b
        | none => d) []
    let canvas1 := { canvas with networks := networks1 }
    if canvas.networks.length ≤ 1 then
      match networks1 with
      | [] => canvas1
      | net :: rest =>
        if (allNetworkNodes net).isEmpty then canvas1
        else
          match dget network_bounds net.id with
          | some bounds =>
              { canvas with networks :=
                  shiftNetwork (start_x - bounds.x) (start_y - bounds.y) net :: rest }
          | none => canvas1
    else
      let node_to_network : Dict String String := networks1.foldl
        (fun d net => net.factories.foldl
          (fun d f => f.machines.foldl
            (fun d m => m.nodes.foldl (fun d n => dset d n.id net.id) d) d) d) []
      let network_ids := networks1.map (·.id)
      let container_edges :=
        resolveEdgesForContainers all_connections node_to_network network_ids
      let items := networks1.foldl
        (fun acc net =>
          match dget network_bounds net.id with
          | none => acc
          | some bounds =>
              acc ++ [({ id := net.id, item_type := "network",
                           width := bounds.width + NETWORK_PADDING * 2,
                           height := bounds.height + NETWORK_PADDING * 2,
                           x := bounds.x, y := bounds.y,
                           node_ids := (allNetworkNodes net).map (·.id) } : OrganizeItem)])
        []
      if items.isEmpty then canvas1
      else
        let options : OrganizeOptions :=
          { orientation := orientation,
            horizontal_spacing := INTER_NETWORK_HORIZONTAL_SPACING,
            vertical_spacing := INTER_NETWORK_VERTICAL_SPACING,
            start_x := start_x,
            start_y := start_y,
            grid_columns := GRID_COLUMNS_CONTAINER }
        let layout := computeOrganizedLayout items container_edges options
        { canvas with networks :=
            networks1.map (canvasPlaceNetwork layout network_bounds) }

-- ---------------------------------------------------------------------------
-- Definitions supporting the claim statements and proofs
-- ---------------------------------------------------------------------------

/-- Forget a node's position (used to state the frame property: `organize`
touches nothing but `x` and `y`). -/
def eraseNodePos (n : CanvasNode) : CanvasNode := { n with x := 0, y := 0 }

/-- Forget every node position in a machine. -/
def eraseMachinePos (m : CanvasMachine) : CanvasMachine :=
  { m with nodes := m.nodes.map eraseNodePos }

/-- Forget every node position in a factory. -/
def eraseFactoryPos (f : CanvasFactory) : CanvasFactory :=
  { f with machines := f.machines.map eraseMachinePos }

/-- Forget every node position in a network. -/
def eraseNetworkPos (net : CanvasNetwork) : CanvasNetwork :=
  { net with factories := net.factories.map eraseFactoryPos }

/-- Forget every node position in a canvas. -/
def eraseCanvasPos (c : Canvas) : Canvas :=
  { c with networks := c.networks.map eraseNetworkPos }

/-- Acyclicity of an edge list, stated as topological sortability — for a
finite directed graph this is the standard equivalent of having no directed
cycle. -/
def Acyclic (edges : List OrganizeEdge) : Prop :=
  ∃ rank : String → ℕ, ∀ e ∈ edges, rank e.from_id < rank e.to_id

/-- Number of edges into `v`. -/
def inCount (edges : List OrganizeEdge) (v : String) : ℕ :=
  (edges.filter (fun e => e.to_id = v)).length

/-- The targets of the edges out of `c`, in edge order (what the adjacency
list of `c` holds after Step 1 when every edge endpoint is a known id). -/
def outTargets (edges : List OrganizeEdge) (c : String) : List String :=
  (edges.filter (fun e => e.from_id = c)).map (·.to_id)

/-- Number of edges into `v` whose source lies in `P`. -/
def countFromP (edges : List OrganizeEdge) (P : List String) (v : String) : ℕ :=
  (edges.filter (fun e => e.to_id = v && decide (e.from_id ∈ P))).length

/-- Loop invariant of the Kahn BFS (Step 2), with `P` the list of already
dequeued ids: indegrees count the unprocessed in-edges, every id whose
in-edges are all processed has been seen, levels exist for seen ids, every
processed edge already points strictly upward, and enqueued ids have no
unprocessed in-edges. -/
structure KahnInv (edges : List OrganizeEdge) (ids : List String)
    (P q : List String) (L D : Dict String ℤ) : Prop where
  p_nodup : P.Nodup
  p_sub : ∀ v ∈ P, v ∈ ids
  q_nodup : q.Nodup
  q_sub : ∀ v ∈ q, v ∈ ids
  pq_disj : ∀ v ∈ q, v ∉ P
  deg : ∀ v ∈ ids, dget D v = some ((inCount edges v : ℤ) - (countFromP edges P v : ℤ))
  complete : ∀ v ∈ ids, countFromP edges P v = inCount edges v → v ∈ P ∨ v ∈ q
  lvl_some : ∀ v, v ∈ P ∨ v ∈ q → (dget L v).isSome
  edge_ok : ∀ e ∈ edges, e.from_id ∈ P →
    ∃ lu lv, dget L e.from_id = some lu ∧ dget L e.to_id = some lv ∧ lu + 1 ≤ lv
  to_in : ∀ e ∈ edges, e.to_id ∈ P ∨ e.to_id ∈ q → e.from_id ∈ P
  q_deg : ∀ v ∈ q, countFromP edges P v = inCount edges v

/-- Specification of the horizontal placement fold of one column: the
tops assigned to the entries, in placement order. -/
def placeTops (v_spacing : ℚ) : Option ℚ → List ColumnEntry → List (ColumnEntry × ℤ)
  | _, [] => []
  | pb, e :: es =>
    let desired0 := e.target_center - e.item.height / 2
    let desired_top :=
      match pb with
      | none => desired0
      | some b => if desired0 < b + v_spacing then b + v_spacing else desired0
    let y := pyRound desired_top
    (e, y) :: placeTops v_spacing (some ((y : ℚ) + e.item.height)) es

/-- A canvas node literal for the concrete counterexample inputs. -/
def demoNode (i : String) (x y : ℚ) : CanvasNode := { id := i, x := x, y := y }

/-- Five disconnected nodes in one machine/factory/network (all defaults,
no connections): the grid-fallback regrouping witness. -/
def gridCanvas5 : Canvas :=
  ⟨[⟨"net1", [⟨"f1", [⟨"m1",
    [demoNode "n1" 0 0, demoNode "n2" 10 10, demoNode "n3" 20 20,
     demoNode "n4" 30 30, demoNode "n5" 40 40]⟩]⟩]⟩]⟩

/-- The result of one `organize` run on `gridCanvas5`. -/
def gridCanvas5Once : Canvas :=
  ⟨[⟨"net1", [⟨"f1", [⟨"m1",
    [demoNode "n1" 80 100, demoNode "n2" 80 360, demoNode "n3" 80 620,
     demoNode "n4" 80 880, demoNode "n5" 420 140]⟩]⟩]⟩]⟩

/-- A two-node chain canvas (`a → b` via an output reference). -/
def chainCanvas : Canvas :=
  ⟨[⟨"net1", [⟨"f1", [⟨"m1",
    [{ id := "a", x := 0, y := 0, outputs := ["b"] }, demoNode "b" 10 10]⟩]⟩]⟩]⟩

/-- A factory holding exactly one machine with one node at `(10, 500)`. -/
def singleMachineFactory : CanvasFactory :=
  ⟨"f1", [⟨"m1", [demoNode "n1" 10 500]⟩]⟩

/-- The root of the fan-out `root → {a, b, c}` family. -/
def fanRoot : OrganizeItem :=
  { id := "root", width := 250, height := 120, x := 0, y := 0 }

/-- Fan-out child `a`, with a variable height. -/
def fanA (h : ℚ) : OrganizeItem :=
  { id := "a", width := 250, height := h, x := 10, y := 10 }

/-- Fan-out child `b`, with a variable height. -/
def fanB (h : ℚ) : OrganizeItem :=
  { id := "b", width := 250, height := h, x := 10, y := 200 }

/-- Fan-out child `c`, with a variable height. -/
def fanC (h : ℚ) : OrganizeItem :=
  { id := "c", width := 250, height := h, x := 10, y := 400 }

/-- The fan-out edges `root→a`, `root→b`, `root→c`. -/
def fanEdges : List OrganizeEdge :=
  [⟨"root", "a"⟩, ⟨"root", "b"⟩, ⟨"root", "c"⟩]

/-- The column entries built for the fan-out's second column (`a`, `b`,
`c`), exactly as lines 250-265 build them from the already-placed root. -/
def fanColumnEntries (ha hb hc : ℚ) : List ColumnEntry :=
  [fanA ha, fanB hb, fanC hc].map (fun item =>
    let pcs := getParentCenters fanEdges
      [("root", fanRoot), ("a", fanA ha), ("b", fanB hb), ("c", fanC hc)]
      [("root", ⟨0, 0⟩)] item.id
    let fallback := item.y + item.height / 2
    let target := if pcs.isEmpty then fallback
      else listSumQ pcs / (pcs.length : ℚ)
    ⟨item, target, fallback⟩)

-- ---------------------------------------------------------------------------
-- Theorems
-- ---------------------------------------------------------------------------
theorem degSum_nil : degSum [] = 0 := rfl

theorem degSum_cons (kv : String × ℤ) (rest : Dict String ℤ) :
    degSum (kv :: rest) = kv.2.toNat + degSum rest := by
  simp [degSum]

theorem degSum_dset_none (d : Dict String ℤ) (k : String) (v : ℤ)
    (h : dget d k = none) : degSum (dset d k v) = degSum d + v.toNat := by
  induction d with
  | nil => simp [degSum, dset]
  | cons kv rest ih =>
    by_cases hk : kv.1 = k
    · simp [dget, hk] at h
    · simp only [dget, hk, if_false] at h
      rw [dset, if_neg hk, degSum_cons, degSum_cons, ih h]
      omega

theorem degSum_dset_some (d : Dict String ℤ) (k : String) (v w : ℤ)
    (h : dget d k = some w) :
    degSum (dset d k v) + w.toNat = degSum d + v.toNat := by
  induction d with
  | nil => simp [dget] at h
  | cons kv rest ih =>
    by_cases hk : kv.1 = k
    · simp only [dget, hk, if_true] at h
      cases h
      rw [dset, if_pos hk, degSum_cons, degSum_cons]
      omega
    · simp only [dget, hk, if_false] at h
      rw [dset, if_neg hk, degSum_cons, degSum_cons]
      have := ih h
      omega

/-- Processing one target never increases the measure. -/
theorem kahnTarget_measure (currentLevel : ℤ)
    (st : Dict String ℤ × Dict String ℤ × List String) (target : String) :
    (kahnTarget currentLevel st target).2.2.length
        + degSum (kahnTarget currentLevel st target).2.1
      ≤ st.2.2.length + degSum st.2.1 := by
  unfold kahnTarget
  cases hdg : dget st.2.1 target with
  | none =>
    have h1 := degSum_dset_none st.2.1 target ((dget st.2.1 target).getD 0 - 1) hdg
    rw [hdg] at h1
    simp only [hdg, Option.getD_none] at *
    have hne : ¬((0 : ℤ) - 1 = 0) := by decide
    simp only [hne, if_false]
    norm_num at h1 ⊢
    omega
  | some w =>
    have h1 := degSum_dset_some st.2.1 target ((dget st.2.1 target).getD 0 - 1) w hdg
    rw [hdg] at h1
    simp only [hdg, Option.getD_some] at *
    by_cases hz : w - 1 = 0
    · have hw : w = 1 := by omega
      subst hw
      norm_num at h1
      simp only [hz, if_true, List.length_append, List.length_cons,
        List.length_nil]
      omega
    · simp only [hz, if_false]
      omega

/-- Fold form of `kahnTarget_measure`. -/
theorem kahnFold_measure (currentLevel : ℤ) (ts : List String)
    (st : Dict String ℤ × Dict String ℤ × List String) :
    (ts.foldl (kahnTarget currentLevel) st).2.2.length
        + degSum (ts.foldl (kahnTarget currentLevel) st).2.1
      ≤ st.2.2.length + degSum st.2.1 := by
  induction ts generalizing st with
  | nil => simp
  | cons t ts ih =>
    calc (List.foldl (kahnTarget currentLevel) (kahnTarget currentLevel st t) ts).2.2.length
          + degSum ((List.foldl (kahnTarget currentLevel) (kahnTarget currentLevel st t) ts)).2.1
        ≤ (kahnTarget currentLevel st t).2.2.length
            + degSum (kahnTarget currentLevel st t).2.1 := ih _
      _ ≤ st.2.2.length + degSum st.2.1 := kahnTarget_measure _ _ _


/-- With enough fuel for the measure, the amount of fuel is irrelevant: the
loop runs to queue exhaustion exactly as the source's `while` loop does. -/
theorem kahnLoopGo_fuel_free (adjacency : Dict String (List String)) :
    ∀ (fuel fuel2 : ℕ) (q : List String) (levels indeg : Dict String ℤ),
      q.length + degSum indeg ≤ fuel → q.length + degSum indeg ≤ fuel2 →
      kahnLoopGo adjacency fuel q levels indeg
        = kahnLoopGo adjacency fuel2 q levels indeg := by
  intro fuel
  induction fuel with
  | zero =>
    intro fuel2 q levels indeg h1 _
    match q with
    | [] => cases fuel2 <;> rfl
    | c :: rest => simp at h1
  | succ n ih =>
    intro fuel2 q levels indeg h1 h2
    match q with
    | [] => cases fuel2 <;> rfl
    | c :: rest =>
      match fuel2 with
      | 0 => simp at h2
      | m + 1 =>
        show kahnLoopGo adjacency n _ _ _ = kahnLoopGo adjacency m _ _ _
        have hfm := kahnFold_measure ((dget levels c).getD 0)
          ((dget adjacency c).getD []) (levels, indeg, rest)
        simp only [List.length_cons] at h1 h2
        simp at hfm
        have hn : (((dget adjacency c).getD []).foldl
            (kahnTarget ((dget levels c).getD 0)) (levels, indeg, rest)).2.2.length
            + degSum (((dget adjacency c).getD []).foldl
              (kahnTarget ((dget levels c).getD 0)) (levels, indeg, rest)).2.1 ≤ n := by
          omega
        have hm : (((dget adjacency c).getD []).foldl
            (kahnTarget ((dget levels c).getD 0)) (levels, indeg, rest)).2.2.length
            + degSum (((dget adjacency c).getD []).foldl
              (kahnTarget ((dget levels c).getD 0)) (levels, indeg, rest)).2.1 ≤ m := by
          omega
        exact ih m _ _ _ hn hm


-- --- Dictionary lemmas ---

theorem dget_dset [DecidableEq κ] (d : Dict κ β) (k : κ) (v : β) (k2 : κ) :
    dget (dset d k v) k2 = if k = k2 then some v else dget d k2 := by
  induction d with
  | nil => simp [dget, dset]
  | cons kv rest ih =>
    obtain ⟨a, b⟩ := kv
    by_cases ha : a = k
    · subst ha
      simp only [dset, if_pos rfl, dget]
      by_cases h2 : a = k2 <;> simp [h2]
    · simp only [dset, if_neg ha, dget]
      by_cases h2 : a = k2
      · subst h2
        have hk2 : ¬ k = a := fun h => ha h.symm
        simp [hk2]
      · simp only [dget, if_neg h2, ih]

theorem dget_dset_self [DecidableEq κ] (d : Dict κ β) (k : κ) (v : β) :
    dget (dset d k v) k = some v := by
  simp [dget_dset]

theorem dget_dset_ne [DecidableEq κ] (d : Dict κ β) (k : κ) (v : β) (k2 : κ)
    (h : k ≠ k2) : dget (dset d k v) k2 = dget d k2 := by
  simp [dget_dset, h]

theorem dget_cons [DecidableEq κ] (a : κ) (b : β) (rest : Dict κ β) (k : κ) :
    dget ((a, b) :: rest) k = if a = k then some b else dget rest k := rfl

theorem dkeys_cons (kv : κ × β) (rest : Dict κ β) :
    dkeys (kv :: rest) = kv.1 :: dkeys rest := rfl

theorem mem_dkeys_iff_isSome [DecidableEq κ] (d : Dict κ β) (k : κ) :
    k ∈ dkeys d ↔ (dget d k).isSome := by
  induction d with
  | nil => simp [dkeys, dget]
  | cons kv rest ih =>
    obtain ⟨a, b⟩ := kv
    by_cases h : a = k
    · simp [dkeys_cons, dget_cons, h]
    · have hne : ¬ k = a := fun he => h he.symm
      simp [dkeys_cons, List.mem_cons, dget_cons, h, hne, ih]

theorem dkeys_dset_isSome [DecidableEq κ] (d : Dict κ β) (k : κ) (v : β)
    (h : (dget d k).isSome) : dkeys (dset d k v) = dkeys d := by
  induction d with
  | nil => simp [dget] at h
  | cons kv rest ih =>
    obtain ⟨a, b⟩ := kv
    by_cases ha : a = k
    · simp [dset, ha, dkeys_cons]
    · rw [dget_cons, if_neg ha] at h
      simp [dset, ha, dkeys_cons, ih h]

theorem dkeys_dset_none [DecidableEq κ] (d : Dict κ β) (k : κ) (v : β)
    (h : dget d k = none) : dkeys (dset d k v) = dkeys d ++ [k] := by
  induction d with
  | nil => simp [dset, dkeys]
  | cons kv rest ih =>
    obtain ⟨a, b⟩ := kv
    by_cases ha : a = k
    · rw [dget_cons, if_pos ha] at h
      cases h
    · rw [dget_cons, if_neg ha] at h
      simp [dset, ha, dkeys_cons, ih h]

theorem dkeys_nodup_dset [DecidableEq κ] (d : Dict κ β) (k : κ) (v : β)
    (h : (dkeys d).Nodup) : (dkeys (dset d k v)).Nodup := by
  cases hg : dget d k with
  | some w => rw [dkeys_dset_isSome d k v (by simp [hg])]; exact h
  | none =>
    rw [dkeys_dset_none d k v hg]
    have hk : k ∉ dkeys d := by
      rw [mem_dkeys_iff_isSome, hg]
      simp
    simp [List.nodup_append, h, hk]

/-- Invariance of a predicate along a left fold. -/
theorem foldl_invariant {α β : Type _} (P : β → Prop) (f : β → α → β) :
    ∀ (l : List α) (b : β), P b → (∀ b2 a, a ∈ l → P b2 → P (f b2 a)) →
      P (l.foldl f b) := by
  intro l
  induction l with
  | nil => intro b hb _; exact hb
  | cons x xs ih =>
    intro b hb hf
    exact ih (f b x) (hf b x (List.mem_cons_self x xs) hb)
      (fun b2 a ha hb2 => hf b2 a (List.mem_cons_of_mem x ha) hb2)

/-- Looking up a key in a fold of `dset`s: the value comes from one of the
folded elements or from the initial dictionary. -/
theorem dget_foldl_dset {α : Type _} {κ β : Type} [DecidableEq κ]
    (key : α → κ) (val : α → β) :
    ∀ (l : List α) (d0 : Dict κ β) (k : κ) (w : β),
      dget (l.foldl (fun d x => dset d (key x) (val x)) d0) k = some w →
      (∃ x ∈ l, key x = k ∧ val x = w) ∨ dget d0 k = some w := by
  intro l
  induction l with
  | nil => intro d0 k w h; exact Or.inr h
  | cons x xs ih =>
    intro d0 k w h
    rcases ih (dset d0 (key x) (val x)) k w h with h1 | h2
    · obtain ⟨y, hy, hk, hv⟩ := h1
      exact Or.inl ⟨y, List.mem_cons_of_mem x hy, hk, hv⟩
    · rw [dget_dset] at h2
      by_cases hk : key x = k
      · rw [if_pos hk] at h2
        exact Or.inl ⟨x, List.mem_cons_self x xs, hk, Option.some.inj h2⟩
      · rw [if_neg hk] at h2
        exact Or.inr h2

/-- A key present before a fold of `dset`s is still present afterwards. -/
theorem dget_foldl_dset_isSome {α : Type _} {κ β : Type} [DecidableEq κ]
    (key : α → κ) (val : α → β) :
    ∀ (l : List α) (d0 : Dict κ β) (k : κ), (dget d0 k).isSome →
      (dget (l.foldl (fun d x => dset d (key x) (val x)) d0) k).isSome := by
  intro l
  induction l with
  | nil => intro d0 k h; exact h
  | cons x xs ih =>
    intro d0 k h
    apply ih
    rw [dget_dset]
    by_cases hk : key x = k <;> simp [hk, h]

/-- Any element folded in leaves its key present. -/
theorem dget_foldl_dset_covers {α : Type _} {κ β : Type} [DecidableEq κ]
    (key : α → κ) (val : α → β) :
    ∀ (l : List α) (d0 : Dict κ β) (x : α), x ∈ l →
      (dget (l.foldl (fun d x => dset d (key x) (val x)) d0) (key x)).isSome := by
  intro l
  induction l with
  | nil => intro d0 x hx; cases hx
  | cons y ys ih =>
    intro d0 x hx
    rcases List.mem_cons.1 hx with h | h
    · subst h
      exact dget_foldl_dset_isSome key val ys _ (key x)
        (by rw [dget_dset_self]; rfl)
    · exact ih _ x h

/-- Looking up an `OrganizeItem` in the item map gives a member of `items`
whose id is the key. -/
theorem layoutItemMap_spec (items : List OrganizeItem) (k : String)
    (it : OrganizeItem) (h : dget (layoutItemMap items) k = some it) :
    it ∈ items ∧ it.id = k := by
  unfold layoutItemMap at h
  rcases dget_foldl_dset (fun x : OrganizeItem => x.id) (fun x => x)
    items [] k it h with h1 | h2
  · obtain ⟨x, hx, hk, hv⟩ := h1
    subst hv
    exact ⟨hx, hk⟩
  · simp [dget] at h2

-- --- Stable-sort permutation lemmas ---

theorem pyInsert_perm (le : α → α → Bool) (x : α) :
    ∀ l : List α, (pyInsert le x l).Perm (x :: l) := by
  intro l
  induction l with
  | nil => simp [pyInsert]
  | cons y ys ih =>
    by_cases h : le y x
    · simp only [pyInsert, h, if_true]
      exact (ih.cons y).trans (List.Perm.swap x y ys)
    · simp [pyInsert, h]

theorem pySorted_perm_aux (le : α → α → Bool) :
    ∀ (l acc : List α),
      (l.foldl (fun a x => pyInsert le x a) acc).Perm (l ++ acc) := by
  intro l
  induction l with
  | nil => intro acc; simp
  | cons x xs ih =>
    intro acc
    have h1 := ih (pyInsert le x acc)
    have h2 : (xs ++ pyInsert le x acc).Perm (xs ++ (x :: acc)) :=
      List.Perm.append_left xs (pyInsert_perm le x acc)
    have h3 : (xs ++ (x :: acc)).Perm (x :: (xs ++ acc)) := List.perm_middle
    exact h1.trans (h2.trans h3)

theorem pySorted_perm (le : α → α → Bool) (l : List α) :
    (pySorted le l).Perm l := by
  have h := pySorted_perm_aux le l []
  simpa [pySorted] using h

theorem mem_pySorted (le : α → α → Bool) (l : List α) (x : α) :
    x ∈ pySorted le l ↔ x ∈ l :=
  (pySorted_perm le l).mem_iff

-- --- Grouping lemmas ---

theorem getD_group_step (g : Dict ℤ (List OrganizeItem)) (lvl l : ℤ) :
    (dget (if dmem g lvl then g else dset g lvl []) l).getD []
      = (dget g l).getD [] := by
  by_cases hm : dmem g lvl
  · simp [hm]
  · rw [if_neg hm]
    rw [dget_dset]
    by_cases hl : lvl = l
    · subst hl
      simp only [dmem] at hm
      cases hg : dget g lvl with
      | some w => rw [hg] at hm; simp at hm
      | none => simp [hg]
    · simp [hl]

theorem groupByLevel_mem (im : Dict String OrganizeItem) :
    ∀ (es : Dict String ℤ) (g0 : Dict ℤ (List OrganizeItem)) (l : ℤ)
      (it : OrganizeItem),
      it ∈ (dget (es.foldl
        (fun g kv =>
          let g1 := if dmem g kv.2 then g else dset g kv.2 []
          match dget im kv.1 with
          | some item => dset g1 kv.2 ((dget g1 kv.2).getD [] ++ [item])
          | none => g1) g0) l).getD [] →
      it ∈ (dget g0 l).getD [] ∨
        ∃ kv ∈ es, kv.2 = l ∧ dget im kv.1 = some it := by
  intro es
  induction es with
  | nil => intro g0 l it h; exact Or.inl h
  | cons kv rest ih =>
    intro g0 l it h
    rw [List.foldl_cons] at h
    rcases ih _ l it h with h1 | h2
    · -- membership in the one-step accumulator
      rcases hm : dget im kv.1 with _ | item
      · rw [hm] at h1
        rw [getD_group_step g0 kv.2 l] at h1
        exact Or.inl h1
      · rw [hm] at h1
        by_cases hl : kv.2 = l
        · subst hl
          rw [dget_dset_self] at h1
          simp only [Option.getD_some] at h1
          rcases List.mem_append.1 h1 with h3 | h3
          · rw [getD_group_step g0 kv.2 kv.2] at h3
            exact Or.inl h3
          · simp only [List.mem_singleton] at h3
            subst h3
            exact Or.inr ⟨kv, List.mem_cons_self kv rest, rfl, hm⟩
        · rw [dget_dset_ne _ _ _ _ hl] at h1
          rw [getD_group_step g0 kv.2 l] at h1
          exact Or.inl h1
    · obtain ⟨kv2, hkv2, he, hi⟩ := h2
      exact Or.inr ⟨kv2, List.mem_cons_of_mem kv hkv2, he, hi⟩

/-- Every member of a level group of `layoutGrouped` is one of the items. -/
theorem layoutGrouped_mem (items : List OrganizeItem)
    (edges : List OrganizeEdge) (opts : OrganizeOptions) (l : ℤ)
    (it : OrganizeItem)
    (h : it ∈ (dget (layoutGrouped items edges opts) l).getD []) :
    it ∈ items := by
  unfold layoutGrouped groupByLevel at h
  rcases groupByLevel_mem (layoutItemMap items)
    (effectiveLevels items edges opts) [] l it h with h1 | h2
  · simp [dget] at h1
  · obtain ⟨kv, _, _, hi⟩ := h2
    exact (layoutItemMap_spec items kv.1 it hi).1

-- --- Key discipline of the computed layout ---

/-- Keys of a layout dictionary: no duplicates, and every key is the id of
one of the items. -/
def LayoutKeysOK (items : List OrganizeItem)
    (ly : Dict String LayoutPosition) : Prop :=
  (dkeys ly).Nodup ∧ ∀ k, (dget ly k).isSome → ∃ it ∈ items, it.id = k

theorem layoutKeysOK_dset (items : List OrganizeItem)
    (ly : Dict String LayoutPosition) (it : OrganizeItem) (hit : it ∈ items)
    (p : LayoutPosition) (h : LayoutKeysOK items ly) :
    LayoutKeysOK items (dset ly it.id p) := by
  refine ⟨dkeys_nodup_dset _ _ _ h.1, fun k hk => ?_⟩
  rw [dget_dset] at hk
  by_cases he : it.id = k
  · exact ⟨it, hit, he⟩
  · rw [if_neg he] at hk
    exact h.2 k hk

theorem placeColumnEntries_keysOK (items : List OrganizeItem)
    (v_spacing current_x : ℚ) (entries : List ColumnEntry)
    (ly : Dict String LayoutPosition)
    (hent : ∀ e ∈ entries, e.item ∈ items) (h : LayoutKeysOK items ly) :
    LayoutKeysOK items (placeColumnEntries v_spacing current_x entries ly) := by
  unfold placeColumnEntries
  refine foldl_invariant
    (fun (st : Dict String LayoutPosition × Option ℚ) => LayoutKeysOK items st.1)
    _ entries (ly, none) h ?_
  intro st e he hst
  exact layoutKeysOK_dset items st.1 e.item (hent e he) _ hst

theorem layoutPlaced_keysOK (items : List OrganizeItem)
    (edges : List OrganizeEdge) (opts : OrganizeOptions) :
    LayoutKeysOK items (layoutPlaced items edges opts) := by
  have hgroup : ∀ level : ℤ, ∀ it ∈ (dget (layoutGrouped items edges opts) level).getD [],
      it ∈ items := fun level it h => layoutGrouped_mem items edges opts level it h
  have hempty : LayoutKeysOK items ([] : Dict String LayoutPosition) :=
    ⟨List.nodup_nil, fun k hk => by simp [dget] at hk⟩
  unfold layoutPlaced
  by_cases ho : opts.orientation = "horizontal"
  · rw [if_pos ho]
    unfold placeHorizontal
    refine (foldl_invariant
      (fun (st : Dict String LayoutPosition × ℚ) => LayoutKeysOK items st.1)
      _ (layoutOrderedLevels items edges opts) ([], defaultStartX items opts)
      hempty ?_)
    intro st level _ hst
    by_cases hc : ((dget (layoutGrouped items edges opts) level).getD []).isEmpty
    · simpa [hc] using hst
    · simp only [hc, if_false]
      refine placeColumnEntries_keysOK items _ _ _ _ ?_ hst
      intro e he
      rw [mem_pySorted] at he
      obtain ⟨it, hit, hmap⟩ := List.mem_map.1 he
      have : e.item = it := by rw [← hmap]
      rw [this]
      exact hgroup level it hit
  · rw [if_neg ho]
    unfold placeVertical
    refine (foldl_invariant
      (fun (st : Dict String LayoutPosition × ℚ) => LayoutKeysOK items st.1)
      _ (layoutOrderedLevels items edges opts) _ hempty ?_)
    intro st level _ hst
    by_cases hc : (pySorted itemLeXId ((dget (layoutGrouped items edges opts) level).getD [])).isEmpty
    · simpa [hc] using hst
    · simp only [hc, if_false]
      refine (foldl_invariant
        (fun (acc : Dict String LayoutPosition × ℚ × ℚ) => LayoutKeysOK items acc.1)
        _ _ _ hst ?_)
      intro acc it hit hacc
      rw [mem_pySorted] at hit
      exact layoutKeysOK_dset items acc.1 it (hgroup level it hit) _ hacc

theorem computeOrganizedLayout_keysOK (items : List OrganizeItem)
    (edges : List OrganizeEdge) (opts : OrganizeOptions) :
    LayoutKeysOK items (computeOrganizedLayout items edges opts) := by
  unfold computeOrganizedLayout
  by_cases hi : items.isEmpty
  · rw [if_pos hi]
    exact ⟨List.nodup_nil, fun k hk => by simp [dget] at hk⟩
  · rw [if_neg hi]
    refine foldl_invariant (LayoutKeysOK items) _ items _
      (layoutPlaced_keysOK items edges opts) ?_
    intro ly it hit hly
    by_cases hm : dmem ly it.id
    · simpa [hm] using hly
    · simp only [hm, if_false]
      exact layoutKeysOK_dset items ly it hit _ hly

theorem computeOrganizedLayout_covers (items : List OrganizeItem)
    (edges : List OrganizeEdge) (opts : OrganizeOptions) :
    ∀ it ∈ items, (dget (computeOrganizedLayout items edges opts) it.id).isSome := by
  intro it hit
  unfold computeOrganizedLayout
  have hne : ¬ items.isEmpty := by
    cases items with
    | nil => cases hit
    | cons a l => simp
  rw [if_neg hne]
  have mono : ∀ (l : List OrganizeItem) (ly : Dict String LayoutPosition) (k : String),
      (dget ly k).isSome →
      (dget (l.foldl (fun ly it => if dmem ly it.id then ly
        else dset ly it.id ⟨(pyRound it.x : ℤ), (pyRound it.y : ℤ)⟩) ly) k).isSome := by
    intro l
    induction l with
    | nil => intro ly k h; exact h
    | cons a as ih =>
      intro ly k h
      rw [List.foldl_cons]
      apply ih
      by_cases hm : dmem ly a.id
      · rw [if_pos hm]; exact h
      · rw [if_neg hm, dget_dset]
        by_cases hk : a.id = k <;> simp [hk, h]
  have cover : ∀ (l : List OrganizeItem) (ly : Dict String LayoutPosition),
      ∀ it2 ∈ l,
      (dget (l.foldl (fun ly it => if dmem ly it.id then ly
        else dset ly it.id ⟨(pyRound it.x : ℤ), (pyRound it.y : ℤ)⟩) ly) it2.id).isSome := by
    intro l
    induction l with
    | nil => intro ly it2 h2; cases h2
    | cons a as ih =>
      intro ly it2 h2
      rcases List.mem_cons.1 h2 with h3 | h3
      · subst h3
        rw [List.foldl_cons]
        apply mono
        by_cases hm : dmem ly it2.id
        · rw [if_pos hm]; exact hm
        · rw [if_neg hm, dget_dset_self]; rfl
      · rw [List.foldl_cons]
        exact ih _ it2 h3
  exact cover items _ it hit

-- Batteries marks the rational-arithmetic primitives `@[irreducible]`; make
-- them reducible again (locally, until the end of the file) so that
-- concrete runs of the embedded algorithms can be evaluated by `decide`
-- (the kernel ignores reducibility attributes either way).
section RatEval
attribute [local semireducible] Rat.add Rat.sub Rat.mul Rat.inv

-- --- C10 ---

/-- C10: the `spacing_level` argument of `organize_canvas` has no effect on
the output: for every canvas, orientation, and any two spacing levels, the
resulting canvases are identical (the parameter is never read). -/
theorem C10_spacing_level_unused (c : Canvas) (s1 s2 o : String) :
    organizeCanvas c s1 o = organizeCanvas c s2 o := rfl

-- --- C2 ---

theorem agfFold_none (opts : OrganizeOptions) (l : List (ℕ × OrganizeItem)) :
    l.foldl
      (fun acc p =>
        match acc with
        | none => none
        | some e =>
          match fdivChecked (p.1 : ℤ) opts.grid_columns with
          | none => none
          | some q =>
            if opts.orientation = "horizontal" then some (dset e p.2.id q)
            else some (dset e p.2.id q))
      (none : Option (Dict String ℤ)) = none := by
  induction l with
  | nil => rfl
  | cons a as ih =>
    rw [List.foldl_cons]
    exact ih

theorem agfFold_some (opts : OrganizeOptions) (hgc : opts.grid_columns ≠ 0)
    (l : List (ℕ × OrganizeItem)) :
    ∀ e : Dict String ℤ,
    l.foldl
      (fun acc p =>
        match acc with
        | none => none
        | some e =>
          match fdivChecked (p.1 : ℤ) opts.grid_columns with
          | none => none
          | some q =>
            if opts.orientation = "horizontal" then some (dset e p.2.id q)
            else some (dset e p.2.id q))
      (some e)
      = some (l.foldl
        (fun e p =>
          if opts.orientation = "horizontal" then
            dset e p.2.id (Int.fdiv (p.1 : ℤ) opts.grid_columns)
          else
            dset e p.2.id (Int.fdiv (p.1 : ℤ) opts.grid_columns))
        e) := by
  induction l with
  | nil => intro e; rfl
  | cons a as ih =>
    intro e
    rw [List.foldl_cons, List.foldl_cons]
    simp only []
    rw [show fdivChecked (a.1 : ℤ) opts.grid_columns
      = some (Int.fdiv (a.1 : ℤ) opts.grid_columns) from if_neg hgc]
    simp only []
    by_cases ho : opts.orientation = "horizontal"
    · rw [if_pos ho, if_pos ho]
      exact ih _
    · rw [if_neg ho, if_neg ho]
      exact ih _

/-- The checked grid fallback agrees with its totalization whenever
`grid_columns ≠ 0` (Python's `a // b` and `Int.fdiv a b` coincide for
`b ≠ 0`). -/
theorem applyGridFallbackChecked_some (items : List OrganizeItem)
    (edges : List OrganizeEdge) (opts : OrganizeOptions)
    (eff : Dict String ℤ) (hgc : opts.grid_columns ≠ 0) :
    applyGridFallbackChecked items edges opts eff
      = some (applyGridFallback items edges opts eff) := by
  unfold applyGridFallbackChecked applyGridFallback
  by_cases hc : (decide (edges.length = 0) && decide (items.length > 1)) = true
  · rw [if_pos hc, if_pos hc]
    exact agfFold_some opts hgc _ eff
  · rw [if_neg hc, if_neg hc]

theorem agfFold_gc_zero (opts : OrganizeOptions) (hgc : opts.grid_columns = 0)
    (l : List (ℕ × OrganizeItem)) (hl : l ≠ []) (e : Dict String ℤ) :
    l.foldl
      (fun acc p =>
        match acc with
        | none => none
        | some e =>
          match fdivChecked (p.1 : ℤ) opts.grid_columns with
          | none => none
          | some q =>
            if opts.orientation = "horizontal" then some (dset e p.2.id q)
            else some (dset e p.2.id q))
      (some e) = none := by
  cases l with
  | nil => exact absurd rfl hl
  | cons a as =>
    rw [List.foldl_cons]
    simp only []
    rw [show fdivChecked (a.1 : ℤ) opts.grid_columns = none by rw [hgc]; rfl]
    exact agfFold_none opts as

/-- The checked grid fallback fails exactly when Python raises
`ZeroDivisionError`: fallback branch taken (`total_edges == 0 and
len(items) > 1`) with `grid_columns = 0`. -/
theorem applyGridFallbackChecked_none_iff (items : List OrganizeItem)
    (edges : List OrganizeEdge) (opts : OrganizeOptions)
    (eff : Dict String ℤ) :
    applyGridFallbackChecked items edges opts eff = none ↔
      edges = [] ∧ 1 < items.length ∧ opts.grid_columns = 0 := by
  constructor
  · intro h
    by_cases hc : (decide (edges.length = 0) && decide (items.length > 1)) = true
    · have hc2 : edges.length = 0 ∧ 1 < items.length := by simpa using hc
      obtain ⟨he, hi⟩ := hc2
      refine ⟨List.length_eq_zero.mp he, hi, ?_⟩
      by_contra hgc
      rw [applyGridFallbackChecked_some items edges opts eff hgc] at h
      exact Option.noConfusion h
    · unfold applyGridFallbackChecked at h
      rw [if_neg hc] at h
      exact Option.noConfusion h
  · rintro ⟨he, hi, hgc⟩
    unfold applyGridFallbackChecked
    have hc : (decide (edges.length = 0) && decide (items.length > 1)) = true := by
      subst he
      simp [hi]
    rw [if_pos hc]
    simp only []
    have hl : (pySorted itemLeYX items).enum ≠ [] := by
      intro h0
      have h1 := congrArg List.length h0
      rw [List.enum_length, (pySorted_perm itemLeYX items).length_eq] at h1
      simp only [List.length_nil] at h1
      omega
    exact agfFold_gc_zero opts hgc _ hl _

/-- On the non-raising path the checked pipeline returns exactly the total
embedding `computeOrganizedLayout`. -/
theorem computeOrganizedLayoutChecked_gc_ne (items : List OrganizeItem)
    (edges : List OrganizeEdge) (opts : OrganizeOptions)
    (hgc : opts.grid_columns ≠ 0) :
    computeOrganizedLayoutChecked items edges opts
      = some (computeOrganizedLayout items edges opts) := by
  unfold computeOrganizedLayoutChecked
  by_cases hi : items.isEmpty
  · rw [if_pos hi]
    unfold computeOrganizedLayout
    rw [if_pos hi]
  · rw [if_neg hi]
    unfold effectiveLevelsChecked
    rw [applyGridFallbackChecked_some _ _ _ _ hgc]

theorem computeOrganizedLayoutChecked_some_eq (items : List OrganizeItem)
    (edges : List OrganizeEdge) (opts : OrganizeOptions)
    (m : Dict String LayoutPosition)
    (h : computeOrganizedLayoutChecked items edges opts = some m) :
    m = computeOrganizedLayout items edges opts := by
  unfold computeOrganizedLayoutChecked at h
  by_cases hi : items.isEmpty
  · rw [if_pos hi] at h
    have hm : ([] : Dict String LayoutPosition) = m := Option.some.inj h
    unfold computeOrganizedLayout
    rw [if_pos hi, ← hm]
  · rw [if_neg hi] at h
    cases hc : effectiveLevelsChecked items edges opts with
    | none =>
      rw [hc] at h
      exact Option.noConfusion h
    | some eff =>
      rw [hc] at h
      simp only [] at h
      exact (Option.some.inj h).symm

/-- The checked pipeline fails exactly on the `ZeroDivisionError` inputs:
no edges, more than one item, `grid_columns = 0`. -/
theorem computeOrganizedLayoutChecked_none_iff (items : List OrganizeItem)
    (edges : List OrganizeEdge) (opts : OrganizeOptions) :
    computeOrganizedLayoutChecked items edges opts = none ↔
      edges = [] ∧ 1 < items.length ∧ opts.grid_columns = 0 := by
  unfold computeOrganizedLayoutChecked
  by_cases hi : items.isEmpty
  · rw [if_pos hi]
    constructor
    · intro h
      exact Option.noConfusion h
    · rintro ⟨_, hlen, _⟩
      rw [List.isEmpty_iff] at hi
      subst hi
      simp at hlen
  · rw [if_neg hi]
    unfold effectiveLevelsChecked
    cases hc : applyGridFallbackChecked items edges opts
        (effectiveBase (resolveUnresolved items edges (kahnLevels items edges))) with
    | none =>
      constructor
      · intro _
        exact (applyGridFallbackChecked_none_iff items edges opts _).mp hc
      · intro _
        rfl
    | some eff =>
      constructor
      · intro h
        simp only [] at h
        exact Option.noConfusion h
      · rintro ⟨he, hlen, hgc⟩
        rw [(applyGridFallbackChecked_none_iff items edges opts _).mpr
          ⟨he, hlen, hgc⟩] at hc
        exact Option.noConfusion hc

set_option maxRecDepth 400000 in
/-- C2 counterexample: `compute_organized_layout` is not total.  With two
items, no edges and `grid_columns = 0`, the grid fallback branch (line 190)
is taken and `idx // grid_columns` (line 195) raises `ZeroDivisionError`
instead of returning a position map — modelled as `none` by
`computeOrganizedLayoutChecked`. -/
theorem C2_counterexample :
    computeOrganizedLayoutChecked
        [{ id := "a", width := 250, height := 120, x := 0, y := 0 },
         { id := "b", width := 250, height := 120, x := 10, y := 10 }]
        [] { grid_columns := 0 } = none := by
  decide

set_option maxRecDepth 400000 in
/-- C2 (amended): `compute_organized_layout` terminates and returns a
complete position map — the empty map for an empty item set, otherwise
exactly one entry per distinct input item id with no duplicate or foreign
keys — on every input except one failure path: with no edges, more than
one item and `options.grid_columns = 0`, the grid fallback raises
`ZeroDivisionError` (see `C2_counterexample`).  The `none` results of the
checked model characterize that failure exactly; every `some` result is a
complete map; in particular both members of the two-item cycle `a→b, b→a`
receive positions (the Kahn loop always terminates, its fuel being a
strictly decreasing measure, see `kahnLoopGo_fuel_free`). -/
theorem C2_total_complete :
    (∀ (edges : List OrganizeEdge) (opts : OrganizeOptions),
        computeOrganizedLayoutChecked [] edges opts = some []) ∧
    (∀ (items : List OrganizeItem) (edges : List OrganizeEdge)
        (opts : OrganizeOptions),
        computeOrganizedLayoutChecked items edges opts = none ↔
          edges = [] ∧ 1 < items.length ∧ opts.grid_columns = 0) ∧
    (∀ (items : List OrganizeItem) (edges : List OrganizeEdge)
        (opts : OrganizeOptions) (m : Dict String LayoutPosition),
        computeOrganizedLayoutChecked items edges opts = some m →
        (∀ it ∈ items, (dget m it.id).isSome) ∧
        (dkeys m).Nodup ∧
        (∀ k, (dget m k).isSome → ∃ it ∈ items, it.id = k)) ∧
    ((computeOrganizedLayoutChecked
        [{ id := "a", width := 250, height := 120, x := 0, y := 0 },
         { id := "b", width := 250, height := 120, x := 10, y := 10 }]
        [⟨"a", "b"⟩, ⟨"b", "a"⟩] {}).isSome ∧
      (dget ((computeOrganizedLayoutChecked
        [{ id := "a", width := 250, height := 120, x := 0, y := 0 },
         { id := "b", width := 250, height := 120, x := 10, y := 10 }]
        [⟨"a", "b"⟩, ⟨"b", "a"⟩] {}).getD []) "a").isSome ∧
      (dget ((computeOrganizedLayoutChecked
        [{ id := "a", width := 250, height := 120, x := 0, y := 0 },
         { id := "b", width := 250, height := 120, x := 10, y := 10 }]
        [⟨"a", "b"⟩, ⟨"b", "a"⟩] {}).getD []) "b").isSome) := by
  refine ⟨fun edges opts => rfl, computeOrganizedLayoutChecked_none_iff,
    fun items edges opts m hm => ?_, by decide, by decide, by decide⟩
  rw [computeOrganizedLayoutChecked_some_eq items edges opts m hm]
  exact ⟨computeOrganizedLayout_covers items edges opts,
    (computeOrganizedLayout_keysOK items edges opts).1,
    (computeOrganizedLayout_keysOK items edges opts).2⟩

-- --- C4 ---

theorem shiftNode_zero (n : CanvasNode) : shiftNode 0 0 n = n := by
  simp [shiftNode]

theorem map_shiftNode_zero (l : List CanvasNode) : l.map (shiftNode 0 0) = l := by
  have hf : shiftNode 0 0 = id := funext shiftNode_zero
  rw [hf, List.map_id]

/-- C4: every placement pass moves all leaf nodes beneath one child
container by a single common delta — the machines of a factory, the
factories of a network, and the networks of a canvas are each translated by
`nodes.map (shiftNode dx dy)` for one `(dx, dy)` per child, so coordinate
differences between any two nodes of the same child are preserved
exactly. -/
theorem C4_placement_uniform_shift :
    (∀ (layout : Dict String LayoutPosition)
        (mbounds : Dict String ContainerBounds) (m : CanvasMachine),
        ∃ dx dy : ℚ,
          (factoryPlaceMachine layout mbounds m).nodes
            = m.nodes.map (shiftNode dx dy)) ∧
    (∀ (layout : Dict String LayoutPosition)
        (fbounds : Dict String ContainerBounds) (f : CanvasFactory),
        ∃ dx dy : ℚ,
          (networkPlaceFactory layout fbounds f).machines.map (fun m => m.nodes)
            = f.machines.map (fun m => m.nodes.map (shiftNode dx dy))) ∧
    (∀ (layout : Dict String LayoutPosition)
        (nbounds : Dict String ContainerBounds) (net : CanvasNetwork),
        ∃ dx dy : ℚ,
          (canvasPlaceNetwork layout nbounds net).factories.map
              (fun f => f.machines.map (fun m => m.nodes))
            = net.factories.map
              (fun f => f.machines.map (fun m => m.nodes.map (shiftNode dx dy)))) ∧
    (∀ (dx dy : ℚ) (n1 n2 : CanvasNode),
        (shiftNode dx dy n1).x - (shiftNode dx dy n2).x = n1.x - n2.x ∧
        (shiftNode dx dy n1).y - (shiftNode dx dy n2).y = n1.y - n2.y) := by
  refine ⟨?_, ?_, ?_, ?_⟩
  · intro layout mbounds m
    unfold factoryPlaceMachine
    cases dget layout m.id with
    | none =>
      exact ⟨0, 0, by simp [map_shiftNode_zero]⟩
    | some pos =>
      cases dget mbounds m.id with
      | none => exact ⟨0, 0, by simp [map_shiftNode_zero]⟩
      | some bounds =>
        exact ⟨pos.x + MACHINE_PADDING - bounds.x,
          pos.y + MACHINE_PADDING + 40 - bounds.y, rfl⟩
  · intro layout fbounds f
    unfold networkPlaceFactory
    cases dget layout f.id with
    | none => exact ⟨0, 0, by simp [map_shiftNode_zero]⟩
    | some pos =>
      cases dget fbounds f.id with
      | none => exact ⟨0, 0, by simp [map_shiftNode_zero]⟩
      | some bounds =>
        refine ⟨pos.x + FACTORY_PADDING - bounds.x,
          pos.y + FACTORY_PADDING + 40 - bounds.y, ?_⟩
        simp [shiftFactory, shiftMachine]
  · intro layout nbounds net
    unfold canvasPlaceNetwork
    cases dget layout net.id with
    | none => exact ⟨0, 0, by simp [map_shiftNode_zero]⟩
    | some pos =>
      cases dget nbounds net.id with
      | none => exact ⟨0, 0, by simp [map_shiftNode_zero]⟩
      | some bounds =>
        refine ⟨pos.x + NETWORK_PADDING - bounds.x,
          pos.y + NETWORK_PADDING - bounds.y, ?_⟩
        simp [shiftNetwork, shiftFactory, shiftMachine]
  · intro dx dy n1 n2
    constructor <;> simp [shiftNode]

-- --- C8 ---

theorem eraseNodePos_shiftNode (dx dy : ℚ) (n : CanvasNode) :
    eraseNodePos (shiftNode dx dy n) = eraseNodePos n := rfl

theorem eraseMachinePos_shiftMachine (dx dy : ℚ) (m : CanvasMachine) :
    eraseMachinePos (shiftMachine dx dy m) = eraseMachinePos m := by
  simp only [eraseMachinePos, shiftMachine, List.map_map]
  rfl

theorem eraseNodePos_posUpdate (L : Dict String LayoutPosition) (n : CanvasNode) :
    eraseNodePos (match dget L n.id with
      | some pos => { n with x := pos.x, y := pos.y }
      | none => n) = eraseNodePos n := by
  cases dget L n.id <;> rfl

theorem eraseFactoryPos_shiftFactory (dx dy : ℚ) (f : CanvasFactory) :
    eraseFactoryPos (shiftFactory dx dy f) = eraseFactoryPos f := by
  simp only [eraseFactoryPos, shiftFactory, List.map_map]
  congr 1
  apply List.map_congr_left
  intro m _
  exact eraseMachinePos_shiftMachine dx dy m

theorem eraseNetworkPos_shiftNetwork (dx dy : ℚ) (net : CanvasNetwork) :
    eraseNetworkPos (shiftNetwork dx dy net) = eraseNetworkPos net := by
  simp only [eraseNetworkPos, shiftNetwork, List.map_map]
  congr 1
  apply List.map_congr_left
  intro f _
  exact eraseFactoryPos_shiftFactory dx dy f

theorem organizeMachine_erase (m : CanvasMachine)
    (conns : List (String × String)) (sx sy : ℚ) (o : String) :
    eraseMachinePos (organizeMachine m conns sx sy o).1 = eraseMachinePos m := by
  unfold organizeMachine
  by_cases h1 : m.nodes.isEmpty
  · rw [if_pos h1]
  · rw [if_neg h1]
    simp only [eraseMachinePos, List.map_map]
    congr 1
    apply List.map_congr_left
    intro n _
    exact eraseNodePos_posUpdate _ n

theorem factoryPlaceMachine_erase (ly : Dict String LayoutPosition)
    (bd : Dict String ContainerBounds) (m : CanvasMachine) :
    eraseMachinePos (factoryPlaceMachine ly bd m) = eraseMachinePos m := by
  unfold factoryPlaceMachine
  cases dget ly m.id with
  | none => rfl
  | some pos =>
    cases dget bd m.id with
    | none => rfl
    | some bounds => exact eraseMachinePos_shiftMachine _ _ m

theorem organizeFactory_erase (f : CanvasFactory)
    (conns : List (String × String)) (sx sy : ℚ) (o : String) :
    eraseFactoryPos (organizeFactory f conns sx sy o).1 = eraseFactoryPos f := by
  have hm1 : ∀ (machines : List CanvasMachine),
      ((machines.map (fun m => organizeMachine m conns 0 0 o)).map
          (fun x => x.1)).map eraseMachinePos
        = machines.map eraseMachinePos := by
    intro machines
    rw [List.map_map, List.map_map]
    apply List.map_congr_left
    intro m _
    exact organizeMachine_erase m conns 0 0 o
  unfold organizeFactory
  by_cases h1 : f.machines.isEmpty
  · rw [if_pos h1]
  · rw [if_neg h1]
    simp only []
    split_ifs with h2 h3 h4
    · simp only [eraseFactoryPos]
      congr 1
      exact hm1 f.machines
    · simp only [eraseFactoryPos]
      congr 1
      exact hm1 f.machines
    · simp only [eraseFactoryPos]
      congr 1
      rw [List.map_map, List.map_map, List.map_map]
      apply List.map_congr_left
      intro m _
      exact (factoryPlaceMachine_erase _ _ _).trans (organizeMachine_erase m conns 0 0 o)
    · simp only [eraseFactoryPos]
      congr 1
      rw [List.map_map, List.map_map, List.map_map]
      apply List.map_congr_left
      intro m _
      exact (factoryPlaceMachine_erase _ _ _).trans (organizeMachine_erase m conns 0 0 o)

theorem networkPlaceFactory_erase (ly : Dict String LayoutPosition)
    (bd : Dict String ContainerBounds) (f : CanvasFactory) :
    eraseFactoryPos (networkPlaceFactory ly bd f) = eraseFactoryPos f := by
  unfold networkPlaceFactory
  cases dget ly f.id with
  | none => rfl
  | some pos =>
    cases dget bd f.id with
    | none => rfl
    | some bounds => exact eraseFactoryPos_shiftFactory _ _ f

theorem organizeNetwork_erase (net : CanvasNetwork)
    (conns : List (String × String)) (sx sy : ℚ) (o : String) :
    eraseNetworkPos (organizeNetwork net conns sx sy o).1 = eraseNetworkPos net := by
  have hf1 : ∀ (fs : List CanvasFactory),
      ((fs.map (fun f => organizeFactory f conns 0 0 o)).map
          (fun x => x.1)).map eraseFactoryPos
        = fs.map eraseFactoryPos := by
    intro fs
    rw [List.map_map, List.map_map]
    apply List.map_congr_left
    intro f _
    exact organizeFactory_erase f conns 0 0 o
  unfold organizeNetwork
  by_cases h1 : net.factories.isEmpty
  · rw [if_pos h1]
  · rw [if_neg h1]
    simp only []
    split_ifs with h2 h3 h4 h5
    · simp only [eraseNetworkPos]
      congr 1
      exact hf1 net.factories
    · -- single measured factory: translate the head factory
      cases hfac : net.factories with
      | nil => rw [hfac] at h1; simp at h1
      | cons g gs =>
        simp only [List.map_cons]
        split
        · simp only [eraseNetworkPos]
          congr 1
          rw [hfac]
          simp only [List.map_cons, eraseFactoryPos_shiftFactory]
          have := hf1 (g :: gs)
          simp only [List.map_cons] at this
          exact this
        · simp only [eraseNetworkPos]
          congr 1
          rw [hfac]
          have := hf1 (g :: gs)
          simp only [List.map_cons] at this
          simp only [List.map_cons]
          exact this
    · simp only [eraseNetworkPos]
      congr 1
      exact hf1 net.factories
    · simp only [eraseNetworkPos]
      congr 1
      rw [List.map_map, List.map_map, List.map_map]
      apply List.map_congr_left
      intro f _
      exact (networkPlaceFactory_erase _ _ _).trans (organizeFactory_erase f conns 0 0 o)
    · simp only [eraseNetworkPos]
      congr 1
      rw [List.map_map, List.map_map, List.map_map]
      apply List.map_congr_left
      intro f _
      exact (networkPlaceFactory_erase _ _ _).trans (organizeFactory_erase f conns 0 0 o)

theorem canvasPlaceNetwork_erase (ly : Dict String LayoutPosition)
    (bd : Dict String ContainerBounds) (net : CanvasNetwork) :
    eraseNetworkPos (canvasPlaceNetwork ly bd net) = eraseNetworkPos net := by
  unfold canvasPlaceNetwork
  cases dget ly net.id with
  | none => rfl
  | some pos =>
    cases dget bd net.id with
    | none => rfl
    | some bounds => exact eraseNetworkPos_shiftNetwork _ _ net

/-- C8: `organize` relocates leaf nodes and changes nothing else.  After
forgetting the `x`/`y` fields of every node, the organized canvas is
identical to the input canvas — so ids, widths, heights, inputs/outputs,
and the entire containment structure (which networks exist, which
factories they hold, which machines, which nodes, and in which order) are
untouched for every canvas, spacing level and orientation. -/
theorem C8_organize_frame (c : Canvas) (s o : String) :
    eraseCanvasPos (organizeCanvas c s o) = eraseCanvasPos c := by
  have hn1 : ∀ (ns : List CanvasNetwork),
      (ns.map (fun net => (organizeNetwork net (allConnections c) 0 0 o).1)).map
          eraseNetworkPos
        = ns.map eraseNetworkPos := by
    intro ns
    rw [List.map_map]
    apply List.map_congr_left
    intro net _
    exact organizeNetwork_erase net (allConnections c) 0 0 o
  unfold organizeCanvas
  by_cases h1 : (allNodes c).isEmpty
  · rw [if_pos h1]
  · rw [if_neg h1]
    simp only []
    split_ifs with h2 h3
    · -- at most one network
      cases hns : c.networks with
      | nil =>
        simp only [List.map_nil]
        simp [eraseCanvasPos, hns]
      | cons net0 rest0 =>
        simp only [List.map_cons]
        split_ifs with h4
        · simp only [eraseCanvasPos]
          congr 1
          rw [hns]
          have := hn1 (net0 :: rest0)
          simp only [List.map_cons] at this
          simp only [List.map_cons]
          exact this
        · split
          · simp only [eraseCanvasPos]
            congr 1
            rw [hns]
            have := hn1 (net0 :: rest0)
            simp only [List.map_cons] at this
            simp only [List.map_cons, eraseNetworkPos_shiftNetwork]
            exact this
          · simp only [eraseCanvasPos]
            congr 1
            rw [hns]
            have := hn1 (net0 :: rest0)
            simp only [List.map_cons] at this
            simp only [List.map_cons]
            exact this
    · -- several networks, no measurable items
      simp only [eraseCanvasPos]
      congr 1
      exact hn1 c.networks
    · -- several networks, full placement
      simp only [eraseCanvasPos]
      congr 1
      rw [List.map_map]
      refine Eq.trans ?_ (hn1 c.networks)
      apply List.map_congr_left
      intro net _
      exact canvasPlaceNetwork_erase _ _ _

-- --- C6 ---

/-- C6 counterexample: at the factory tier the single-child shortcut does
NOT exist.  For a factory holding exactly one machine (one node, placed at
`(10, 500)`), the machine organizes internally to `(55, 500)` with bounds
`(55, 500, 250, 120)`; the claimed direct translation by
`(startX + padding − bounds.x, startY + padding − bounds.y)` would put the
node at `(75, 75)`, but `_organize_factory` runs the full sibling layout
and puts it at `(130, 595)` (its `y` kept from the item's own coordinate
and shifted by the 40px label header, not derived from `startY`). -/
theorem C6_counterexample :
    organizeMachine ⟨"m1", [demoNode "n1" 10 500]⟩ [] 0 0 "horizontal"
      = (⟨"m1", [{ id := "n1", x := 55, y := 500 }]⟩,
         some ⟨55, 500, 250, 120⟩) ∧
    shiftMachine (0 + FACTORY_PADDING - 55) (0 + FACTORY_PADDING - 500)
        ⟨"m1", [{ id := "n1", x := 55, y := 500 }]⟩
      = ⟨"m1", [{ id := "n1", x := 75, y := 75 }]⟩ ∧
    organizeFactory singleMachineFactory [] 0 0 "horizontal"
      = (⟨"f1", [⟨"m1", [{ id := "n1", x := 130, y := 595 }]⟩]⟩,
         some ⟨130, 595, 250, 120⟩) ∧
    ¬ ((130 : ℚ) = 75 ∧ (595 : ℚ) = 75) := by
  refine ⟨by decide, by decide, by decide, by decide⟩

theorem computeBoundsFromNodes_some_nonempty (l : List CanvasNode)
    (b : ContainerBounds) (h : computeBoundsFromNodes l = some b) :
    l.isEmpty = false := by
  cases l with
  | nil => cases h
  | cons n ns => rfl

/-- C6 amended: the single-non-empty-child shortcut exists exactly at the
network tier (single measured factory, translated by
`start + NETWORK_PADDING − bounds`) and at the canvas tier (single
network, translated by `start − bounds`, with no padding term); the factory
and machine tiers always run the full sibling layout (see
`C6_counterexample`). -/
theorem C6_single_child_shortcut :
    (∀ (conns : List (String × String)) (sx sy : ℚ) (o net_id : String)
        (f : CanvasFactory) (b : ContainerBounds),
        (organizeFactory f conns 0 0 o).2 = some b →
        (organizeNetwork ⟨net_id, [f]⟩ conns sx sy o).1
          = ⟨net_id, [shiftFactory (sx + NETWORK_PADDING - b.x)
              (sy + NETWORK_PADDING - b.y)
              (organizeFactory f conns 0 0 o).1]⟩) ∧
    (∀ (s o : String) (net : CanvasNetwork) (b : ContainerBounds),
        ¬ (allNodes ⟨[net]⟩).isEmpty →
        computeBoundsFromNodes (allNetworkNodes
            (organizeNetwork net (allConnections ⟨[net]⟩) 0 0 o).1) = some b →
        organizeCanvas ⟨[net]⟩ s o
          = ⟨[shiftNetwork (80 - b.x) (100 - b.y)
              (organizeNetwork net (allConnections ⟨[net]⟩) 0 0 o).1]⟩) := by
  constructor
  · intro conns sx sy o net_id f b hb
    unfold organizeNetwork
    simp only [List.map_cons, List.map_nil, List.foldl_cons, List.foldl_nil, hb,
      List.isEmpty_cons, dset]
    simp [dget]
  · intro s o net b hne hb
    unfold organizeCanvas
    rw [if_neg hne]
    simp only [List.map_cons, List.map_nil, List.foldl_cons, List.foldl_nil, hb,
      dset]
    have hempty := computeBoundsFromNodes_some_nonempty _ _ hb
    simp [dget, hempty]

/-- Witness for `C6_single_child_shortcut`, at the one-machine factory of
the counterexample: both shortcut tiers evaluated on concrete inputs. -/
theorem C6_single_child_shortcut_witness :
    ((organizeFactory singleMachineFactory [] 0 0 "horizontal").2
        = some ⟨130, 595, 250, 120⟩ ∧
      (organizeNetwork ⟨"net1", [singleMachineFactory]⟩ [] 0 0 "horizontal").1
        = ⟨"net1", [shiftFactory (0 + NETWORK_PADDING - 130)
            (0 + NETWORK_PADDING - 595)
            (organizeFactory singleMachineFactory [] 0 0 "horizontal").1]⟩) ∧
    (¬ (allNodes ⟨[⟨"net1", [singleMachineFactory]⟩]⟩).isEmpty ∧
      computeBoundsFromNodes (allNetworkNodes
          (organizeNetwork ⟨"net1", [singleMachineFactory]⟩
            (allConnections ⟨[⟨"net1", [singleMachineFactory]⟩]⟩) 0 0
            "horizontal").1) = some ⟨100, 100, 250, 120⟩ ∧
      organizeCanvas ⟨[⟨"net1", [singleMachineFactory]⟩]⟩ "container" "horizontal"
        = ⟨[shiftNetwork (80 - 100) (100 - 100)
            (organizeNetwork ⟨"net1", [singleMachineFactory]⟩
              (allConnections ⟨[⟨"net1", [singleMachineFactory]⟩]⟩) 0 0
              "horizontal").1]⟩) := by
  refine ⟨⟨by decide, ?_⟩, by decide, by decide, ?_⟩
  · exact C6_single_child_shortcut.1 [] 0 0 "horizontal" "net1"
      singleMachineFactory ⟨130, 595, 250, 120⟩ (by decide)
  · exact C6_single_child_shortcut.2 "container" "horizontal"
      ⟨"net1", [singleMachineFactory]⟩ ⟨100, 100, 250, 120⟩ (by decide) (by decide)

-- --- C5 ---

set_option maxRecDepth 400000 in
/-- C5 counterexample: `organize` is not idempotent.  On the five-node
disconnected canvas `gridCanvas5`, the first run yields `gridCanvas5Once`
(nodes at `(80,100), (80,360), (80,620), (80,880)` and `(420,140)`), but a
second run regroups the nodes — the machine-tier grid fallback re-sorts
items by `(y, x)`, and after the first run that ordering differs — moving
node `n5` from `(420,140)` to `(80,360)` (and `n4` to `(420,880)`). -/
theorem C5_counterexample :
    organizeCanvas gridCanvas5 "container" "horizontal" = gridCanvas5Once ∧
    ¬ organizeCanvas gridCanvas5Once "container" "horizontal"
        = gridCanvas5Once := by
  exact ⟨by decide, by decide⟩

set_option maxRecDepth 400000 in
/-- C5 amended: a second `organize` run can move nodes whenever the
grid-fallback `(y, x)` ordering of some tier changes between runs
(`C5_counterexample`); when every tier's orderings are reproduced — as for
the two-node chain canvas — the second run leaves every node's `(x, y)`
unchanged. -/
theorem C5_chain_idempotent :
    organizeCanvas chainCanvas "container" "horizontal"
      = ⟨[⟨"net1", [⟨"f1", [⟨"m1",
          [{ id := "a", x := 80, y := 100, outputs := ["b"] },
           demoNode "b" 420 100]⟩]⟩]⟩]⟩ ∧
    organizeCanvas
        (⟨[⟨"net1", [⟨"f1", [⟨"m1",
          [{ id := "a", x := 80, y := 100, outputs := ["b"] },
           demoNode "b" 420 100]⟩]⟩]⟩]⟩ : Canvas) "container" "horizontal"
      = ⟨[⟨"net1", [⟨"f1", [⟨"m1",
          [{ id := "a", x := 80, y := 100, outputs := ["b"] },
           demoNode "b" 420 100]⟩]⟩]⟩]⟩ := by
  exact ⟨by decide, by decide⟩

-- --- Key uniqueness of the level dictionaries ---

theorem kahnTarget_keys_nodup (lvl : ℤ)
    (st : Dict String ℤ × Dict String ℤ × List String) (t : String)
    (h : (dkeys st.1).Nodup) : (dkeys (kahnTarget lvl st t).1).Nodup := by
  unfold kahnTarget
  cases dget st.1 t with
  | none => exact dkeys_nodup_dset _ _ _ h
  | some existing =>
    by_cases hc : lvl + 1 > existing
    · simp only [hc, if_true]
      exact dkeys_nodup_dset _ _ _ h
    · simpa [hc] using h

theorem kahnLoopGo_keys_nodup (adj : Dict String (List String)) :
    ∀ (fuel : ℕ) (q : List String) (L D : Dict String ℤ),
      (dkeys L).Nodup → (dkeys (kahnLoopGo adj fuel q L D)).Nodup := by
  intro fuel
  induction fuel with
  | zero => intro q L D h; cases q <;> exact h
  | succ n ih =>
    intro q L D h
    cases q with
    | nil => exact h
    | cons c rest =>
      show (dkeys (kahnLoopGo adj n _ _ _)).Nodup
      apply ih
      exact (foldl_invariant
        (fun (st : Dict String ℤ × Dict String ℤ × List String) =>
          (dkeys st.1).Nodup) _ _ (L, D, rest) h
        (fun st t _ hst => kahnTarget_keys_nodup _ st t hst))

theorem kahnLevels_keys_nodup (items : List OrganizeItem)
    (edges : List OrganizeEdge) : (dkeys (kahnLevels items edges)).Nodup := by
  unfold kahnLevels
  apply kahnLoopGo_keys_nodup
  unfold seedQueue
  exact (foldl_invariant
    (fun (lq : Dict String ℤ × List String) => (dkeys lq.1).Nodup) _ _ ([], [])
    List.nodup_nil
    (fun lq it _ hst => by
      by_cases hc : (dget (buildGraph items edges).2 it.id).getD 0 = 0
      · simp only [hc, if_true]
        exact dkeys_nodup_dset _ _ _ hst
      · simpa [hc] using hst))

theorem resolveUnresolved_keys_nodup (items : List OrganizeItem)
    (edges : List OrganizeEdge) (L : Dict String ℤ)
    (h : (dkeys L).Nodup) :
    (dkeys (resolveUnresolved items edges L)).Nodup := by
  unfold resolveUnresolved
  by_cases hu : (items.filter (fun it => !(dmem L it.id))).isEmpty
  · simpa [hu] using h
  · simp only [hu, if_false]
    refine foldl_invariant (fun lv => (dkeys lv).Nodup) _ _ L h ?_
    intro lv it _ hst
    cases (edges.filter (fun e => e.to_id = it.id)).filterMap
        (fun e => dget lv e.from_id) with
    | nil => exact dkeys_nodup_dset _ _ _ hst
    | cons x xs => exact dkeys_nodup_dset _ _ _ hst

theorem dkeys_normalizeLevels (L : Dict String ℤ) :
    dkeys (normalizeLevels L) = dkeys L := by
  simp [normalizeLevels, dkeys, List.map_map]

theorem effectiveLevels_keys_nodup (items : List OrganizeItem)
    (edges : List OrganizeEdge) (opts : OrganizeOptions) :
    (dkeys (effectiveLevels items edges opts)).Nodup := by
  unfold effectiveLevels
  have hbase : (dkeys (effectiveBase (resolveUnresolved items edges
      (kahnLevels items edges)))).Nodup := by
    unfold effectiveBase
    have h1 := resolveUnresolved_keys_nodup items edges _
      (kahnLevels_keys_nodup items edges)
    by_cases hn : (normalizeLevels (resolveUnresolved items edges
        (kahnLevels items edges))).isEmpty
    · simpa [hn] using h1
    · rw [if_neg hn, dkeys_normalizeLevels]
      exact h1
  unfold applyGridFallback
  by_cases hc : (edges.length = 0 && decide (items.length > 1)) = true
  · rw [if_pos hc]
    refine foldl_invariant (fun e => (dkeys e).Nodup) _ _ _ hbase ?_
    intro e p _ hst
    by_cases ho : opts.orientation = "horizontal"
    · rw [if_pos ho]
      exact dkeys_nodup_dset _ _ _ hst
    · rw [if_neg ho]
      exact dkeys_nodup_dset _ _ _ hst
  · rw [if_neg hc]
    exact hbase

/-- In a dictionary with duplicate-free keys, membership of a pair
determines the lookup. -/
theorem dget_of_mem_nodup [DecidableEq κ] (d : Dict κ β)
    (h : (dkeys d).Nodup) (k : κ) (v : β) (hm : (k, v) ∈ d) :
    dget d k = some v := by
  induction d with
  | nil => cases hm
  | cons kv rest ih =>
    rcases List.mem_cons.1 hm with h1 | h1
    · rw [← h1]
      simp [dget_cons]
    · have hk : kv.1 ≠ k := by
        intro he
        rw [dkeys_cons, List.nodup_cons] at h
        apply h.1
        rw [he]
        have : (k, v).1 ∈ dkeys rest := List.mem_map_of_mem (·.1) h1
        exact this
      obtain ⟨a, b⟩ := kv
      rw [dget_cons, if_neg hk]
      rw [dkeys_cons, List.nodup_cons] at h
      exact ih h.2 h1

/-- A group member's id is mapped to that group's level by the effective
level dictionary. -/
theorem layoutGrouped_level (items : List OrganizeItem)
    (edges : List OrganizeEdge) (opts : OrganizeOptions) (l : ℤ)
    (it : OrganizeItem)
    (h : it ∈ (dget (layoutGrouped items edges opts) l).getD []) :
    dget (effectiveLevels items edges opts) it.id = some l := by
  unfold layoutGrouped groupByLevel at h
  rcases groupByLevel_mem (layoutItemMap items)
    (effectiveLevels items edges opts) [] l it h with h1 | h2
  · simp [dget] at h1
  · obtain ⟨kv, hkv, hl, hi⟩ := h2
    have hid := (layoutItemMap_spec items kv.1 it hi).2
    have : (it.id, l) ∈ effectiveLevels items edges opts := by
      rw [hid]
      obtain ⟨a, b⟩ := kv
      simp only at hl
      rw [← hl]
      exact hkv
    exact dget_of_mem_nodup _ (effectiveLevels_keys_nodup items edges opts)
      _ _ this

/-- Members of different level groups have different ids. -/
theorem layoutGrouped_disjoint (items : List OrganizeItem)
    (edges : List OrganizeEdge) (opts : OrganizeOptions) (l1 l2 : ℤ)
    (it1 it2 : OrganizeItem)
    (h1 : it1 ∈ (dget (layoutGrouped items edges opts) l1).getD [])
    (h2 : it2 ∈ (dget (layoutGrouped items edges opts) l2).getD [])
    (hne : l1 ≠ l2) : it1.id ≠ it2.id := by
  intro he
  apply hne
  have e1 := layoutGrouped_level items edges opts l1 it1 h1
  have e2 := layoutGrouped_level items edges opts l2 it2 h2
  rw [he] at e1
  rw [e1] at e2
  exact Option.some.inj e2

-- --- Vertical placement lemmas ---

theorem rowFold_preserve (h_spacing y0 : ℚ) :
    ∀ (row : List OrganizeItem) (acc : Dict String LayoutPosition × ℚ × ℚ)
      (k : String), (∀ it ∈ row, it.id ≠ k) →
      dget ((row.foldl
        (fun (acc : Dict String LayoutPosition × ℚ × ℚ) item =>
          (dset acc.1 item.id ⟨(pyRound acc.2.1 : ℤ), (pyRound y0 : ℤ)⟩,
           acc.2.1 + item.width + h_spacing,
           max acc.2.2 item.height)) acc).1) k = dget acc.1 k := by
  intro row
  induction row with
  | nil => intro acc k _; rfl
  | cons a as ih =>
    intro acc k hk
    rw [List.foldl_cons]
    rw [ih _ k (fun it hit => hk it (List.mem_cons_of_mem a hit))]
    exact dget_dset_ne _ _ _ _ (hk a (List.mem_cons_self a as))

theorem rowFold_y_shape (h_spacing y0 : ℚ) :
    ∀ (row : List OrganizeItem) (acc : Dict String LayoutPosition × ℚ × ℚ)
      (k : String),
      dget ((row.foldl
        (fun (acc : Dict String LayoutPosition × ℚ × ℚ) item =>
          (dset acc.1 item.id ⟨(pyRound acc.2.1 : ℤ), (pyRound y0 : ℤ)⟩,
           acc.2.1 + item.width + h_spacing,
           max acc.2.2 item.height)) acc).1) k = dget acc.1 k ∨
      ∃ xv : ℚ, dget ((row.foldl
        (fun (acc : Dict String LayoutPosition × ℚ × ℚ) item =>
          (dset acc.1 item.id ⟨(pyRound acc.2.1 : ℤ), (pyRound y0 : ℤ)⟩,
           acc.2.1 + item.width + h_spacing,
           max acc.2.2 item.height)) acc).1) k
        = some ⟨xv, ((pyRound y0 : ℤ) : ℚ)⟩ := by
  intro row
  induction row with
  | nil => intro acc k; exact Or.inl rfl
  | cons a as ih =>
    intro acc k
    rw [List.foldl_cons]
    rcases ih (dset acc.1 a.id ⟨(pyRound acc.2.1 : ℤ), (pyRound y0 : ℤ)⟩,
        acc.2.1 + a.width + h_spacing, max acc.2.2 a.height) k with h1 | h2
    · rw [h1]
      simp only []
      rw [dget_dset]
      by_cases hk : a.id = k
      · exact Or.inr ⟨((pyRound acc.2.1 : ℤ) : ℚ), by rw [if_pos hk]⟩
      · rw [if_neg hk]
        exact Or.inl rfl
    · exact Or.inr h2

theorem rowFold_member_y (h_spacing y0 : ℚ) :
    ∀ (row : List OrganizeItem) (acc : Dict String LayoutPosition × ℚ × ℚ)
      (it : OrganizeItem), it ∈ row →
      ∃ xv : ℚ, dget ((row.foldl
        (fun (acc : Dict String LayoutPosition × ℚ × ℚ) item =>
          (dset acc.1 item.id ⟨(pyRound acc.2.1 : ℤ), (pyRound y0 : ℤ)⟩,
           acc.2.1 + item.width + h_spacing,
           max acc.2.2 item.height)) acc).1) it.id
        = some ⟨xv, ((pyRound y0 : ℤ) : ℚ)⟩ := by
  intro row
  induction row with
  | nil => intro acc it hit; cases hit
  | cons a as ih =>
    intro acc it hit
    rw [List.foldl_cons]
    rcases List.mem_cons.1 hit with h1 | h1
    · subst h1
      rcases rowFold_y_shape h_spacing y0 as
        (dset acc.1 it.id ⟨(pyRound acc.2.1 : ℤ), (pyRound y0 : ℤ)⟩,
         acc.2.1 + it.width + h_spacing, max acc.2.2 it.height) it.id with h2 | h2
      · rw [h2]
        simp only []
        rw [dget_dset_self]
        exact ⟨((pyRound acc.2.1 : ℤ) : ℚ), rfl⟩
      · exact h2
    · exact ih _ it h1

theorem rowsFold_preserve (grouped : Dict ℤ (List OrganizeItem))
    (h_spacing v_spacing reference_center_x : ℚ) :
    ∀ (ls : List ℤ) (st : Dict String LayoutPosition × ℚ) (k : String),
      (∀ l ∈ ls, ∀ it2 ∈ (dget grouped l).getD [], it2.id ≠ k) →
      dget ((ls.foldl
        (fun (st : Dict String LayoutPosition × ℚ) level =>
          let row_items := pySorted itemLeXId ((dget grouped level).getD [])
          if row_items.isEmpty then st
          else
            let total_width := listSumQ (row_items.map (·.width))
              + ((row_items.length : ℚ) - 1) * h_spacing
            let inner := row_items.foldl
              (fun (acc : Dict String LayoutPosition × ℚ × ℚ) item =>
                (dset acc.1 item.id ⟨(pyRound acc.2.1 : ℤ), (pyRound st.2 : ℤ)⟩,
                 acc.2.1 + item.width + h_spacing,
                 max acc.2.2 item.height))
              (st.1, reference_center_x - total_width / 2, 0)
            (inner.1, st.2 + inner.2.2 + v_spacing)) st).1) k = dget st.1 k := by
  intro ls
  induction ls with
  | nil => intro st k _; rfl
  | cons l ls2 ih =>
    intro st k hk
    rw [List.foldl_cons]
    rw [ih _ k (fun l2 hl2 => hk l2 (List.mem_cons_of_mem l hl2))]
    simp only []
    by_cases hr : (pySorted itemLeXId ((dget grouped l).getD [])).isEmpty
    · rw [if_pos hr]
    · rw [if_neg hr]
      exact rowFold_preserve h_spacing st.2 _ _ k
        (fun it2 hit2 => hk l (List.mem_cons_self l ls2) it2
          ((mem_pySorted itemLeXId _ it2).1 hit2))

theorem layoutGrouped_keys_nodup (items : List OrganizeItem)
    (edges : List OrganizeEdge) (opts : OrganizeOptions) :
    (dkeys (layoutGrouped items edges opts)).Nodup := by
  unfold layoutGrouped groupByLevel
  refine foldl_invariant (fun g => (dkeys g).Nodup) _ _ [] List.nodup_nil ?_
  intro g kv _ hst
  have hg1 : (dkeys (if dmem g kv.2 then g else dset g kv.2 [])).Nodup := by
    by_cases hm : dmem g kv.2
    · rw [if_pos hm]; exact hst
    · rw [if_neg hm]; exact dkeys_nodup_dset _ _ _ hst
  cases dget (layoutItemMap items) kv.1 with
  | none => exact hg1
  | some item => exact dkeys_nodup_dset _ _ _ hg1

theorem layoutOrderedLevels_nodup (items : List OrganizeItem)
    (edges : List OrganizeEdge) (opts : OrganizeOptions) :
    (layoutOrderedLevels items edges opts).Nodup := by
  unfold layoutOrderedLevels
  exact (pySorted_perm _ _).nodup_iff.2 (layoutGrouped_keys_nodup items edges opts)

theorem fallbackFold_preserve (items : List OrganizeItem) :
    ∀ (ly : Dict String LayoutPosition) (k : String), (dget ly k).isSome →
      dget (items.foldl (fun ly it => if dmem ly it.id then ly
        else dset ly it.id ⟨(pyRound it.x : ℤ), (pyRound it.y : ℤ)⟩) ly) k
        = dget ly k := by
  induction items with
  | nil => intro ly k _; rfl
  | cons a as ih =>
    intro ly k h
    rw [List.foldl_cons]
    by_cases hm : dmem ly a.id
    · rw [if_pos hm]
      exact ih ly k h
    · rw [if_neg hm]
      have hk : a.id ≠ k := by
        intro he
        rw [he] at hm
        exact hm h
      rw [ih _ k (by rw [dget_dset_ne _ _ _ _ hk]; exact h)]
      exact dget_dset_ne _ _ _ _ hk

-- --- C9 ---

/-- C9 counterexample: the claim fails when `options.startY` is the
sentinel value `0`: the y-cursor then starts at the minimum original item
y, not at `round(startY) = 0`.  One item at `y = 50` with vertical
orientation and `startY = 0` is placed at `y = 50 ≠ 0`. -/
theorem C9_counterexample :
    computeOrganizedLayout
        [{ id := "a", width := 250, height := 120, x := 0, y := 50 }] []
        { orientation := "vertical" }
      = [("a", ⟨0, 50⟩)] ∧
    (50 : ℚ) ≠ ((pyRound (({ orientation := "vertical" } :
        OrganizeOptions)).start_y : ℤ) : ℚ) := by
  exact ⟨by decide, by decide⟩

/-- C9 amended: in vertical orientation, for every item set and options
with `startY ≠ 0` (when `startY = 0` the code substitutes the minimum
original y, see `C9_counterexample`) and `grid_columns ≠ 0` (at
`grid_columns = 0` the grid fallback can raise `ZeroDivisionError` before
anything is placed, see `C2_counterexample`), the function returns a map —
it does not raise — in which every item of the first (lowest) level is
placed at `y = round(startY)`. -/
theorem C9_first_row_at_startY (items : List OrganizeItem)
    (edges : List OrganizeEdge) (opts : OrganizeOptions)
    (hor : opts.orientation = "vertical") (hsy : opts.start_y ≠ 0)
    (hgc : opts.grid_columns ≠ 0)
    (l0 : ℤ) (hl : (layoutOrderedLevels items edges opts).head? = some l0)
    (it : OrganizeItem)
    (hit : it ∈ (dget (layoutGrouped items edges opts) l0).getD []) :
    ∃ m : Dict String LayoutPosition, ∃ p : LayoutPosition,
      computeOrganizedLayoutChecked items edges opts = some m ∧
      dget m it.id = some p ∧
      p.y = ((pyRound opts.start_y : ℤ) : ℚ) := by
  have hitems : it ∈ items := layoutGrouped_mem items edges opts l0 it hit
  have hne : ¬ items.isEmpty := by
    cases items with
    | nil => cases hitems
    | cons a l => simp
  have hstart : defaultStartY items opts = opts.start_y := by
    unfold defaultStartY
    rw [if_pos hsy]
  have hplaced : ∃ xv : ℚ, dget (layoutPlaced items edges opts) it.id
      = some ⟨xv, ((pyRound opts.start_y : ℤ) : ℚ)⟩ := by
    unfold layoutPlaced
    have hno : ¬ opts.orientation = "horizontal" := by rw [hor]; decide
    rw [if_neg hno]
    simp only []
    unfold placeVertical
    obtain ⟨ls, hll⟩ : ∃ ls, layoutOrderedLevels items edges opts = l0 :: ls := by
      cases hc : layoutOrderedLevels items edges opts with
      | nil => rw [hc] at hl; cases hl
      | cons a as =>
        rw [hc] at hl
        have ha : a = l0 := by simpa using hl
        exact ⟨as, by rw [ha]⟩
    rw [hll, List.foldl_cons]
    have hdisj : ∀ l ∈ ls, ∀ it2 ∈ (dget (layoutGrouped items edges opts) l).getD [],
        it2.id ≠ it.id := by
      intro l hls it2 hit2
      have hnd := layoutOrderedLevels_nodup items edges opts
      rw [hll] at hnd
      have hlne : l ≠ l0 := by
        intro he
        subst he
        exact (List.nodup_cons.1 hnd).1 hls
      exact layoutGrouped_disjoint items edges opts l l0 it2 it hit2 hit hlne
    rw [rowsFold_preserve (layoutGrouped items edges opts)
      opts.horizontal_spacing opts.vertical_spacing _ ls _ it.id hdisj]
    simp only []
    have hitrow : it ∈ pySorted itemLeXId
        ((dget (layoutGrouped items edges opts) l0).getD []) := by
      rw [mem_pySorted]
      exact hit
    have hrne : ¬ (pySorted itemLeXId
        ((dget (layoutGrouped items edges opts) l0).getD [])).isEmpty := by
      cases hc : pySorted itemLeXId ((dget (layoutGrouped items edges opts) l0).getD []) with
      | nil => rw [hc] at hitrow; cases hitrow
      | cons a as => simp
    rw [if_neg hrne]
    rw [hstart]
    exact rowFold_member_y opts.horizontal_spacing opts.start_y _ _ it hitrow
  obtain ⟨xv, hx⟩ := hplaced
  refine ⟨computeOrganizedLayout items edges opts,
    ⟨xv, ((pyRound opts.start_y : ℤ) : ℚ)⟩,
    computeOrganizedLayoutChecked_gc_ne items edges opts hgc, ?_, rfl⟩
  unfold computeOrganizedLayout
  rw [if_neg hne]
  rw [fallbackFold_preserve items _ it.id (by rw [hx]; rfl)]
  exact hx

/-- Witness for `C9_first_row_at_startY`: a single item at `y = 50`,
vertical orientation, `startY = 7`, default `grid_columns = 4 ≠ 0`; the
function returns a map placing the item at `y = 7`. -/
theorem C9_first_row_at_startY_witness :
    (({ orientation := "vertical", start_y := 7 } : OrganizeOptions).orientation
        = "vertical") ∧
    (({ orientation := "vertical", start_y := 7 } : OrganizeOptions).start_y ≠ 0) ∧
    (({ orientation := "vertical", start_y := 7 } : OrganizeOptions).grid_columns
        ≠ 0) ∧
    ((layoutOrderedLevels
        [{ id := "a", width := 250, height := 120, x := 0, y := 50 }] []
        { orientation := "vertical", start_y := 7 }).head? = some 0) ∧
    (({ id := "a", width := 250, height := 120, x := 0, y := 50 } : OrganizeItem)
        ∈ (dget (layoutGrouped
          [{ id := "a", width := 250, height := 120, x := 0, y := 50 }] []
          { orientation := "vertical", start_y := 7 }) 0).getD []) ∧
    (∃ m : Dict String LayoutPosition, ∃ p : LayoutPosition,
      computeOrganizedLayoutChecked
          [{ id := "a", width := 250, height := 120, x := 0, y := 50 }] []
          { orientation := "vertical", start_y := 7 } = some m ∧
      dget m ({ id := "a", width := 250, height := 120, x := 0, y := 50 } :
          OrganizeItem).id = some p ∧
      p.y = ((pyRound ({ orientation := "vertical", start_y := 7 } :
        OrganizeOptions).start_y : ℤ) : ℚ)) := by
  refine ⟨rfl, by decide, by decide, by decide, by decide, ?_⟩
  exact C9_first_row_at_startY _ _ _ rfl (by decide) (by decide) 0 (by decide) _
    (by decide)

-- --- C7: edges with unknown endpoints ---

set_option maxRecDepth 400000 in
/-- C7 (counterexample): appending an edge with unknown endpoint ids CAN
change the returned position map.  With two disconnected items and
`grid_columns = 1` the grid fallback fires for the empty edge list but is
suppressed by the bogus edge `zzz→qqq`, because the source counts it in
`total_edges = len(edges)` (line 187) before any endpoint check: item `b`
moves from `(340, 10)` to `(0, 260)`. -/
theorem C7_counterexample :
    ("zzz" ∉ ([{ id := "a", width := 250, height := 120, x := 0, y := 0 },
               { id := "b", width := 250, height := 120, x := 10, y := 10 }] :
        List OrganizeItem).map (fun it => it.id)) ∧
    ("qqq" ∉ ([{ id := "a", width := 250, height := 120, x := 0, y := 0 },
               { id := "b", width := 250, height := 120, x := 10, y := 10 }] :
        List OrganizeItem).map (fun it => it.id)) ∧
    computeOrganizedLayout
      [{ id := "a", width := 250, height := 120, x := 0, y := 0 },
       { id := "b", width := 250, height := 120, x := 10, y := 10 }]
      [] { grid_columns := 1 }
      = [("a", ⟨0, 0⟩), ("b", ⟨340, 10⟩)] ∧
    computeOrganizedLayout
      [{ id := "a", width := 250, height := 120, x := 0, y := 0 },
       { id := "b", width := 250, height := 120, x := 10, y := 10 }]
      ([] ++ [⟨"zzz", "qqq"⟩]) { grid_columns := 1 }
      = [("a", ⟨0, 0⟩), ("b", ⟨0, 260⟩)] :=
  ⟨by decide, by decide, by decide, by decide⟩

theorem dmem_dset [DecidableEq κ] (d : Dict κ β) (k : κ) (v : β) (k2 : κ) :
    dmem (dset d k v) k2 = (if k = k2 then true else dmem d k2) := by
  unfold dmem
  rw [dget_dset]
  by_cases h : k = k2 <;> simp [h]

/-- Both `buildGraph` maps have keys drawn from the item ids, and every
adjacency-list entry is an item id (edges failing the membership test of
line 133 contribute nothing). -/
theorem buildGraph_sub (items : List OrganizeItem) (edges : List OrganizeEdge) :
    (∀ k, dmem (buildGraph items edges).1 k = true →
        k ∈ items.map (fun it => it.id)) ∧
    (∀ k, dmem (buildGraph items edges).2 k = true →
        k ∈ items.map (fun it => it.id)) ∧
    (∀ c l, dget (buildGraph items edges).1 c = some l →
        ∀ t ∈ l, t ∈ items.map (fun it => it.id)) := by
  have hadj0 : ∀ k, dmem (items.foldl
      (fun d it => dset d it.id ([] : List String)) []) k = true →
      k ∈ items.map (fun it => it.id) := by
    intro k hk
    unfold dmem at hk
    cases hw : dget (items.foldl (fun d it => dset d it.id ([] : List String)) []) k with
    | none => rw [hw] at hk; simp at hk
    | some w =>
      rcases dget_foldl_dset (fun it : OrganizeItem => it.id)
          (fun _ => ([] : List String)) items [] k w hw with ⟨x, hx, hk2, _⟩ | h0
      · exact hk2 ▸ List.mem_map_of_mem _ hx
      · simp [dget] at h0
  have hdeg0 : ∀ k, dmem (items.foldl
      (fun d it => dset d it.id (0 : ℤ)) []) k = true →
      k ∈ items.map (fun it => it.id) := by
    intro k hk
    unfold dmem at hk
    cases hw : dget (items.foldl (fun d it => dset d it.id (0 : ℤ)) []) k with
    | none => rw [hw] at hk; simp at hk
    | some w =>
      rcases dget_foldl_dset (fun it : OrganizeItem => it.id)
          (fun _ => (0 : ℤ)) items [] k w hw with ⟨x, hx, hk2, _⟩ | h0
      · exact hk2 ▸ List.mem_map_of_mem _ hx
      · simp [dget] at h0
  have hval0 : ∀ c l, dget (items.foldl
      (fun d it => dset d it.id ([] : List String)) []) c = some l →
      ∀ t ∈ l, t ∈ items.map (fun it => it.id) := by
    intro c l hcl t ht
    rcases dget_foldl_dset (fun it : OrganizeItem => it.id)
        (fun _ => ([] : List String)) items [] c l hcl with ⟨x, _, _, hv⟩ | h0
    · rw [← hv] at ht; cases ht
    · simp [dget] at h0
  unfold buildGraph
  simp only []
  refine foldl_invariant
    (fun (ad : Dict String (List String) × Dict String ℤ) =>
      (∀ k, dmem ad.1 k = true → k ∈ items.map (fun it => it.id)) ∧
      (∀ k, dmem ad.2 k = true → k ∈ items.map (fun it => it.id)) ∧
      (∀ c l, dget ad.1 c = some l → ∀ t ∈ l, t ∈ items.map (fun it => it.id)))
    _ edges
    (items.foldl (fun d it => dset d it.id ([] : List String)) [],
     items.foldl (fun d it => dset d it.id (0 : ℤ)) [])
    ⟨hadj0, hdeg0, hval0⟩ ?_
  intro ad e2 _ hP
  obtain ⟨h1, h2, h3⟩ := hP
  by_cases hc : (dmem ad.1 e2.from_id && dmem ad.2 e2.to_id) = true
  · rw [if_pos hc]
    rw [Bool.and_eq_true] at hc
    obtain ⟨hcf, hct⟩ := hc
    refine ⟨?_, ?_, ?_⟩
    · intro k hk
      rw [dmem_dset] at hk
      by_cases hek : e2.from_id = k
      · exact hek ▸ h1 _ hcf
      · rw [if_neg hek] at hk; exact h1 k hk
    · intro k hk
      rw [dmem_dset] at hk
      by_cases hek : e2.to_id = k
      · exact hek ▸ h2 _ hct
      · rw [if_neg hek] at hk; exact h2 k hk
    · intro c l hcl t ht
      rw [dget_dset] at hcl
      by_cases hec : e2.from_id = c
      · rw [if_pos hec] at hcl
        have hl := Option.some.inj hcl
        rw [← hl] at ht
        rcases List.mem_append.1 ht with h4 | h4
        · cases hold : dget ad.1 e2.from_id with
          | none => rw [hold] at h4; cases h4
          | some ol =>
            rw [hold] at h4
            exact h3 e2.from_id ol hold t h4
        · simp only [List.mem_singleton] at h4
          exact h4 ▸ h2 _ hct
      · rw [if_neg hec] at hcl
        exact h3 c l hcl t ht
  · rw [if_neg hc]
    exact ⟨h1, h2, h3⟩

/-- Folding one more edge into `buildGraph` is one step of the edge fold. -/
theorem buildGraph_append_one (items : List OrganizeItem)
    (edges : List OrganizeEdge) (e : OrganizeEdge) :
    buildGraph items (edges ++ [e]) =
      (if dmem (buildGraph items edges).1 e.from_id &&
          dmem (buildGraph items edges).2 e.to_id then
        (dset (buildGraph items edges).1 e.from_id
          ((dget (buildGraph items edges).1 e.from_id).getD [] ++ [e.to_id]),
         dset (buildGraph items edges).2 e.to_id
          ((dget (buildGraph items edges).2 e.to_id).getD 0 + 1))
      else buildGraph items edges) := by
  unfold buildGraph
  simp only [List.foldl_append, List.foldl_cons, List.foldl_nil]

/-- `buildGraph` ignores an appended edge with an unknown endpoint. -/
theorem buildGraph_append_unknown (items : List OrganizeItem)
    (edges : List OrganizeEdge) (e : OrganizeEdge)
    (h : e.from_id ∉ items.map (fun it => it.id) ∨
         e.to_id ∉ items.map (fun it => it.id)) :
    buildGraph items (edges ++ [e]) = buildGraph items edges := by
  rw [buildGraph_append_one]
  have hcond : (dmem (buildGraph items edges).1 e.from_id &&
      dmem (buildGraph items edges).2 e.to_id) = false := by
    rcases h with h | h
    · have hf : dmem (buildGraph items edges).1 e.from_id = false := by
        cases hb : dmem (buildGraph items edges).1 e.from_id with
        | false => rfl
        | true => exact absurd ((buildGraph_sub items edges).1 _ hb) h
      simp [hf]
    · have hf : dmem (buildGraph items edges).2 e.to_id = false := by
        cases hb : dmem (buildGraph items edges).2 e.to_id with
        | false => rfl
        | true => exact absurd ((buildGraph_sub items edges).2.1 _ hb) h
      simp [hf]
  simp [hcond]

/-- `kahnLevels` ignores an appended edge with an unknown endpoint. -/
theorem kahnLevels_append_unknown (items : List OrganizeItem)
    (edges : List OrganizeEdge) (e : OrganizeEdge)
    (h : e.from_id ∉ items.map (fun it => it.id) ∨
         e.to_id ∉ items.map (fun it => it.id)) :
    kahnLevels items (edges ++ [e]) = kahnLevels items edges := by
  unfold kahnLevels
  simp only [buildGraph_append_unknown items edges e h]

/-- Every key of the seed level map is an item id. -/
theorem seedQueue_sub (items : List OrganizeItem) (indeg : Dict String ℤ) :
    ∀ k, (dget (seedQueue items indeg).1 k).isSome →
      k ∈ items.map (fun it => it.id) := by
  unfold seedQueue
  refine foldl_invariant
    (fun (lq : Dict String ℤ × List String) =>
      ∀ k, (dget lq.1 k).isSome → k ∈ items.map (fun it => it.id))
    _ (pySorted itemLeXY items) ([], []) ?_ ?_
  · intro k hk; simp [dget] at hk
  · intro lq it hit hlq k hk
    rw [mem_pySorted] at hit
    by_cases hz : (dget indeg it.id).getD 0 = 0
    · rw [if_pos hz] at hk
      rw [dget_dset] at hk
      by_cases hek : it.id = k
      · exact hek ▸ List.mem_map_of_mem _ hit
      · rw [if_neg hek] at hk; exact hlq k hk
    · rw [if_neg hz] at hk; exact hlq k hk

/-- A `kahnTarget` fold adds only targets as new level keys. -/
theorem kahnTargetFold_sub (S : List String) (cl : ℤ) (ts : List String)
    (hts : ∀ t ∈ ts, t ∈ S) :
    ∀ (st : Dict String ℤ × Dict String ℤ × List String),
      (∀ k, (dget st.1 k).isSome → k ∈ S) →
      ∀ k, (dget ((ts.foldl (kahnTarget cl) st).1) k).isSome → k ∈ S := by
  intro st hst
  refine foldl_invariant
    (fun (st2 : Dict String ℤ × Dict String ℤ × List String) =>
      ∀ k, (dget st2.1 k).isSome → k ∈ S) _ ts st hst ?_
  intro st2 t ht hst2 k hk
  unfold kahnTarget at hk
  simp only [] at hk
  cases hdg : dget st2.1 t with
  | none =>
    rw [hdg] at hk
    rw [dget_dset] at hk
    by_cases hek : t = k
    · exact hek ▸ hts t ht
    · rw [if_neg hek] at hk; exact hst2 k hk
  | some ex =>
    rw [hdg] at hk
    simp only [] at hk
    by_cases hgt : cl + 1 > ex
    · rw [if_pos hgt] at hk
      rw [dget_dset] at hk
      by_cases hek : t = k
      · exact hek ▸ hts t ht
      · rw [if_neg hek] at hk; exact hst2 k hk
    · rw [if_neg hgt] at hk; exact hst2 k hk

/-- The Kahn loop only ever assigns levels to adjacency targets or keys it
started with. -/
theorem kahnLoopGo_sub (S : List String) (adjacency : Dict String (List String))
    (hadj : ∀ c l, dget adjacency c = some l → ∀ t ∈ l, t ∈ S) :
    ∀ (fuel : ℕ) (queue : List String) (levels indeg : Dict String ℤ),
      (∀ k, (dget levels k).isSome → k ∈ S) →
      ∀ k, (dget (kahnLoopGo adjacency fuel queue levels indeg) k).isSome →
        k ∈ S := by
  intro fuel
  induction fuel with
  | zero => intro queue levels indeg h k hk; exact h k hk
  | succ n ih =>
    intro queue levels indeg h k hk
    cases queue with
    | nil => exact h k hk
    | cons c rest =>
      simp only [kahnLoopGo] at hk
      refine ih _ _ _ ?_ k hk
      refine kahnTargetFold_sub S _ _ ?_ (levels, indeg, rest) h
      intro t ht
      cases hdg : dget adjacency c with
      | none => rw [hdg] at ht; cases ht
      | some l =>
        rw [hdg] at ht
        exact hadj c l hdg t ht

/-- Every key of the raw Kahn level map is an item id. -/
theorem kahnLevels_sub (items : List OrganizeItem) (edges : List OrganizeEdge) :
    ∀ k, (dget (kahnLevels items edges) k).isSome →
      k ∈ items.map (fun it => it.id) := by
  intro k hk
  unfold kahnLevels at hk
  simp only [] at hk
  unfold kahnLoop at hk
  exact kahnLoopGo_sub _ _ (buildGraph_sub items edges).2.2 _ _ _ _
    (seedQueue_sub items _) k hk

/-- `resolveUnresolved` ignores an appended edge with an unknown endpoint
(its lookups `levels_map.get(edge.from_id)` return `None` for unknown
sources, and unknown targets match no unresolved item). -/
theorem resolveUnresolved_append_unknown (items : List OrganizeItem)
    (edges : List OrganizeEdge) (e : OrganizeEdge) (L : Dict String ℤ)
    (hun : e.from_id ∉ items.map (fun it => it.id) ∨
           e.to_id ∉ items.map (fun it => it.id))
    (hL : ∀ k, (dget L k).isSome → k ∈ items.map (fun it => it.id)) :
    resolveUnresolved items (edges ++ [e]) L = resolveUnresolved items edges L := by
  have main : ∀ (ps : List OrganizeItem) (lv : Dict String ℤ),
      (∀ it ∈ ps, it ∈ items) →
      (∀ k, (dget lv k).isSome → k ∈ items.map (fun it => it.id)) →
      ps.foldl
        (fun (lv : Dict String ℤ) (it : OrganizeItem) =>
          let incoming := ((edges ++ [e]).filter
            (fun e2 => e2.to_id = it.id)).filterMap
            (fun e2 => dget lv e2.from_id)
          match incoming with
          | [] => dset lv it.id 0
          | x :: xs => dset lv it.id (xs.foldl max x + 1)) lv
      = ps.foldl
        (fun (lv : Dict String ℤ) (it : OrganizeItem) =>
          let incoming := (edges.filter
            (fun e2 => e2.to_id = it.id)).filterMap
            (fun e2 => dget lv e2.from_id)
          match incoming with
          | [] => dset lv it.id 0
          | x :: xs => dset lv it.id (xs.foldl max x + 1)) lv := by
    intro ps
    induction ps with
    | nil => intro lv _ _; rfl
    | cons it ps ih =>
      intro lv hps hlv
      rw [List.foldl_cons, List.foldl_cons]
      have hinc : ((edges ++ [e]).filter (fun e2 => e2.to_id = it.id)).filterMap
          (fun e2 => dget lv e2.from_id)
          = (edges.filter (fun e2 => e2.to_id = it.id)).filterMap
            (fun e2 => dget lv e2.from_id) := by
        rw [List.filter_append, List.filterMap_append]
        have hnil : (([e].filter (fun e2 => e2.to_id = it.id)).filterMap
            (fun e2 => dget lv e2.from_id)) = [] := by
          by_cases hte : e.to_id = it.id
          · have hfrom : e.from_id ∉ items.map (fun x => x.id) := by
              rcases hun with h | h
              · exact h
              · exact absurd (hte ▸ List.mem_map_of_mem (fun x => x.id)
                  (hps it (List.mem_cons_self it ps))) h
            have hnone : dget lv e.from_id = none := by
              cases hg : dget lv e.from_id with
              | none => rfl
              | some v =>
                exact absurd (hlv e.from_id (by rw [hg]; rfl)) hfrom
            simp [hte, hnone]
          · simp [hte]
        rw [hnil, List.append_nil]
      have hdset : ∀ (v : ℤ) k, (dget (dset lv it.id v) k).isSome →
          k ∈ items.map (fun x => x.id) := by
        intro v k hk
        rw [dget_dset] at hk
        by_cases hek : it.id = k
        · exact hek ▸ List.mem_map_of_mem (fun x => x.id)
            (hps it (List.mem_cons_self it ps))
        · rw [if_neg hek] at hk; exact hlv k hk
      simp only [hinc]
      refine ih _ (fun x hx => hps x (List.mem_cons_of_mem _ hx)) ?_
      intro k hk
      simp only [] at hk
      rcases hD : (edges.filter (fun e2 => e2.to_id = it.id)).filterMap
          (fun e2 => dget lv e2.from_id) with _ | ⟨x, xs⟩
      · rw [hD] at hk
        simp only [] at hk
        exact hdset 0 k hk
      · rw [hD] at hk
        simp only [] at hk
        exact hdset _ k hk
  unfold resolveUnresolved
  simp only []
  by_cases hu : (items.filter (fun it => !(dmem L it.id))).isEmpty
  · rw [if_pos hu, if_pos hu]
  · rw [if_neg hu, if_neg hu]
    refine main _ L ?_ hL
    intro it hit
    rw [mem_pySorted] at hit
    exact List.mem_of_mem_filter hit

/-- The grid fallback is inert for any two nonempty edge lists (the
`total_edges == 0` test fails for both). -/
theorem applyGridFallback_edges_ne (items : List OrganizeItem)
    (edges edges2 : List OrganizeEdge) (opts : OrganizeOptions)
    (eff : Dict String ℤ) (h1 : edges ≠ []) (h2 : edges2 ≠ []) :
    applyGridFallback items edges opts eff
      = applyGridFallback items edges2 opts eff := by
  have hc1 : (decide (edges.length = 0) && decide (items.length > 1)) = false := by
    have hh : ¬(edges.length = 0) := fun hh => h1 (List.length_eq_zero.mp hh)
    simp [hh]
  have hc2 : (decide (edges2.length = 0) && decide (items.length > 1)) = false := by
    have hh : ¬(edges2.length = 0) := fun hh => h2 (List.length_eq_zero.mp hh)
    simp [hh]
  unfold applyGridFallback
  rw [hc1, hc2]

/-- `effectiveLevels` ignores an appended edge with an unknown endpoint,
provided the original edge list is nonempty (so the grid fallback is inert
on both sides). -/
theorem effectiveLevels_append_unknown (items : List OrganizeItem)
    (edges : List OrganizeEdge) (e : OrganizeEdge) (opts : OrganizeOptions)
    (hun : e.from_id ∉ items.map (fun it => it.id) ∨
           e.to_id ∉ items.map (fun it => it.id))
    (hne : edges ≠ []) :
    effectiveLevels items (edges ++ [e]) opts
      = effectiveLevels items edges opts := by
  unfold effectiveLevels
  rw [kahnLevels_append_unknown items edges e hun]
  rw [resolveUnresolved_append_unknown items edges e _ hun
    (kahnLevels_sub items edges)]
  exact applyGridFallback_edges_ne items _ _ opts _ (by simp) hne

/-- `_get_parent_centers` ignores an appended edge with an unknown endpoint:
an unknown target matches no placed item's id, and an unknown source fails
the `edge.from_id in layout` test. -/
theorem getParentCenters_append_unknown (ids : List String)
    (edges : List OrganizeEdge) (e : OrganizeEdge)
    (itemMap : Dict String OrganizeItem) (layout : Dict String LayoutPosition)
    (item_id : String)
    (hun : e.from_id ∉ ids ∨ e.to_id ∉ ids)
    (hiid : item_id ∈ ids)
    (hlay : ∀ k, dmem layout k = true → k ∈ ids) :
    getParentCenters (edges ++ [e]) itemMap layout item_id
      = getParentCenters edges itemMap layout item_id := by
  unfold getParentCenters
  rw [List.foldl_append, List.foldl_cons, List.foldl_nil]
  have hcond : (decide (e.to_id = item_id) && dmem layout e.from_id) = false := by
    rcases hun with h | h
    · cases hb : dmem layout e.from_id with
      | false => simp [hb]
      | true => exact absurd (hlay _ hb) h
    · have hne : e.to_id ≠ item_id := fun hh => h (hh ▸ hiid)
      simp [hne]
  simp [hcond]

/-- The horizontal placement fold ignores an appended edge with an unknown
endpoint, for any column grouping drawn from the items. -/
theorem placeHorizontal_fold_append_unknown (items : List OrganizeItem)
    (edges : List OrganizeEdge) (e : OrganizeEdge)
    (itemMap : Dict String OrganizeItem)
    (grouped : Dict ℤ (List OrganizeItem))
    (hun : e.from_id ∉ items.map (fun it => it.id) ∨
           e.to_id ∉ items.map (fun it => it.id))
    (hg : ∀ (level : ℤ), ∀ it ∈ (dget grouped level).getD [], it ∈ items)
    (h_spacing v_spacing : ℚ) :
    ∀ (ols : List ℤ) (st : Dict String LayoutPosition × ℚ),
      LayoutKeysOK items st.1 →
      ols.foldl
        (fun (st : Dict String LayoutPosition × ℚ) level =>
          let column_items := (dget grouped level).getD []
          if column_items.isEmpty then st
          else
            let entries := column_items.map
              (fun item =>
                let pcs := getParentCenters (edges ++ [e]) itemMap st.1 item.id
                let fallback := item.y + item.height / 2
                let target :=
                  if pcs.isEmpty then fallback
                  else listSumQ pcs / (pcs.length : ℚ)
                ⟨item, target, fallback⟩)
            (placeColumnEntries v_spacing st.2 (pySorted entryLe entries) st.1,
             st.2 + columnWidth column_items + h_spacing)) st
      = ols.foldl
        (fun (st : Dict String LayoutPosition × ℚ) level =>
          let column_items := (dget grouped level).getD []
          if column_items.isEmpty then st
          else
            let entries := column_items.map
              (fun item =>
                let pcs := getParentCenters edges itemMap st.1 item.id
                let fallback := item.y + item.height / 2
                let target :=
                  if pcs.isEmpty then fallback
                  else listSumQ pcs / (pcs.length : ℚ)
                ⟨item, target, fallback⟩)
            (placeColumnEntries v_spacing st.2 (pySorted entryLe entries) st.1,
             st.2 + columnWidth column_items + h_spacing)) st := by
  intro ols
  induction ols with
  | nil => intro st _; rfl
  | cons level ols ih =>
    intro st hst
    rw [List.foldl_cons, List.foldl_cons]
    simp only []
    by_cases hc : ((dget grouped level).getD []).isEmpty
    · rw [if_pos hc, if_pos hc]
      exact ih st hst
    · have hc' : ¬(((dget grouped level).getD []).isEmpty = true) := by
        simp [hc]
      rw [if_neg hc', if_neg hc']
      have hlay : ∀ k, dmem st.1 k = true →
          k ∈ items.map (fun it => it.id) := by
        intro k hk
        obtain ⟨it2, hit2, hie⟩ := hst.2 k hk
        exact hie ▸ List.mem_map_of_mem (fun it => it.id) hit2
      have hent : ((dget grouped level).getD []).map
          (fun item =>
            let pcs := getParentCenters (edges ++ [e]) itemMap st.1 item.id
            let fallback := item.y + item.height / 2
            let target :=
              if pcs.isEmpty then fallback
              else listSumQ pcs / (pcs.length : ℚ)
            (⟨item, target, fallback⟩ : ColumnEntry))
          = ((dget grouped level).getD []).map
          (fun item =>
            let pcs := getParentCenters edges itemMap st.1 item.id
            let fallback := item.y + item.height / 2
            let target :=
              if pcs.isEmpty then fallback
              else listSumQ pcs / (pcs.length : ℚ)
            (⟨item, target, fallback⟩ : ColumnEntry)) := by
        refine List.map_congr_left ?_
        intro item hitem
        have hid : item.id ∈ items.map (fun it => it.id) :=
          List.mem_map_of_mem (fun it => it.id) (hg level item hitem)
        simp only [getParentCenters_append_unknown
          (items.map (fun it => it.id)) edges e itemMap st.1 item.id
          hun hid hlay]
      rw [hent]
      refine ih _ ?_
      refine placeColumnEntries_keysOK items _ _ _ _ ?_ hst
      intro en hen
      rw [mem_pySorted] at hen
      obtain ⟨item, hitem, hmap⟩ := List.mem_map.1 hen
      have hei : en.item = item := by rw [← hmap]
      rw [hei]
      exact hg level item hitem

/-- `placeHorizontal` ignores an appended edge with an unknown endpoint. -/
theorem placeHorizontal_append_unknown (items : List OrganizeItem)
    (edges : List OrganizeEdge) (e : OrganizeEdge)
    (itemMap : Dict String OrganizeItem)
    (grouped : Dict ℤ (List OrganizeItem)) (ols : List ℤ)
    (hun : e.from_id ∉ items.map (fun it => it.id) ∨
           e.to_id ∉ items.map (fun it => it.id))
    (hg : ∀ (level : ℤ), ∀ it ∈ (dget grouped level).getD [], it ∈ items)
    (h_spacing v_spacing start_x : ℚ) :
    placeHorizontal (edges ++ [e]) itemMap grouped ols
        h_spacing v_spacing start_x
      = placeHorizontal edges itemMap grouped ols
        h_spacing v_spacing start_x := by
  unfold placeHorizontal
  rw [placeHorizontal_fold_append_unknown items edges e itemMap grouped hun hg
    h_spacing v_spacing ols ([], start_x)
    ⟨List.nodup_nil, fun k hk => by simp [dget] at hk⟩]

/-- `layoutPlaced` ignores an appended edge with an unknown endpoint. -/
theorem layoutPlaced_append_unknown (items : List OrganizeItem)
    (edges : List OrganizeEdge) (e : OrganizeEdge) (opts : OrganizeOptions)
    (hun : e.from_id ∉ items.map (fun it => it.id) ∨
           e.to_id ∉ items.map (fun it => it.id))
    (hne : edges ≠ []) :
    layoutPlaced items (edges ++ [e]) opts = layoutPlaced items edges opts := by
  have heff := effectiveLevels_append_unknown items edges e opts hun hne
  have hgr : layoutGrouped items (edges ++ [e]) opts
      = layoutGrouped items edges opts := by
    unfold layoutGrouped; rw [heff]
  have hol : layoutOrderedLevels items (edges ++ [e]) opts
      = layoutOrderedLevels items edges opts := by
    unfold layoutOrderedLevels; rw [hgr]
  unfold layoutPlaced
  by_cases ho : opts.orientation = "horizontal"
  · rw [if_pos ho, if_pos ho, hgr, hol]
    exact placeHorizontal_append_unknown items edges e (layoutItemMap items)
      (layoutGrouped items edges opts) (layoutOrderedLevels items edges opts)
      hun (fun level it h => layoutGrouped_mem items edges opts level it h)
      opts.horizontal_spacing opts.vertical_spacing (defaultStartX items opts)
  · rw [if_neg ho, if_neg ho]
    simp only [hgr, hol]

/-- C7: with at least one genuine edge present, `compute_organized_layout`
ignores, without raising, an appended edge one of whose endpoint ids is
absent from the item set: the returned position map is unchanged.
(`C7_counterexample` shows the edge-list-nonemptiness hypothesis is needed:
the source counts unknown-endpoint edges in `total_edges`, which can
toggle the grid fallback for disconnected inputs.) -/
theorem C7_unknown_edge_ignored (items : List OrganizeItem)
    (edges : List OrganizeEdge) (opts : OrganizeOptions) (e : OrganizeEdge)
    (hun : e.from_id ∉ items.map (fun it => it.id) ∨
           e.to_id ∉ items.map (fun it => it.id))
    (hne : edges ≠ []) :
    computeOrganizedLayout items (edges ++ [e]) opts
      = computeOrganizedLayout items edges opts := by
  unfold computeOrganizedLayout
  rw [layoutPlaced_append_unknown items edges e opts hun hne]

/-- Witness for `C7_unknown_edge_ignored`: appending the bogus edge
`zzz→qqq` to the one-edge graph `a→b` leaves the layout unchanged. -/
theorem C7_unknown_edge_ignored_witness :
    ((⟨"zzz", "qqq"⟩ : OrganizeEdge).from_id ∉
        ([{ id := "a", width := 250, height := 120, x := 0, y := 0 },
          { id := "b", width := 250, height := 120, x := 10, y := 10 }] :
          List OrganizeItem).map (fun it => it.id) ∨
      (⟨"zzz", "qqq"⟩ : OrganizeEdge).to_id ∉
        ([{ id := "a", width := 250, height := 120, x := 0, y := 0 },
          { id := "b", width := 250, height := 120, x := 10, y := 10 }] :
          List OrganizeItem).map (fun it => it.id)) ∧
    ([(⟨"a", "b"⟩ : OrganizeEdge)] ≠ []) ∧
    computeOrganizedLayout
      [{ id := "a", width := 250, height := 120, x := 0, y := 0 },
       { id := "b", width := 250, height := 120, x := 10, y := 10 }]
      ([⟨"a", "b"⟩] ++ [⟨"zzz", "qqq"⟩]) {}
      = computeOrganizedLayout
      [{ id := "a", width := 250, height := 120, x := 0, y := 0 },
       { id := "b", width := 250, height := 120, x := 10, y := 10 }]
      [⟨"a", "b"⟩] {} :=
  ⟨Or.inl (by decide), by decide,
    C7_unknown_edge_ignored _ _ {} _ (Or.inl (by decide)) (by decide)⟩

-- --- C3: fan-out vertical separation ---

set_option maxRecDepth 400000 in
/-- C3 (counterexample): with a fractional height the claimed pairwise
vertical separation of at least `verticalSpacing` FAILS.  In the fan-out
`root→{a,b,c}` with `height(a) = 241/2`, Python `round` (half-to-even)
rounds `b`'s clamped top `260.5` down to `260`, so the gap between `a`'s
box (bottom `120.5`) and `b`'s box (top `260`) is `139.5 < 140`. -/
theorem C3_counterexample :
    computeOrganizedLayout [fanRoot, fanA (241/2), fanB 120, fanC 120]
        fanEdges {}
      = [("root", ⟨0, 0⟩), ("a", ⟨340, 0⟩), ("b", ⟨340, 260⟩),
         ("c", ⟨340, 520⟩)] ∧
    ¬((260 : ℚ) ≥ 0 + 241/2 + NODE_VERTICAL_SPACING ∨
      (0 : ℚ) ≥ 260 + 120 + NODE_VERTICAL_SPACING) :=
  ⟨by decide, by decide⟩

/-- `pyRound q` is at least any integer below `q`. -/
theorem pyRound_int_le (n : ℤ) (q : ℚ) (h : (n : ℚ) ≤ q) : n ≤ pyRound q := by
  unfold pyRound
  simp only []
  have hf : n ≤ ⌊q⌋ := Int.le_floor.mpr h
  split_ifs <;> omega

/-- After the clamp of lines 274-281, the rounded top stays at least
`previous_bottom + v_spacing` whenever that bound is an integer. -/
theorem pyRound_clamp_ge (vsp : ℚ) (nv : ℤ) (hnv : vsp = (nv : ℚ))
    (d0 b : ℚ) (nb : ℤ) (hnb : b = (nb : ℚ)) :
    b + vsp ≤ ((pyRound (if d0 < b + vsp then b + vsp else d0) : ℤ) : ℚ) := by
  have hge : b + vsp ≤ (if d0 < b + vsp then b + vsp else d0) := by
    split_ifs with hlt
    · exact le_refl _
    · exact le_of_not_lt hlt
  have hcast : ((nb + nv : ℤ) : ℚ) ≤ (if d0 < b + vsp then b + vsp else d0) := by
    push_cast
    rw [← hnb, ← hnv]
    exact hge
  have h2 := pyRound_int_le (nb + nv) _ hcast
  have h3 : ((nb + nv : ℤ) : ℚ)
      ≤ ((pyRound (if d0 < b + vsp then b + vsp else d0) : ℤ) : ℚ) := by
    exact_mod_cast h2
  have h4 : b + vsp = ((nb + nv : ℤ) : ℚ) := by
    rw [hnb, hnv]
    push_cast
    ring
  linarith [h3]

/-- The column-placement fold does not touch keys outside the entry ids. -/
theorem pceFold_preserve (vsp cx : ℚ) :
    ∀ (entries : List ColumnEntry) (st : Dict String LayoutPosition × Option ℚ)
      (k : String), (∀ en ∈ entries, en.item.id ≠ k) →
      dget (entries.foldl
        (fun (st : Dict String LayoutPosition × Option ℚ) entry =>
          let desired0 := entry.target_center - entry.item.height / 2
          let desired_top :=
            match st.2 with
            | none => desired0
            | some pb =>
              if desired0 < pb + vsp then pb + vsp else desired0
          let final_y : ℤ := pyRound desired_top
          (dset st.1 entry.item.id ⟨(pyRound cx : ℤ), (final_y : ℤ)⟩,
           some ((final_y : ℚ) + entry.item.height))) st).1 k = dget st.1 k := by
  intro entries
  induction entries with
  | nil => intro st k _; rfl
  | cons en rest ih =>
    intro st k h
    rw [List.foldl_cons]
    rw [ih _ k (fun x hx => h x (List.mem_cons_of_mem _ hx))]
    simp only []
    exact dget_dset_ne _ _ _ _ (h en (List.mem_cons_self en rest))

/-- In the column-placement fold, every entry gets a position at
`x = round(current_x)` and an integer `y` that is at least the incoming
`previous_bottom + v_spacing` (for integral spacing and heights). -/
theorem pceFold_mem (vsp cx : ℚ) (hvZ : ∃ n : ℤ, vsp = (n : ℚ)) (hv0 : 0 ≤ vsp) :
    ∀ (entries : List ColumnEntry) (st : Dict String LayoutPosition × Option ℚ)
      (u : ColumnEntry), u ∈ entries →
      (∀ en ∈ entries, (∃ n : ℤ, en.item.height = (n : ℚ)) ∧ 0 ≤ en.item.height) →
      (entries.map (fun en => en.item.id)).Nodup →
      (∀ b, st.2 = some b → ∃ n : ℤ, b = (n : ℚ)) →
      ∃ yu : ℤ,
        dget ((entries.foldl
          (fun (st : Dict String LayoutPosition × Option ℚ) entry =>
            let desired0 := entry.target_center - entry.item.height / 2
            let desired_top :=
              match st.2 with
              | none => desired0
              | some pb =>
                if desired0 < pb + vsp then pb + vsp else desired0
            let final_y : ℤ := pyRound desired_top
            (dset st.1 entry.item.id ⟨(pyRound cx : ℤ), (final_y : ℤ)⟩,
             some ((final_y : ℚ) + entry.item.height))) st).1) u.item.id
          = some ⟨((pyRound cx : ℤ) : ℚ), (yu : ℚ)⟩ ∧
        ∀ b, st.2 = some b → b + vsp ≤ (yu : ℚ) := by
  obtain ⟨nv, hnv⟩ := hvZ
  intro entries
  induction entries with
  | nil => intro st u hu; cases hu
  | cons en rest ih =>
    intro st u hu hint hnd hpb
    obtain ⟨⟨nh, hnh⟩, h0h⟩ := hint en (List.mem_cons_self en rest)
    rw [List.foldl_cons]
    simp only []
    have hnd2 := hnd
    rw [List.map_cons, List.nodup_cons] at hnd2
    set yE : ℤ := pyRound (match st.2 with
      | none => en.target_center - en.item.height / 2
      | some pb =>
        if en.target_center - en.item.height / 2 < pb + vsp then pb + vsp
        else en.target_center - en.item.height / 2) with hyE
    have hbound : ∀ b, st.2 = some b → b + vsp ≤ ((yE : ℤ) : ℚ) := by
      intro b hb
      obtain ⟨nb, hnb⟩ := hpb b hb
      rw [hyE, hb]
      exact pyRound_clamp_ge vsp nv hnv _ b nb hnb
    rcases List.mem_cons.1 hu with heq | hu2
    · subst heq
      refine ⟨yE, ?_, ?_⟩
      · rw [pceFold_preserve vsp cx rest _ u.item.id
          (fun x hx hxe => hnd2.1
            (hxe ▸ List.mem_map_of_mem (fun en => en.item.id) hx))]
        exact dget_dset_self _ _ _
      · exact hbound
    · obtain ⟨yu, hyu, hbu⟩ := ih
        (dset st.1 en.item.id ⟨((pyRound cx : ℤ) : ℚ), ((yE : ℤ) : ℚ)⟩,
         some (((yE : ℤ) : ℚ) + en.item.height)) u hu2
        (fun x hx => hint x (List.mem_cons_of_mem _ hx)) hnd2.2
        (fun b hb => ⟨yE + nh, by
          rw [← Option.some.inj hb, hnh]; push_cast; ring⟩)
      refine ⟨yu, hyu, ?_⟩
      intro b hb
      have h1 := hbu (((yE : ℤ) : ℚ) + en.item.height) rfl
      have h2 := hbound b hb
      linarith [h1, h2, h0h, hv0]

/-- Pairwise vertical separation in the column-placement fold: any two
distinct entries end up with boxes separated by at least `v_spacing`
(one way or the other), provided `v_spacing` and all heights are integral
and nonnegative. -/
theorem pceFold_sep (vsp cx : ℚ) (hvZ : ∃ n : ℤ, vsp = (n : ℚ)) (hv0 : 0 ≤ vsp) :
    ∀ (entries : List ColumnEntry) (st : Dict String LayoutPosition × Option ℚ),
      (∀ en ∈ entries, (∃ n : ℤ, en.item.height = (n : ℚ)) ∧ 0 ≤ en.item.height) →
      (entries.map (fun en => en.item.id)).Nodup →
      (∀ b, st.2 = some b → ∃ n : ℤ, b = (n : ℚ)) →
      ∀ u v, u ∈ entries → v ∈ entries → u.item.id ≠ v.item.id →
      ∃ yu yv : ℤ,
        dget ((entries.foldl
          (fun (st : Dict String LayoutPosition × Option ℚ) entry =>
            let desired0 := entry.target_center - entry.item.height / 2
            let desired_top :=
              match st.2 with
              | none => desired0
              | some pb =>
                if desired0 < pb + vsp then pb + vsp else desired0
            let final_y : ℤ := pyRound desired_top
            (dset st.1 entry.item.id ⟨(pyRound cx : ℤ), (final_y : ℤ)⟩,
             some ((final_y : ℚ) + entry.item.height))) st).1) u.item.id
          = some ⟨((pyRound cx : ℤ) : ℚ), (yu : ℚ)⟩ ∧
        dget ((entries.foldl
          (fun (st : Dict String LayoutPosition × Option ℚ) entry =>
            let desired0 := entry.target_center - entry.item.height / 2
            let desired_top :=
              match st.2 with
              | none => desired0
              | some pb =>
                if desired0 < pb + vsp then pb + vsp else desired0
            let final_y : ℤ := pyRound desired_top
            (dset st.1 entry.item.id ⟨(pyRound cx : ℤ), (final_y : ℤ)⟩,
             some ((final_y : ℚ) + entry.item.height))) st).1) v.item.id
          = some ⟨((pyRound cx : ℤ) : ℚ), (yv : ℚ)⟩ ∧
        ((yu : ℚ) + u.item.height + vsp ≤ (yv : ℚ) ∨
         (yv : ℚ) + v.item.height + vsp ≤ (yu : ℚ)) := by
  obtain ⟨nv, hnv⟩ := hvZ
  intro entries
  induction entries with
  | nil => intro st _ _ _ u v hu _ _; cases hu
  | cons en rest ih =>
    intro st hint hnd hpb u v hu hv huv
    obtain ⟨⟨nh, hnh⟩, h0h⟩ := hint en (List.mem_cons_self en rest)
    rw [List.foldl_cons]
    simp only []
    have hnd2 := hnd
    rw [List.map_cons, List.nodup_cons] at hnd2
    set yE : ℤ := pyRound (match st.2 with
      | none => en.target_center - en.item.height / 2
      | some pb =>
        if en.target_center - en.item.height / 2 < pb + vsp then pb + vsp
        else en.target_center - en.item.height / 2) with hyE
    have hpb' : ∀ b, ((dset st.1 en.item.id
          ⟨((pyRound cx : ℤ) : ℚ), ((yE : ℤ) : ℚ)⟩,
        some (((yE : ℤ) : ℚ) + en.item.height)) :
          Dict String LayoutPosition × Option ℚ).2 = some b →
        ∃ n : ℤ, b = (n : ℚ) :=
      fun b hb => ⟨yE + nh, by
        rw [← Option.some.inj hb, hnh]; push_cast; ring⟩
    have hint' := fun x hx => hint x (List.mem_cons_of_mem en hx)
    have hne_head : ∀ x ∈ rest, x.item.id ≠ en.item.id :=
      fun x hx hxe => hnd2.1
        (hxe ▸ List.mem_map_of_mem (fun en => en.item.id) hx)
    rcases List.mem_cons.1 hu with hequ | hu2
    · rcases List.mem_cons.1 hv with heqv | hv2
      · rw [hequ, heqv] at huv
        exact absurd rfl huv
      · -- u is the head, v comes later: v sits at least v_spacing below u
        obtain ⟨yv, hyv, hbv⟩ := pceFold_mem vsp cx ⟨nv, hnv⟩ hv0 rest
          (dset st.1 en.item.id ⟨((pyRound cx : ℤ) : ℚ), ((yE : ℤ) : ℚ)⟩,
           some (((yE : ℤ) : ℚ) + en.item.height)) v hv2 hint' hnd2.2 hpb'
        refine ⟨yE, yv, ?_, hyv, ?_⟩
        · rw [pceFold_preserve vsp cx rest _ u.item.id
            (fun x hx hxe => hne_head x hx (hxe.trans (by rw [hequ])))]
          rw [hequ]
          exact dget_dset_self _ _ _
        · left
          have h1 := hbv (((yE : ℤ) : ℚ) + en.item.height) rfl
          rw [hequ]
          linarith [h1]
    · rcases List.mem_cons.1 hv with heqv | hv2
      · -- v is the head, u comes later
        obtain ⟨yu, hyu, hbu⟩ := pceFold_mem vsp cx ⟨nv, hnv⟩ hv0 rest
          (dset st.1 en.item.id ⟨((pyRound cx : ℤ) : ℚ), ((yE : ℤ) : ℚ)⟩,
           some (((yE : ℤ) : ℚ) + en.item.height)) u hu2 hint' hnd2.2 hpb'
        refine ⟨yu, yE, hyu, ?_, ?_⟩
        · rw [pceFold_preserve vsp cx rest _ v.item.id
            (fun x hx hxe => hne_head x hx (hxe.trans (by rw [heqv])))]
          rw [heqv]
          exact dget_dset_self _ _ _
        · right
          have h1 := hbu (((yE : ℤ) : ℚ) + en.item.height) rfl
          rw [heqv]
          linarith [h1]
      · exact ih
          (dset st.1 en.item.id ⟨((pyRound cx : ℤ) : ℚ), ((yE : ℤ) : ℚ)⟩,
           some (((yE : ℤ) : ℚ) + en.item.height)) hint' hnd2.2 hpb'
          u v hu2 hv2 huv

/-- `placeColumnEntries` does not touch keys outside the entry ids. -/
theorem placeColumnEntries_preserve (vsp cx : ℚ) (entries : List ColumnEntry)
    (ly : Dict String LayoutPosition) (k : String)
    (h : ∀ en ∈ entries, en.item.id ≠ k) :
    dget (placeColumnEntries vsp cx entries ly) k = dget ly k := by
  unfold placeColumnEntries
  exact pceFold_preserve vsp cx entries (ly, none) k h

/-- C3 (amended): in the horizontal column placement (lines 243-292), all
entries of a column share the x coordinate `round(current_x)`, and — the
part the counterexample `C3_counterexample` shows needs the extra
hypotheses — whenever the vertical spacing and every entry height are
integral and nonnegative, any two distinct entries end up with boxes
vertically separated by at least `v_spacing` (one way or the other). -/
theorem C3_column_separation (vsp cx : ℚ)
    (hvZ : ∃ n : ℤ, vsp = (n : ℚ)) (hv0 : 0 ≤ vsp)
    (entries : List ColumnEntry) (ly : Dict String LayoutPosition)
    (hint : ∀ en ∈ entries,
      (∃ n : ℤ, en.item.height = (n : ℚ)) ∧ 0 ≤ en.item.height)
    (hnd : (entries.map (fun en => en.item.id)).Nodup)
    (u v : ColumnEntry) (hu : u ∈ entries) (hv : v ∈ entries)
    (huv : u.item.id ≠ v.item.id) :
    ∃ yu yv : ℤ,
      dget (placeColumnEntries vsp cx entries ly) u.item.id
        = some ⟨((pyRound cx : ℤ) : ℚ), (yu : ℚ)⟩ ∧
      dget (placeColumnEntries vsp cx entries ly) v.item.id
        = some ⟨((pyRound cx : ℤ) : ℚ), (yv : ℚ)⟩ ∧
      ((yu : ℚ) + u.item.height + vsp ≤ (yv : ℚ) ∨
       (yv : ℚ) + v.item.height + vsp ≤ (yu : ℚ)) := by
  unfold placeColumnEntries
  exact pceFold_sep vsp cx hvZ hv0 entries (ly, none) hint hnd
    (fun b hb => Option.noConfusion hb) u v hu hv huv

/-- Witness for `C3_column_separation`: two default-size entries (heights
`120`) in one column at `current_x = 340` with spacing `140`. -/
theorem C3_column_separation_witness :
    (∃ n : ℤ, (140 : ℚ) = (n : ℚ)) ∧ ((0 : ℚ) ≤ 140) ∧
    (∀ en ∈ [(⟨fanA 120, 60, 70⟩ : ColumnEntry), ⟨fanB 120, 60, 260⟩],
      (∃ n : ℤ, en.item.height = (n : ℚ)) ∧ 0 ≤ en.item.height) ∧
    (([(⟨fanA 120, 60, 70⟩ : ColumnEntry), ⟨fanB 120, 60, 260⟩].map
        (fun en => en.item.id)).Nodup) ∧
    ((⟨fanA 120, 60, 70⟩ : ColumnEntry).item.id
      ≠ (⟨fanB 120, 60, 260⟩ : ColumnEntry).item.id) ∧
    (∃ yu yv : ℤ,
      dget (placeColumnEntries 140 340
          [⟨fanA 120, 60, 70⟩, ⟨fanB 120, 60, 260⟩] [])
          (⟨fanA 120, 60, 70⟩ : ColumnEntry).item.id
        = some ⟨((pyRound (340 : ℚ) : ℤ) : ℚ), (yu : ℚ)⟩ ∧
      dget (placeColumnEntries 140 340
          [⟨fanA 120, 60, 70⟩, ⟨fanB 120, 60, 260⟩] [])
          (⟨fanB 120, 60, 260⟩ : ColumnEntry).item.id
        = some ⟨((pyRound (340 : ℚ) : ℤ) : ℚ), (yv : ℚ)⟩ ∧
      ((yu : ℚ) + (⟨fanA 120, 60, 70⟩ : ColumnEntry).item.height + 140 ≤ (yv : ℚ) ∨
       (yv : ℚ) + (⟨fanB 120, 60, 260⟩ : ColumnEntry).item.height + 140 ≤ (yu : ℚ))) := by
  have hint : ∀ en ∈ [(⟨fanA 120, 60, 70⟩ : ColumnEntry), ⟨fanB 120, 60, 260⟩],
      (∃ n : ℤ, en.item.height = (n : ℚ)) ∧ 0 ≤ en.item.height := by
    intro en hen
    rcases List.mem_cons.1 hen with rfl | hen2
    · exact ⟨⟨120, by decide⟩, by decide⟩
    · rcases List.mem_cons.1 hen2 with rfl | hen3
      · exact ⟨⟨120, by decide⟩, by decide⟩
      · cases hen3
  refine ⟨⟨140, by decide⟩, by decide, hint, by decide, by decide, ?_⟩
  exact C3_column_separation 140 340 ⟨140, by decide⟩ (by decide) _ [] hint
    (by decide) _ _ (by decide) (by decide) (by decide)


-- --- C1: counting lemmas for the Kahn invariant ---

theorem countFromP_nil_P (edges : List OrganizeEdge) (v : String) :
    countFromP edges [] v = 0 := by
  unfold countFromP
  simp

theorem countFromP_cons (e : OrganizeEdge) (es : List OrganizeEdge)
    (P : List String) (v : String) :
    countFromP (e :: es) P v
      = (if e.to_id = v ∧ e.from_id ∈ P then 1 else 0) + countFromP es P v := by
  unfold countFromP
  rw [List.filter_cons]
  by_cases h1 : e.to_id = v
  · by_cases h2 : e.from_id ∈ P
    · simp [h1, h2, Nat.add_comm]
    · simp [h1, h2]
  · simp [h1]

theorem inCount_cons (e : OrganizeEdge) (es : List OrganizeEdge) (v : String) :
    inCount (e :: es) v = (if e.to_id = v then 1 else 0) + inCount es v := by
  unfold inCount
  rw [List.filter_cons]
  by_cases h1 : e.to_id = v
  · simp [h1, Nat.add_comm]
  · simp [h1]

theorem outTargets_cons (e : OrganizeEdge) (es : List OrganizeEdge)
    (c : String) :
    outTargets (e :: es) c
      = (if e.from_id = c then [e.to_id] else []) ++ outTargets es c := by
  unfold outTargets
  rw [List.filter_cons]
  by_cases h1 : e.from_id = c
  · simp [h1]
  · simp [h1]

theorem countFromP_le_inCount (edges : List OrganizeEdge) (P : List String)
    (v : String) : countFromP edges P v ≤ inCount edges v := by
  induction edges with
  | nil => simp [countFromP, inCount]
  | cons e es ih =>
    rw [countFromP_cons, inCount_cons]
    by_cases h1 : e.to_id = v
    · by_cases h2 : e.from_id ∈ P
      · simp only [h1, h2, and_self, if_true]
        omega
      · simp only [h1, h2, and_false, if_false, if_true]
        omega
    · simp only [h1, false_and, if_false]
      omega

theorem countFromP_append_one (edges : List OrganizeEdge) (P : List String)
    (c : String) (hc : c ∉ P) (v : String) :
    countFromP edges (P ++ [c]) v
      = countFromP edges P v + (outTargets edges c).count v := by
  induction edges with
  | nil => simp [countFromP, outTargets]
  | cons e es ih =>
    rw [countFromP_cons, countFromP_cons, outTargets_cons, List.count_append]
    by_cases h1 : e.to_id = v
    · by_cases h2 : e.from_id ∈ P
      · have h4 : e.from_id ≠ c := fun hh => hc (hh ▸ h2)
        have hcnt : (if e.from_id = c then [e.to_id] else []).count v = 0 := by
          simp [h4]
        rw [if_pos ⟨h1, List.mem_append.2 (Or.inl h2)⟩, if_pos ⟨h1, h2⟩,
          ih, hcnt]
        omega
      · by_cases h4 : e.from_id = c
        · have hcnt : (if e.from_id = c then [e.to_id] else []).count v = 1 := by
            simp [h4, h1, List.count_cons]
          rw [if_pos ⟨h1, List.mem_append.2 (Or.inr (by simp [h4]))⟩,
            if_neg (fun hh => h2 hh.2), ih, hcnt]
          omega
        · have hcnt : (if e.from_id = c then [e.to_id] else []).count v = 0 := by
            simp [h4]
          have hm : e.from_id ∉ P ++ [c] := by
            simp [List.mem_append, h2, h4]
          rw [if_neg (fun hh => hm hh.2), if_neg (fun hh => h2 hh.2),
            ih, hcnt]
          omega
    · have hcnt : (if e.from_id = c then [e.to_id] else []).count v = 0 := by
        by_cases h4 : e.from_id = c
        · simp [h4, List.count_cons, h1]
        · simp [h4]
      rw [if_neg (fun hh => h1 hh.1), if_neg (fun hh => h1 hh.1), ih, hcnt]
      omega

theorem countFromP_eq_inCount_sources (edges : List OrganizeEdge)
    (P : List String) (v : String)
    (h : countFromP edges P v = inCount edges v) :
    ∀ e ∈ edges, e.to_id = v → e.from_id ∈ P := by
  induction edges with
  | nil => intro e he; cases he
  | cons f es ih =>
    intro e he hev
    rw [countFromP_cons, inCount_cons] at h
    have hle := countFromP_le_inCount es P v
    rcases List.mem_cons.1 he with rfl | he2
    · by_cases h2 : e.from_id ∈ P
      · exact h2
      · exfalso
        simp only [hev, h2, and_false, if_false, if_true, true_and] at h
        omega
    · by_cases h1 : f.to_id = v
      · by_cases h2 : f.from_id ∈ P
        · simp only [h1, h2, and_self, if_true] at h
          exact ih (by omega) e he2 hev
        · exfalso
          simp only [h1, h2, and_false, if_false, if_true] at h
          omega
      · simp only [h1, false_and, if_false] at h
        exact ih (by omega) e he2 hev

theorem countFromP_of_sources (edges : List OrganizeEdge) (P : List String)
    (v : String) (h : ∀ e ∈ edges, e.to_id = v → e.from_id ∈ P) :
    countFromP edges P v = inCount edges v := by
  induction edges with
  | nil => simp [countFromP, inCount]
  | cons f es ih =>
    have ih2 := ih (fun e he hev => h e (List.mem_cons_of_mem f he) hev)
    rw [countFromP_cons, inCount_cons]
    by_cases h1 : f.to_id = v
    · have h2 : f.from_id ∈ P := h f (List.mem_cons_self f es) h1
      simp only [h1, h2, and_self, if_true]
      omega
    · simp only [h1, false_and, if_false]
      omega

theorem mem_outTargets_of_edge (edges : List OrganizeEdge) (e : OrganizeEdge)
    (he : e ∈ edges) : e.to_id ∈ outTargets edges e.from_id := by
  unfold outTargets
  exact List.mem_map.2 ⟨e, List.mem_filter.2 ⟨he, by simp⟩, rfl⟩

theorem edge_of_mem_outTargets (edges : List OrganizeEdge) (c v : String)
    (h : v ∈ outTargets edges c) :
    ∃ e ∈ edges, e.from_id = c ∧ e.to_id = v := by
  unfold outTargets at h
  obtain ⟨e, he, hev⟩ := List.mem_map.1 h
  obtain ⟨he2, hef⟩ := List.mem_filter.1 he
  exact ⟨e, he2, by simpa using hef, hev⟩

/-- Looking a key up in an initial fold of constant `dset`s. -/
theorem dget_const_fold {β : Type} (v0 : β) :
    ∀ (l : List OrganizeItem) (d0 : Dict String β) (c : String),
      dget (l.foldl (fun d it => dset d it.id v0) d0) c
        = if c ∈ l.map (fun it => it.id) then some v0 else dget d0 c := by
  intro l
  induction l with
  | nil => intro d0 c; simp
  | cons it l ih =>
    intro d0 c
    rw [List.foldl_cons, ih]
    by_cases hm : c ∈ l.map (fun it => it.id)
    · simp [hm]
    · rw [if_neg hm, dget_dset]
      by_cases he : it.id = c
      · simp [he]
      · have : c ∉ (it :: l).map (fun it => it.id) := by
          simp only [List.map_cons, List.mem_cons]
          rintro (h | h)
          · exact he h.symm
          · exact hm h
        rw [if_neg he, if_neg this]

/-- The edge fold of `buildGraph`, specified against `outTargets` and
`inCount`, for any start state whose two maps have exactly the item ids as
keys. -/
theorem bgFold_spec (ids : List String) :
    ∀ (es : List OrganizeEdge) (A : String → List String) (D : String → ℤ)
      (ad : Dict String (List String) × Dict String ℤ),
      (∀ e ∈ es, e.from_id ∈ ids ∧ e.to_id ∈ ids) →
      (∀ c, dget ad.1 c = if c ∈ ids then some (A c) else none) →
      (∀ v, dget ad.2 v = if v ∈ ids then some (D v) else none) →
      (∀ c, dget ((es.foldl
        (fun ad e =>
          if dmem ad.1 e.from_id && dmem ad.2 e.to_id then
            (dset ad.1 e.from_id ((dget ad.1 e.from_id).getD [] ++ [e.to_id]),
             dset ad.2 e.to_id ((dget ad.2 e.to_id).getD 0 + 1))
          else ad) ad).1) c
        = if c ∈ ids then some (A c ++ outTargets es c) else none) ∧
      (∀ v, dget ((es.foldl
        (fun ad e =>
          if dmem ad.1 e.from_id && dmem ad.2 e.to_id then
            (dset ad.1 e.from_id ((dget ad.1 e.from_id).getD [] ++ [e.to_id]),
             dset ad.2 e.to_id ((dget ad.2 e.to_id).getD 0 + 1))
          else ad) ad).2) v
        = if v ∈ ids then some (D v + (inCount es v : ℤ)) else none) := by
  intro es
  induction es with
  | nil =>
    intro A D ad _ h1 h2
    constructor
    · intro c
      rw [List.foldl_nil, h1 c]
      by_cases hm : c ∈ ids <;> simp [hm, outTargets]
    · intro v
      rw [List.foldl_nil, h2 v]
      by_cases hm : v ∈ ids <;> simp [hm, inCount]
  | cons e es ih =>
    intro A D ad hval h1 h2
    obtain ⟨hef, het⟩ := hval e (List.mem_cons_self e es)
    have hdm1 : dmem ad.1 e.from_id = true := by
      unfold dmem
      rw [h1 e.from_id, if_pos hef]
      rfl
    have hdm2 : dmem ad.2 e.to_id = true := by
      unfold dmem
      rw [h2 e.to_id, if_pos het]
      rfl
    rw [List.foldl_cons]
    have hcond : (dmem ad.1 e.from_id && dmem ad.2 e.to_id) = true := by
      rw [hdm1, hdm2]; rfl
    rw [if_pos hcond]
    have hstep1 : ∀ c, dget (dset ad.1 e.from_id
        ((dget ad.1 e.from_id).getD [] ++ [e.to_id])) c
        = if c ∈ ids then
            some ((fun c => if e.from_id = c then A c ++ [e.to_id] else A c) c)
          else none := by
      intro c
      rw [dget_dset]
      by_cases he : e.from_id = c
      · subst he
        rw [if_pos rfl, if_pos hef, h1 e.from_id, if_pos hef]
        simp
      · rw [if_neg he, h1 c]
        by_cases hm : c ∈ ids
        · rw [if_pos hm, if_pos hm]
          simp [he]
        · rw [if_neg hm, if_neg hm]
    have hstep2 : ∀ v, dget (dset ad.2 e.to_id
        ((dget ad.2 e.to_id).getD 0 + 1)) v
        = if v ∈ ids then
            some ((fun v => if e.to_id = v then D v + 1 else D v) v)
          else none := by
      intro v
      rw [dget_dset]
      by_cases he : e.to_id = v
      · subst he
        rw [if_pos rfl, if_pos het, h2 e.to_id, if_pos het]
        simp
      · rw [if_neg he, h2 v]
        by_cases hm : v ∈ ids
        · rw [if_pos hm, if_pos hm]
          simp [he]
        · rw [if_neg hm, if_neg hm]
    obtain ⟨ih1, ih2⟩ := ih
      (fun c => if e.from_id = c then A c ++ [e.to_id] else A c)
      (fun v => if e.to_id = v then D v + 1 else D v)
      (dset ad.1 e.from_id ((dget ad.1 e.from_id).getD [] ++ [e.to_id]),
       dset ad.2 e.to_id ((dget ad.2 e.to_id).getD 0 + 1))
      (fun e2 he2 => hval e2 (List.mem_cons_of_mem e he2))
      hstep1 hstep2
    constructor
    · intro c
      rw [ih1 c]
      by_cases hm : c ∈ ids
      · rw [if_pos hm, if_pos hm, outTargets_cons]
        by_cases he : e.from_id = c
        · simp [he]
        · simp [he]
      · rw [if_neg hm, if_neg hm]
    · intro v
      rw [ih2 v]
      by_cases hm : v ∈ ids
      · rw [if_pos hm, if_pos hm, inCount_cons]
        by_cases he : e.to_id = v
        · simp only [he, if_true, if_pos rfl]
          push_cast
          ring_nf
        · simp [he]
      · rw [if_neg hm, if_neg hm]

/-- `buildGraph` under valid endpoints: the adjacency map holds exactly
`outTargets` and the indegree map exactly `inCount`, on exactly the item
ids. -/
theorem buildGraph_spec (items : List OrganizeItem)
    (edges : List OrganizeEdge)
    (hval : ∀ e ∈ edges, e.from_id ∈ items.map (fun it => it.id) ∧
      e.to_id ∈ items.map (fun it => it.id)) :
    (∀ c, dget (buildGraph items edges).1 c
      = if c ∈ items.map (fun it => it.id) then some (outTargets edges c)
        else none) ∧
    (∀ v, dget (buildGraph items edges).2 v
      = if v ∈ items.map (fun it => it.id) then some ((inCount edges v : ℤ))
        else none) := by
  unfold buildGraph
  simp only []
  obtain ⟨h1, h2⟩ := bgFold_spec (items.map (fun it => it.id)) edges
    (fun _ => []) (fun _ => 0)
    (items.foldl (fun d it => dset d it.id ([] : List String)) [],
     items.foldl (fun d it => dset d it.id (0 : ℤ)) [])
    hval
    (fun c => by rw [dget_const_fold]; by_cases hm : c ∈ items.map (fun it => it.id) <;> simp [hm, dget])
    (fun v => by rw [dget_const_fold]; by_cases hm : v ∈ items.map (fun it => it.id) <;> simp [hm, dget])
  constructor
  · intro c
    rw [h1 c]
    by_cases hm : c ∈ items.map (fun it => it.id) <;> simp [hm]
  · intro v
    rw [h2 v]
    by_cases hm : v ∈ items.map (fun it => it.id) <;> simp [hm]

theorem inCount_pos (edges : List OrganizeEdge) (e : OrganizeEdge)
    (he : e ∈ edges) : 0 < inCount edges e.to_id := by
  unfold inCount
  have : e ∈ edges.filter (fun e2 => e2.to_id = e.to_id) :=
    List.mem_filter.2 ⟨he, by simp⟩
  exact List.length_pos.2 (List.ne_nil_of_mem this)

/-- The seed fold of lines 141-146, specified: it puts exactly the
indegree-zero ids (in item order) into the queue, each at level `0`. -/
theorem seedFold_spec (ids : List String) (edges : List OrganizeEdge)
    (indeg : Dict String ℤ)
    (hdeg : ∀ v, dget indeg v
      = if v ∈ ids then some ((inCount edges v : ℤ)) else none) :
    ∀ (S : List OrganizeItem) (lq : Dict String ℤ × List String),
      (∀ it ∈ S, it.id ∈ ids) →
      ((S.map (fun it => it.id)).Nodup) →
      (∀ k ∈ lq.2, k ∉ S.map (fun it => it.id)) →
      lq.2.Nodup →
      (∀ k ∈ lq.2, k ∈ ids ∧ inCount edges k = 0) →
      (∀ k, dget lq.1 k = if k ∈ lq.2 then some 0 else none) →
      (S.foldl (fun lq it =>
        if (dget indeg it.id).getD 0 = 0 then
          (dset lq.1 it.id 0, lq.2 ++ [it.id])
        else lq) lq).2.Nodup ∧
      (∀ k ∈ (S.foldl (fun lq it =>
        if (dget indeg it.id).getD 0 = 0 then
          (dset lq.1 it.id 0, lq.2 ++ [it.id])
        else lq) lq).2, k ∈ ids ∧ inCount edges k = 0) ∧
      (∀ k, dget (S.foldl (fun lq it =>
        if (dget indeg it.id).getD 0 = 0 then
          (dset lq.1 it.id 0, lq.2 ++ [it.id])
        else lq) lq).1 k
        = if k ∈ (S.foldl (fun lq it =>
            if (dget indeg it.id).getD 0 = 0 then
              (dset lq.1 it.id 0, lq.2 ++ [it.id])
            else lq) lq).2 then some 0 else none) ∧
      (∀ it ∈ S, inCount edges it.id = 0 → it.id ∈ (S.foldl (fun lq it =>
        if (dget indeg it.id).getD 0 = 0 then
          (dset lq.1 it.id 0, lq.2 ++ [it.id])
        else lq) lq).2) ∧
      (∀ k ∈ lq.2, k ∈ (S.foldl (fun lq it =>
        if (dget indeg it.id).getD 0 = 0 then
          (dset lq.1 it.id 0, lq.2 ++ [it.id])
        else lq) lq).2) := by
  intro S
  induction S with
  | nil =>
    intro lq _ _ _ h4 h5 h6
    refine ⟨h4, h5, h6, ?_, ?_⟩
    · intro it hit; cases hit
    · intro k hk; exact hk
  | cons it S ih =>
    intro lq hsub hnod hdisj hqnod hqmem hget
    have hid : it.id ∈ ids := hsub it (List.mem_cons_self it S)
    have hnod2 := hnod
    rw [List.map_cons, List.nodup_cons] at hnod2
    rw [List.foldl_cons]
    have hcond : ((dget indeg it.id).getD 0 = 0) ↔ inCount edges it.id = 0 := by
      rw [hdeg it.id, if_pos hid]
      simp
    by_cases hz : (dget indeg it.id).getD 0 = 0
    · rw [if_pos hz]
      have hzc : inCount edges it.id = 0 := hcond.1 hz
      have hnotin : it.id ∉ lq.2 :=
        fun hin => (hdisj it.id hin) (by
          rw [List.map_cons]
          exact List.mem_cons_self it.id (S.map (fun it => it.id)))
      obtain ⟨c1, c2, c3, c4, c5⟩ := ih
        (dset lq.1 it.id 0, lq.2 ++ [it.id])
        (fun x hx => hsub x (List.mem_cons_of_mem it hx))
        hnod2.2
        (by
          intro k hk
          rcases List.mem_append.1 hk with hk2 | hk2
          · intro hmem
            exact (hdisj k hk2) (by
              rw [List.map_cons]
              exact List.mem_cons_of_mem it.id hmem)
          · simp only [List.mem_singleton] at hk2
            subst hk2
            exact hnod2.1)
        (by
          rw [List.nodup_append]
          exact ⟨hqnod, List.nodup_singleton it.id,
            fun a ha hb => by
              simp only [List.mem_singleton] at hb
              exact hnotin (hb ▸ ha)⟩)
        (by
          intro k hk
          rcases List.mem_append.1 hk with hk2 | hk2
          · exact hqmem k hk2
          · simp only [List.mem_singleton] at hk2
            subst hk2
            exact ⟨hid, hzc⟩)
        (by
          intro k
          rw [dget_dset]
          by_cases he : it.id = k
          · subst he
            rw [if_pos rfl, if_pos (List.mem_append.2 (Or.inr
              (List.mem_singleton.2 rfl)))]
          · rw [if_neg he, hget k]
            by_cases hm : k ∈ lq.2
            · rw [if_pos hm, if_pos (List.mem_append.2 (Or.inl hm))]
            · have hnm : k ∉ lq.2 ++ [it.id] := by
                intro hk2
                rcases List.mem_append.1 hk2 with h | h
                · exact hm h
                · simp only [List.mem_singleton] at h
                  exact he h.symm
              rw [if_neg hm, if_neg hnm])
      refine ⟨c1, c2, c3, ?_, ?_⟩
      · intro x hx hxz
        rcases List.mem_cons.1 hx with rfl | hx2
        · exact c5 x.id (List.mem_append.2 (Or.inr (List.mem_singleton.2 rfl)))
        · exact c4 x hx2 hxz
      · intro k hk
        exact c5 k (List.mem_append.2 (Or.inl hk))
    · rw [if_neg hz]
      obtain ⟨c1, c2, c3, c4, c5⟩ := ih lq
        (fun x hx => hsub x (List.mem_cons_of_mem it hx))
        hnod2.2
        (fun k hk hmem => (hdisj k hk) (by
          rw [List.map_cons]
          exact List.mem_cons_of_mem it.id hmem))
        hqnod hqmem hget
      refine ⟨c1, c2, c3, ?_, c5⟩
      intro x hx hxz
      rcases List.mem_cons.1 hx with rfl | hx2
      · exact absurd (hcond.2 hxz) hz
      · exact c4 x hx2 hxz

/-- The Kahn invariant holds right after seeding (lines 137-146): nothing
processed, the queue holding exactly the indegree-zero ids. -/
theorem kahnInv_init (items : List OrganizeItem) (edges : List OrganizeEdge)
    (hids : (items.map (fun it => it.id)).Nodup)
    (hval : ∀ e ∈ edges, e.from_id ∈ items.map (fun it => it.id) ∧
      e.to_id ∈ items.map (fun it => it.id)) :
    KahnInv edges (items.map (fun it => it.id)) []
      (seedQueue items (buildGraph items edges).2).2
      (seedQueue items (buildGraph items edges).2).1
      (buildGraph items edges).2 := by
  have hdeg := (buildGraph_spec items edges hval).2
  have hSnod : ((pySorted itemLeXY items).map (fun it => it.id)).Nodup :=
    (((pySorted_perm itemLeXY items).map (fun it => it.id)).nodup_iff).2 hids
  obtain ⟨c1, c2, c3, c4, c5⟩ := seedFold_spec
    (items.map (fun it => it.id)) edges (buildGraph items edges).2 hdeg
    (pySorted itemLeXY items) ([], [])
    (fun it hit => List.mem_map_of_mem (fun it => it.id)
      ((mem_pySorted itemLeXY items it).1 hit))
    hSnod
    (fun k hk => absurd hk (List.not_mem_nil k))
    List.nodup_nil
    (fun k hk => absurd hk (List.not_mem_nil k))
    (fun k => by simp [dget])
  have c1' : (seedQueue items (buildGraph items edges).2).2.Nodup := c1
  have c2' : ∀ k ∈ (seedQueue items (buildGraph items edges).2).2,
      k ∈ items.map (fun it => it.id) ∧ inCount edges k = 0 := c2
  have c3' : ∀ k, dget (seedQueue items (buildGraph items edges).2).1 k
      = if k ∈ (seedQueue items (buildGraph items edges).2).2 then some 0
        else none := c3
  have c4' : ∀ it ∈ pySorted itemLeXY items, inCount edges it.id = 0 →
      it.id ∈ (seedQueue items (buildGraph items edges).2).2 := c4
  refine ⟨List.nodup_nil, fun v hv => absurd hv (List.not_mem_nil v),
    c1', fun v hv => (c2' v hv).1, fun v _ => List.not_mem_nil v,
    ?_, ?_, ?_, ?_, ?_, ?_⟩
  · -- deg
    intro v hv
    rw [hdeg v, if_pos hv, countFromP_nil_P]
    simp
  · -- complete
    intro v hv hcnt
    rw [countFromP_nil_P] at hcnt
    obtain ⟨it, hit, hitv⟩ := List.mem_map.1 hv
    right
    have : it ∈ pySorted itemLeXY items := (mem_pySorted itemLeXY items it).2 hit
    exact hitv ▸ c4' it this (by rw [hitv, ← hcnt])
  · -- lvl_some
    intro v hv
    rcases hv with hv | hv
    · exact absurd hv (List.not_mem_nil v)
    · rw [c3' v, if_pos hv]
      rfl
  · -- edge_ok
    intro e _ hef
    exact absurd hef (List.not_mem_nil e.from_id)
  · -- to_in
    intro e he hto
    rcases hto with hto | hto
    · exact absurd hto (List.not_mem_nil e.to_id)
    · exfalso
      have h0 := (c2' e.to_id hto).2
      have h1 := inCount_pos edges e he
      omega
  · -- q_deg
    intro v hv
    rw [countFromP_nil_P, (c2' v hv).2]

/-- What one `kahnTarget` step does, component by component: decrement the
target's degree, enqueue it if the degree hit zero, and raise its level to
at least `currentLevel + 1` (never lowering anything). -/
theorem kahnTarget_parts (cl : ℤ)
    (st : Dict String ℤ × Dict String ℤ × List String) (t : String) :
    (kahnTarget cl st t).2.1 = dset st.2.1 t ((dget st.2.1 t).getD 0 - 1) ∧
    (kahnTarget cl st t).2.2
      = (if (dget st.2.1 t).getD 0 - 1 = 0 then st.2.2 ++ [t] else st.2.2) ∧
    (∀ v, v ≠ t → dget (kahnTarget cl st t).1 v = dget st.1 v) ∧
    (∃ l, dget (kahnTarget cl st t).1 t = some l ∧ cl + 1 ≤ l ∧
      (∀ ex, dget st.1 t = some ex → ex ≤ l)) := by
  refine ⟨rfl, rfl, ?_, ?_⟩
  · intro v hv
    unfold kahnTarget
    simp only []
    rcases hLt : dget st.1 t with _ | ex
    · simp only []
      rw [dget_dset_ne _ _ _ _ (fun h => hv h.symm)]
    · simp only []
      by_cases hgt : cl + 1 > ex
      · rw [if_pos hgt, dget_dset_ne _ _ _ _ (fun h => hv h.symm)]
      · rw [if_neg hgt]
  · unfold kahnTarget
    simp only []
    rcases hLt : dget st.1 t with _ | ex
    · simp only []
      refine ⟨cl + 1, dget_dset_self _ _ _, le_refl _, ?_⟩
      intro ex hex
      cases hex
    · simp only []
      by_cases hgt : cl + 1 > ex
      · rw [if_pos hgt]
        refine ⟨cl + 1, dget_dset_self _ _ _, le_refl _, ?_⟩
        intro ex2 hex2
        have := Option.some.inj hex2
        omega
      · rw [if_neg hgt]
        refine ⟨ex, hLt, by omega, ?_⟩
        intro ex2 hex2
        have := Option.some.inj hex2
        omega

/-- The invariant carried through processing the targets of `current`
(lines 151-159), phrased over an arbitrary split `done ++ todo` of the
adjacency list of `current`. -/
theorem kahnTargetFold_inv (edges : List OrganizeEdge) (ids : List String)
    (P : List String) (current : String) (cl : ℤ) (L0 : Dict String ℤ)
    (hval : ∀ e ∈ edges, e.from_id ∈ ids ∧ e.to_id ∈ ids)
    (hPn : current ∉ P)
    (htoP : ∀ v ∈ outTargets edges current, v ∉ P)
    (htcur : current ∉ outTargets edges current) :
    ∀ (todo done : List String) (Lm Dm : Dict String ℤ) (qm : List String),
      outTargets edges current = done ++ todo →
      (∀ v, v ∉ done → dget Lm v = dget L0 v) →
      (∀ v ∈ done, ∃ l, dget Lm v = some l ∧ cl + 1 ≤ l) →
      (∀ v l, dget L0 v = some l → ∃ l2, dget Lm v = some l2 ∧ l ≤ l2) →
      (∀ v ∈ ids, dget Dm v = some ((inCount edges v : ℤ)
        - (countFromP edges P v : ℤ) - (done.count v : ℤ))) →
      qm.Nodup →
      (∀ v ∈ qm, v ∈ ids) →
      (∀ v ∈ qm, v ∉ P ++ [current]) →
      (∀ v ∈ qm, countFromP edges P v + done.count v = inCount edges v
        ∧ v ∉ todo) →
      (∀ v ∈ qm, (dget Lm v).isSome) →
      (∀ v ∈ ids, countFromP edges P v + done.count v = inCount edges v →
        v ∈ P ++ [current] ∨ v ∈ qm) →
      (∀ v, v ∉ done ++ todo →
        dget (todo.foldl (kahnTarget cl) (Lm, Dm, qm)).1 v = dget L0 v) ∧
      (∀ v ∈ done ++ todo, ∃ l,
        dget (todo.foldl (kahnTarget cl) (Lm, Dm, qm)).1 v = some l
          ∧ cl + 1 ≤ l) ∧
      (∀ v l, dget L0 v = some l → ∃ l2,
        dget (todo.foldl (kahnTarget cl) (Lm, Dm, qm)).1 v = some l2
          ∧ l ≤ l2) ∧
      (∀ v ∈ ids, dget (todo.foldl (kahnTarget cl) (Lm, Dm, qm)).2.1 v
        = some ((inCount edges v : ℤ) - (countFromP edges P v : ℤ)
          - ((done ++ todo).count v : ℤ))) ∧
      (todo.foldl (kahnTarget cl) (Lm, Dm, qm)).2.2.Nodup ∧
      (∀ v ∈ (todo.foldl (kahnTarget cl) (Lm, Dm, qm)).2.2, v ∈ ids) ∧
      (∀ v ∈ (todo.foldl (kahnTarget cl) (Lm, Dm, qm)).2.2,
        v ∉ P ++ [current]) ∧
      (∀ v ∈ (todo.foldl (kahnTarget cl) (Lm, Dm, qm)).2.2,
        countFromP edges P v + (done ++ todo).count v = inCount edges v) ∧
      (∀ v ∈ (todo.foldl (kahnTarget cl) (Lm, Dm, qm)).2.2,
        (dget (todo.foldl (kahnTarget cl) (Lm, Dm, qm)).1 v).isSome) ∧
      (∀ v ∈ ids,
        countFromP edges P v + (done ++ todo).count v = inCount edges v →
        v ∈ P ++ [current] ∨ v ∈ (todo.foldl (kahnTarget cl) (Lm, Dm, qm)).2.2) := by
  intro todo
  induction todo with
  | nil =>
    intro done Lm Dm qm hts hA hB hH hD hE1 hE2 hE3 hE4 hE5 hF
    rw [List.append_nil] at *
    exact ⟨hA, hB, hH, hD, hE1, hE2, hE3, fun v hv => (hE4 v hv).1, hE5, hF⟩
  | cons t todo ih =>
    intro done Lm Dm qm hts hA hB hH hD hE1 hE2 hE3 hE4 hE5 hF
    have htmem : t ∈ outTargets edges current := by
      rw [hts]
      exact List.mem_append.2 (Or.inr (List.mem_cons_self t todo))
    have htids : t ∈ ids := by
      obtain ⟨e, he, hef, het⟩ := edge_of_mem_outTargets edges current t htmem
      exact het ▸ (hval e he).2
    have htnP : t ∉ P := htoP t htmem
    have htnc : t ≠ current := fun h => htcur (h ▸ htmem)
    have hDt := hD t htids
    obtain ⟨hp1, hp2, hp3, ⟨lt0, hlt0, hlt0ge, hlt0mono⟩⟩ :=
      kahnTarget_parts cl (Lm, Dm, qm) t
    -- t is not already enqueued
    have htq : t ∉ qm := fun hin =>
      (hE4 t hin).2 (List.mem_cons_self t todo)
    have hcount_ne : ∀ v, v ≠ t → (done ++ [t]).count v = done.count v := by
      intro v hv
      rw [List.count_append]
      simp [List.count_singleton, hv, Ne.symm hv]
    have hcount_t : (done ++ [t]).count t = done.count t + 1 := by
      rw [List.count_append]
      simp
    -- the new degree of t
    have hdeg_new : (dget Dm t).getD 0 - 1
        = (inCount edges t : ℤ) - (countFromP edges P t : ℤ)
          - ((done ++ [t]).count t : ℤ) := by
      rw [hDt, Option.getD_some, hcount_t]
      push_cast
      ring
    rw [List.foldl_cons]
    have hassoc : outTargets edges current = (done ++ [t]) ++ todo := by
      rw [hts, List.append_assoc]
      rfl
    obtain ⟨c1, c2, c3, c4, c5, c6, c7, c8, c9, c10⟩ := ih (done ++ [t])
      (kahnTarget cl (Lm, Dm, qm) t).1
      (kahnTarget cl (Lm, Dm, qm) t).2.1
      (kahnTarget cl (Lm, Dm, qm) t).2.2
      hassoc
      (by
        intro v hv
        have hvd : v ∉ done := fun h => hv (List.mem_append.2 (Or.inl h))
        have hvt : v ≠ t := fun h => hv (List.mem_append.2 (Or.inr
          (by simp [h])))
        rw [hp3 v hvt]
        exact hA v hvd)
      (by
        intro v hv
        rcases List.mem_append.1 hv with hv2 | hv2
        · by_cases hvt : v = t
          · subst hvt
            exact ⟨lt0, hlt0, hlt0ge⟩
          · obtain ⟨l, hl, hlge⟩ := hB v hv2
            exact ⟨l, by rw [hp3 v hvt]; exact hl, hlge⟩
        · simp only [List.mem_singleton] at hv2
          subst hv2
          exact ⟨lt0, hlt0, hlt0ge⟩)
      (by
        intro v l hl
        obtain ⟨l2, hl2, hle2⟩ := hH v l hl
        by_cases hvt : v = t
        · subst hvt
          refine ⟨lt0, hlt0, ?_⟩
          have := hlt0mono l2 hl2
          omega
        · exact ⟨l2, by rw [hp3 v hvt]; exact hl2, hle2⟩)
      (by
        intro v hv
        rw [hp1, dget_dset]
        by_cases hvt : t = v
        · subst hvt
          rw [if_pos rfl, hdeg_new]
        · rw [if_neg hvt, hD v hv, hcount_ne v (fun h => hvt h.symm)])
      (by
        rw [hp2]
        by_cases hz : (dget Dm t).getD 0 - 1 = 0
        · rw [if_pos hz]
          rw [List.nodup_append]
          exact ⟨hE1, List.nodup_singleton t, fun a ha hb => by
            simp only [List.mem_singleton] at hb
            exact htq (hb ▸ ha)⟩
        · rw [if_neg hz]
          exact hE1)
      (by
        rw [hp2]
        by_cases hz : (dget Dm t).getD 0 - 1 = 0
        · rw [if_pos hz]
          intro v hv
          rcases List.mem_append.1 hv with hv2 | hv2
          · exact hE2 v hv2
          · simp only [List.mem_singleton] at hv2
            exact hv2 ▸ htids
        · rw [if_neg hz]
          exact hE2)
      (by
        rw [hp2]
        by_cases hz : (dget Dm t).getD 0 - 1 = 0
        · rw [if_pos hz]
          intro v hv
          rcases List.mem_append.1 hv with hv2 | hv2
          · exact hE3 v hv2
          · simp only [List.mem_singleton] at hv2
            subst hv2
            intro hmem
            rcases List.mem_append.1 hmem with h | h
            · exact htnP h
            · simp only [List.mem_singleton] at h
              exact htnc h
        · rw [if_neg hz]
          exact hE3)
      (by
        rw [hp2]
        by_cases hz : (dget Dm t).getD 0 - 1 = 0
        · rw [if_pos hz]
          intro v hv
          rcases List.mem_append.1 hv with hv2 | hv2
          · have h4 := hE4 v hv2
            have hvt : v ≠ t := fun h => htq (h ▸ hv2)
            refine ⟨by rw [hcount_ne v hvt]; exact h4.1,
              fun h => h4.2 (List.mem_cons_of_mem t h)⟩
          · simp only [List.mem_singleton] at hv2
            subst hv2
            rw [hdeg_new] at hz
            have hle0 := countFromP_le_inCount edges P v
            have hle := countFromP_le_inCount edges (P ++ [current]) v
            rw [countFromP_append_one edges P current hPn v, hts,
              List.count_append, List.count_cons] at hle
            simp at hle
            rw [hcount_t] at hz
            constructor
            · rw [hcount_t]
              omega
            · have h0 : todo.count v = 0 := by omega
              exact List.count_eq_zero.1 h0
        · rw [if_neg hz]
          intro v hv
          have h4 := hE4 v hv
          have hvt : v ≠ t := fun h => htq (h ▸ hv)
          refine ⟨by rw [hcount_ne v hvt]; exact h4.1,
            fun h => h4.2 (List.mem_cons_of_mem t h)⟩)
      (by
        rw [hp2]
        by_cases hz : (dget Dm t).getD 0 - 1 = 0
        · rw [if_pos hz]
          intro v hv
          rcases List.mem_append.1 hv with hv2 | hv2
          · have hvt : v ≠ t := fun h => htq (h ▸ hv2)
            rw [hp3 v hvt]
            exact hE5 v hv2
          · simp only [List.mem_singleton] at hv2
            subst hv2
            rw [hlt0]
            rfl
        · rw [if_neg hz]
          intro v hv
          have hvt : v ≠ t := fun h => htq (h ▸ hv)
          rw [hp3 v hvt]
          exact hE5 v hv)
      (by
        intro v hv hcnt
        by_cases hvt : v = t
        · subst hvt
          rw [hcount_t] at hcnt
          right
          rw [hp2]
          have hz : (dget Dm v).getD 0 - 1 = 0 := by
            rw [hdeg_new, hcount_t]
            push_cast
            omega
          rw [if_pos hz]
          exact List.mem_append.2 (Or.inr (List.mem_singleton.2 rfl))
        · rw [hcount_ne v hvt] at hcnt
          rcases hF v hv hcnt with h | h
          · exact Or.inl h
          · right
            rw [hp2]
            by_cases hz : (dget Dm t).getD 0 - 1 = 0
            · rw [if_pos hz]
              exact List.mem_append.2 (Or.inl h)
            · rw [if_neg hz]
              exact h)
    have hsplit : done ++ t :: todo = (done ++ [t]) ++ todo :=
      (List.append_cons done t todo).symm.symm ▸ rfl
    refine ⟨?_, ?_, c3, ?_, c5, c6, c7, ?_, c9, ?_⟩
    · intro v hv
      rw [hsplit] at hv
      exact c1 v hv
    · intro v hv
      rw [hsplit] at hv
      exact c2 v hv
    · intro v hv
      rw [c4 v hv, hsplit]
    · intro v hv
      rw [hsplit]
      exact c8 v hv
    · intro v hv hcnt
      rw [hsplit] at hcnt
      exact c10 v hv hcnt

/-- One iteration of the Kahn loop preserves the invariant, moving the
dequeued id into the processed set. -/
theorem kahnInv_step (edges : List OrganizeEdge) (ids : List String)
    (hval : ∀ e ∈ edges, e.from_id ∈ ids ∧ e.to_id ∈ ids)
    (P : List String) (current : String) (rest : List String)
    (L D : Dict String ℤ)
    (inv : KahnInv edges ids P (current :: rest) L D) :
    KahnInv edges ids (P ++ [current])
      ((outTargets edges current).foldl
        (kahnTarget ((dget L current).getD 0)) (L, D, rest)).2.2
      ((outTargets edges current).foldl
        (kahnTarget ((dget L current).getD 0)) (L, D, rest)).1
      ((outTargets edges current).foldl
        (kahnTarget ((dget L current).getD 0)) (L, D, rest)).2.1 := by
  have hcur_q : current ∈ current :: rest := List.mem_cons_self current rest
  have hPn : current ∉ P := inv.pq_disj current hcur_q
  have hcur_ids : current ∈ ids := inv.q_sub current hcur_q
  have htoP : ∀ v ∈ outTargets edges current, v ∉ P := by
    intro v hv hvP
    obtain ⟨e, he, hef, het⟩ := edge_of_mem_outTargets edges current v hv
    have h1 : e.to_id ∈ P := het.symm ▸ hvP
    exact hPn (hef ▸ inv.to_in e he (Or.inl h1))
  have htcur : current ∉ outTargets edges current := by
    intro hv
    obtain ⟨e, he, hef, het⟩ := edge_of_mem_outTargets edges current current hv
    have h1 : e.to_id ∈ current :: rest := het.symm ▸ hcur_q
    exact hPn (hef ▸ inv.to_in e he (Or.inr h1))
  have hqnodup := List.nodup_cons.1 inv.q_nodup
  obtain ⟨c1, c2, c3, c4, c5, c6, c7, c8, c9, c10⟩ :=
    kahnTargetFold_inv edges ids P current ((dget L current).getD 0) L
      hval hPn htoP htcur
      (outTargets edges current) [] L D rest
      (List.nil_append _).symm
      (fun v _ => rfl)
      (fun v hv => absurd hv (List.not_mem_nil v))
      (fun v l hl => ⟨l, hl, le_refl l⟩)
      (by
        intro v hv
        rw [inv.deg v hv]
        simp)
      hqnodup.2
      (fun v hv => inv.q_sub v (List.mem_cons_of_mem current hv))
      (by
        intro v hv hmem
        rcases List.mem_append.1 hmem with h | h
        · exact inv.pq_disj v (List.mem_cons_of_mem current hv) h
        · simp only [List.mem_singleton] at h
          exact hqnodup.1 (h ▸ hv))
      (by
        intro v hv
        refine ⟨by
          rw [inv.q_deg v (List.mem_cons_of_mem current hv)]
          simp, ?_⟩
        intro hmem
        obtain ⟨e, he, hef, het⟩ := edge_of_mem_outTargets edges current v hmem
        have h1 : e.to_id ∈ current :: rest :=
          het.symm ▸ List.mem_cons_of_mem current hv
        exact hPn (hef ▸ inv.to_in e he (Or.inr h1)))
      (fun v hv => inv.lvl_some v (Or.inr (List.mem_cons_of_mem current hv)))
      (by
        intro v hv hcnt
        simp only [List.count_nil] at hcnt
        rcases inv.complete v hv (by omega) with h | h
        · exact Or.inl (List.mem_append.2 (Or.inl h))
        · rcases List.mem_cons.1 h with h2 | h2
          · exact Or.inl (List.mem_append.2 (Or.inr (by simp [h2])))
          · exact Or.inr h2)
  have hcnt1 : ∀ v, countFromP edges (P ++ [current]) v
      = countFromP edges P v + (outTargets edges current).count v :=
    countFromP_append_one edges P current hPn
  refine ⟨?_, ?_, c5, c6, c7, ?_, ?_, ?_, ?_, ?_, ?_⟩
  · -- p_nodup
    rw [List.nodup_append]
    exact ⟨inv.p_nodup, List.nodup_singleton current, fun a ha hb => by
      simp only [List.mem_singleton] at hb
      exact hPn (hb ▸ ha)⟩
  · -- p_sub
    intro v hv
    rcases List.mem_append.1 hv with h | h
    · exact inv.p_sub v h
    · simp only [List.mem_singleton] at h
      exact h ▸ hcur_ids
  · -- deg
    intro v hv
    rw [c4 v hv]
    congr 1
    have h := hcnt1 v
    rw [List.nil_append]
    push_cast [h]
    ring
  · -- complete
    intro v hv hcnt
    refine c10 v hv ?_
    rw [List.nil_append]
    rw [hcnt1 v] at hcnt
    omega
  · -- lvl_some
    intro v hv
    rcases hv with hv | hv
    · rcases List.mem_append.1 hv with h | h
      · obtain ⟨l, hl⟩ := Option.isSome_iff_exists.1 (inv.lvl_some v (Or.inl h))
        obtain ⟨l2, hl2, _⟩ := c3 v l hl
        rw [hl2]
        rfl
      · simp only [List.mem_singleton] at h
        subst h
        obtain ⟨l, hl⟩ := Option.isSome_iff_exists.1
          (inv.lvl_some v (Or.inr hcur_q))
        obtain ⟨l2, hl2, _⟩ := c3 v l hl
        rw [hl2]
        rfl
    · exact c9 v hv
  · -- edge_ok
    intro e he hef
    rcases List.mem_append.1 hef with h | h
    · obtain ⟨lu, lv, h1, h2, h3⟩ := inv.edge_ok e he h
      have hfn : e.from_id ∉ [] ++ outTargets edges current := by
        rw [List.nil_append]
        exact fun hx => htoP e.from_id hx h
      have h4 := c1 e.from_id hfn
      obtain ⟨lv2, hlv2, hle2⟩ := c3 e.to_id lv h2
      exact ⟨lu, lv2, by rw [h4]; exact h1, hlv2, by omega⟩
    · simp only [List.mem_singleton] at h
      obtain ⟨clv, hclv⟩ := Option.isSome_iff_exists.1
        (inv.lvl_some current (Or.inr hcur_q))
      have hcl : (dget L current).getD 0 = clv := by rw [hclv]; rfl
      have hfn : e.from_id ∉ [] ++ outTargets edges current := by
        rw [List.nil_append, h]
        exact htcur
      have h4 := c1 e.from_id hfn
      have hto : e.to_id ∈ [] ++ outTargets edges current := by
        rw [List.nil_append]
        exact h ▸ mem_outTargets_of_edge edges e he
      obtain ⟨l, hl, hge⟩ := c2 e.to_id hto
      refine ⟨clv, l, ?_, hl, by omega⟩
      rw [h4, h, hclv]
  · -- to_in
    intro e he hto
    rcases hto with hto | hto
    · rcases List.mem_append.1 hto with h | h
      · exact List.mem_append.2 (Or.inl (inv.to_in e he (Or.inl h)))
      · simp only [List.mem_singleton] at h
        have h1 : e.to_id ∈ current :: rest := h ▸ hcur_q
        exact List.mem_append.2 (Or.inl (inv.to_in e he (Or.inr h1)))
    · have h8 := c8 e.to_id hto
      rw [List.nil_append] at h8
      have : countFromP edges (P ++ [current]) e.to_id
          = inCount edges e.to_id := by
        rw [hcnt1 e.to_id]
        omega
      exact countFromP_eq_inCount_sources edges (P ++ [current]) e.to_id
        this e he rfl
  · -- q_deg
    intro v hv
    have h8 := c8 v hv
    rw [List.nil_append] at h8
    rw [hcnt1 v]
    omega

/-- Running the Kahn loop with sufficient fuel preserves the invariant and
ends with an empty queue. -/
theorem kahnLoopGo_inv (edges : List OrganizeEdge) (ids : List String)
    (hval : ∀ e ∈ edges, e.from_id ∈ ids ∧ e.to_id ∈ ids)
    (adjacency : Dict String (List String))
    (hadj : ∀ c, dget adjacency c
      = if c ∈ ids then some (outTargets edges c) else none) :
    ∀ (fuel : ℕ) (queue : List String) (L D : Dict String ℤ)
      (P : List String),
      KahnInv edges ids P queue L D →
      queue.length + degSum D ≤ fuel →
      ∃ Pf Df, KahnInv edges ids Pf []
        (kahnLoopGo adjacency fuel queue L D) Df := by
  intro fuel
  induction fuel with
  | zero =>
    intro queue L D P inv hfuel
    have hq : queue = [] := by
      cases queue with
      | nil => rfl
      | cons a l => simp at hfuel
    subst hq
    exact ⟨P, D, inv⟩
  | succ n ih =>
    intro queue L D P inv hfuel
    cases queue with
    | nil => exact ⟨P, D, inv⟩
    | cons current rest =>
      simp only [kahnLoopGo]
      have hcur_ids : current ∈ ids :=
        inv.q_sub current (List.mem_cons_self current rest)
      have hts : (dget adjacency current).getD [] = outTargets edges current := by
        rw [hadj current, if_pos hcur_ids]
        rfl
      rw [hts]
      have hinv2 := kahnInv_step edges ids hval P current rest L D inv
      refine ih _ _ _ _ hinv2 ?_
      have hm := kahnFold_measure ((dget L current).getD 0)
        (outTargets edges current) (L, D, rest)
      simp only [] at hm
      simp only [List.length_cons] at hfuel
      omega

/-- After the full Kahn pass (`kahnLevels`), the invariant holds with an
empty queue for some processed set. -/
theorem kahnLevels_spec (items : List OrganizeItem)
    (edges : List OrganizeEdge)
    (hids : (items.map (fun it => it.id)).Nodup)
    (hval : ∀ e ∈ edges, e.from_id ∈ items.map (fun it => it.id) ∧
      e.to_id ∈ items.map (fun it => it.id)) :
    ∃ Pf Df, KahnInv edges (items.map (fun it => it.id)) Pf []
      (kahnLevels items edges) Df := by
  unfold kahnLevels kahnLoop
  simp only []
  exact kahnLoopGo_inv edges (items.map (fun it => it.id)) hval
    (buildGraph items edges).1 (buildGraph_spec items edges hval).1
    _ _ _ _ _ (kahnInv_init items edges hids hval) (le_refl _)

/-- For acyclic inputs the Kahn loop processes every id. -/
theorem kahnInv_all_processed (edges : List OrganizeEdge) (ids : List String)
    (hval : ∀ e ∈ edges, e.from_id ∈ ids ∧ e.to_id ∈ ids)
    (Pf : List String) (L D : Dict String ℤ)
    (inv : KahnInv edges ids Pf [] L D) (hacy : Acyclic edges) :
    ∀ v ∈ ids, v ∈ Pf := by
  obtain ⟨rank, hrank⟩ := hacy
  have main : ∀ n, ∀ v ∈ ids, rank v < n → v ∈ Pf := by
    intro n
    induction n with
    | zero => intro v _ h; omega
    | succ m ihm =>
      intro v hv hlt
      have hsrc : ∀ e ∈ edges, e.to_id = v → e.from_id ∈ Pf := by
        intro e he hev
        refine ihm e.from_id (hval e he).1 ?_
        have h1 := hrank e he
        rw [hev] at h1
        omega
      have hcnt := countFromP_of_sources edges Pf v hsrc
      rcases inv.complete v hv hcnt with h | h
      · exact h
      · exact absurd h (List.not_mem_nil v)
  intro v hv
  exact main (rank v + 1) v hv (by omega)

/-- The raw Kahn level map: every id has a level, and every edge goes
strictly upward. -/
theorem kahnLevels_strict (items : List OrganizeItem)
    (edges : List OrganizeEdge)
    (hids : (items.map (fun it => it.id)).Nodup)
    (hval : ∀ e ∈ edges, e.from_id ∈ items.map (fun it => it.id) ∧
      e.to_id ∈ items.map (fun it => it.id))
    (hacy : Acyclic edges) :
    (∀ e ∈ edges, ∃ lu lv,
      dget (kahnLevels items edges) e.from_id = some lu ∧
      dget (kahnLevels items edges) e.to_id = some lv ∧ lu + 1 ≤ lv) ∧
    (∀ v ∈ items.map (fun it => it.id),
      (dget (kahnLevels items edges) v).isSome) := by
  obtain ⟨Pf, Df, inv⟩ := kahnLevels_spec items edges hids hval
  have hall := kahnInv_all_processed edges (items.map (fun it => it.id))
    hval Pf _ Df inv hacy
  constructor
  · intro e he
    exact inv.edge_ok e he (hall e.from_id (hval e he).1)
  · intro v hv
    exact inv.lvl_some v (Or.inl (hall v hv))

/-- Step 3 is a no-op when every item already has a level. -/
theorem resolveUnresolved_covered (items : List OrganizeItem)
    (edges : List OrganizeEdge) (L : Dict String ℤ)
    (h : ∀ it ∈ items, (dget L it.id).isSome) :
    resolveUnresolved items edges L = L := by
  unfold resolveUnresolved
  simp only []
  have hnil : items.filter (fun it => !(dmem L it.id)) = [] := by
    rw [List.filter_eq_nil]
    intro it hit
    simp [dmem, h it hit]
  rw [hnil]
  rfl

theorem mem_insSortedU (x : ℤ) :
    ∀ (l : List ℤ) (a : ℤ), a ∈ insSortedU x l ↔ a = x ∨ a ∈ l := by
  intro l
  induction l with
  | nil => intro a; simp [insSortedU]
  | cons y ys ih =>
    intro a
    unfold insSortedU
    by_cases h1 : x < y
    · rw [if_pos h1]
      simp only [List.mem_cons]
    · rw [if_neg h1]
      by_cases h2 : x = y
      · rw [if_pos h2]
        subst h2
        simp only [List.mem_cons]
        tauto
      · rw [if_neg h2]
        simp only [List.mem_cons, ih a]
        tauto

theorem insSortedU_pairwise (x : ℤ) :
    ∀ (l : List ℤ), l.Pairwise (· < ·) →
      (insSortedU x l).Pairwise (· < ·) := by
  intro l
  induction l with
  | nil => intro _; simp [insSortedU]
  | cons y ys ih =>
    intro hp
    rw [List.pairwise_cons] at hp
    unfold insSortedU
    by_cases h1 : x < y
    · rw [if_pos h1, List.pairwise_cons]
      refine ⟨?_, List.pairwise_cons.2 hp⟩
      intro a ha
      rcases List.mem_cons.1 ha with rfl | ha2
      · exact h1
      · exact lt_trans h1 (hp.1 a ha2)
    · rw [if_neg h1]
      by_cases h2 : x = y
      · rw [if_pos h2]
        exact List.pairwise_cons.2 hp
      · rw [if_neg h2, List.pairwise_cons]
        refine ⟨?_, ih hp.2⟩
        intro a ha
        rcases (mem_insSortedU x ys a).1 ha with rfl | ha2
        · omega
        · exact hp.1 a ha2

theorem sortedDistinct_pairwise (l : List ℤ) :
    (sortedDistinct l).Pairwise (· < ·) := by
  unfold sortedDistinct
  induction l with
  | nil => simp
  | cons x xs ih =>
    rw [List.foldr_cons]
    exact insSortedU_pairwise x _ ih

theorem mem_sortedDistinct (l : List ℤ) (a : ℤ) :
    a ∈ sortedDistinct l ↔ a ∈ l := by
  unfold sortedDistinct
  induction l with
  | nil => simp
  | cons x xs ih =>
    rw [List.foldr_cons, mem_insSortedU, ih, List.mem_cons]

theorem remapLookup_ge (lvl : ℤ) :
    ∀ (us : List ℤ) (i : ℤ), lvl ∈ us → i ≤ remapLookup us i lvl := by
  intro us
  induction us with
  | nil => intro i h; cases h
  | cons u us ih =>
    intro i h
    unfold remapLookup
    by_cases h1 : u = lvl
    · rw [if_pos h1]
    · rw [if_neg h1]
      rcases List.mem_cons.1 h with h2 | h2
      · exact absurd h2.symm h1
      · have := ih (i + 1) h2
        omega

theorem remapLookup_strict (a b : ℤ) (hab : a < b) :
    ∀ (us : List ℤ), us.Pairwise (· < ·) → a ∈ us → b ∈ us →
      ∀ i : ℤ, remapLookup us i a < remapLookup us i b := by
  intro us
  induction us with
  | nil => intro _ ha; cases ha
  | cons u us ih =>
    intro hp ha hb i
    rw [List.pairwise_cons] at hp
    unfold remapLookup
    by_cases h1 : u = a
    · subst h1
      have h2 : ¬(u = b) := by omega
      rw [if_pos rfl, if_neg h2]
      have hb2 : b ∈ us := by
        rcases List.mem_cons.1 hb with h | h
        · omega
        · exact h
      have := remapLookup_ge b us (i + 1) hb2
      omega
    · by_cases h2 : u = b
      · exfalso
        subst h2
        rcases List.mem_cons.1 ha with h | h
        · exact h1 h.symm
        · have := hp.1 a h
          omega
      · rw [if_neg h1, if_neg h2]
        have ha2 : a ∈ us := by
          rcases List.mem_cons.1 ha with h | h
          · exact absurd h.symm h1
          · exact h
        have hb2 : b ∈ us := by
          rcases List.mem_cons.1 hb with h | h
          · exact absurd h.symm h2
          · exact h
        exact ih hp.2 ha2 hb2 (i + 1)

theorem dget_mapValues {β γ : Type} (f : β → γ) :
    ∀ (d : Dict String β) (k : String),
      dget (d.map (fun kv => (kv.1, f kv.2))) k = (dget d k).map f := by
  intro d
  induction d with
  | nil => intro k; simp [dget]
  | cons kv rest ih =>
    intro k
    rw [List.map_cons]
    unfold dget
    by_cases h : kv.1 = k
    · simp [h]
    · simp only [h, if_false]
      exact ih k

theorem dget_mem_dvalues {β : Type} :
    ∀ (d : Dict String β) (k : String) (a : β),
      dget d k = some a → a ∈ dvalues d := by
  intro d
  induction d with
  | nil => intro k a h; simp [dget] at h
  | cons kv rest ih =>
    intro k a h
    unfold dget at h
    unfold dvalues
    rw [List.map_cons]
    by_cases h1 : kv.1 = k
    · rw [if_pos h1] at h
      exact List.mem_cons.2 (Or.inl (Option.some.inj h).symm)
    · rw [if_neg h1] at h
      exact List.mem_cons.2 (Or.inr (ih k a h))

/-- Step 4 (gap compression) preserves strict level order. -/
theorem normalizeLevels_strict (L : Dict String ℤ) (u v : String)
    (a b : ℤ) (hu : dget L u = some a) (hv : dget L v = some b)
    (hab : a < b) :
    ∃ a2 b2, dget (normalizeLevels L) u = some a2 ∧
      dget (normalizeLevels L) v = some b2 ∧ a2 < b2 := by
  unfold normalizeLevels
  simp only []
  rw [dget_mapValues, dget_mapValues, hu, hv]
  refine ⟨_, _, rfl, rfl, ?_⟩
  exact remapLookup_strict a b hab (sortedDistinct (dvalues L))
    (sortedDistinct_pairwise (dvalues L))
    ((mem_sortedDistinct _ a).2 (dget_mem_dvalues L u a hu))
    ((mem_sortedDistinct _ b).2 (dget_mem_dvalues L v b hv)) 0

theorem effectiveBase_of_ne (L : Dict String ℤ) (h : L ≠ []) :
    effectiveBase L = normalizeLevels L := by
  unfold effectiveBase
  simp only []
  rw [if_neg]
  intro hc
  rw [List.isEmpty_iff] at hc
  unfold normalizeLevels at hc
  simp only [] at hc
  exact h (List.map_eq_nil.1 hc)

theorem applyGridFallback_of_ne_edges (items : List OrganizeItem)
    (edges : List OrganizeEdge) (opts : OrganizeOptions)
    (eff : Dict String ℤ) (h : edges ≠ []) :
    applyGridFallback items edges opts eff = eff := by
  unfold applyGridFallback
  have hc : (decide (edges.length = 0) && decide (items.length > 1)) = false := by
    have hh : ¬(edges.length = 0) := fun hh => h (List.length_eq_zero.mp hh)
    simp [hh]
  rw [hc]
  simp

/-- C1: for every item set with unique ids and every acyclic edge set whose
endpoints all lie in the item set, the effective level assignment (Kahn's
sort with max-propagation, cycle resolution, normalization and the — here
inert — grid fallback) satisfies `level(u) < level(v)` for every edge
`(u, v)`. -/
theorem C1_levels_strictly_increase (items : List OrganizeItem)
    (edges : List OrganizeEdge) (opts : OrganizeOptions)
    (hids : (items.map (fun it => it.id)).Nodup)
    (hval : ∀ e ∈ edges, e.from_id ∈ items.map (fun it => it.id) ∧
      e.to_id ∈ items.map (fun it => it.id))
    (hacy : Acyclic edges) :
    ∀ e ∈ edges, ∃ a b : ℤ,
      dget (effectiveLevels items edges opts) e.from_id = some a ∧
      dget (effectiveLevels items edges opts) e.to_id = some b ∧ a < b := by
  intro e he
  obtain ⟨hstrict, hcover⟩ := kahnLevels_strict items edges hids hval hacy
  have hres : resolveUnresolved items edges (kahnLevels items edges)
      = kahnLevels items edges :=
    resolveUnresolved_covered items edges _
      (fun it hit => hcover it.id (List.mem_map_of_mem (fun it => it.id) hit))
  have hne : edges ≠ [] := fun h0 => by rw [h0] at he; cases he
  have hLne : kahnLevels items edges ≠ [] := by
    intro h0
    have hs := hcover e.from_id (hval e he).1
    rw [h0] at hs
    simp [dget] at hs
  unfold effectiveLevels
  rw [hres, effectiveBase_of_ne _ hLne,
    applyGridFallback_of_ne_edges items edges opts _ hne]
  obtain ⟨lu, lv, h1, h2, h3⟩ := hstrict e he
  obtain ⟨a2, b2, ha2, hb2, hab2⟩ :=
    normalizeLevels_strict (kahnLevels items edges) e.from_id e.to_id
      lu lv h1 h2 (by omega)
  exact ⟨a2, b2, ha2, hb2, hab2⟩

/-- Witness for `C1_levels_strictly_increase`: the two-item chain `a → b`
gets levels `0 < 1`. -/
theorem C1_levels_strictly_increase_witness :
    (([{ id := "a", width := 250, height := 120, x := 0, y := 0 },
       { id := "b", width := 250, height := 120, x := 10, y := 10 }] :
        List OrganizeItem).map (fun it => it.id)).Nodup ∧
    (∀ e ∈ ([⟨"a", "b"⟩] : List OrganizeEdge),
      e.from_id ∈ ([{ id := "a", width := 250, height := 120, x := 0, y := 0 },
        { id := "b", width := 250, height := 120, x := 10, y := 10 }] :
        List OrganizeItem).map (fun it => it.id) ∧
      e.to_id ∈ ([{ id := "a", width := 250, height := 120, x := 0, y := 0 },
        { id := "b", width := 250, height := 120, x := 10, y := 10 }] :
        List OrganizeItem).map (fun it => it.id)) ∧
    Acyclic [⟨"a", "b"⟩] ∧
    (∀ e ∈ ([⟨"a", "b"⟩] : List OrganizeEdge), ∃ a b : ℤ,
      dget (effectiveLevels
        [{ id := "a", width := 250, height := 120, x := 0, y := 0 },
         { id := "b", width := 250, height := 120, x := 10, y := 10 }]
        [⟨"a", "b"⟩] {}) e.from_id = some a ∧
      dget (effectiveLevels
        [{ id := "a", width := 250, height := 120, x := 0, y := 0 },
         { id := "b", width := 250, height := 120, x := 10, y := 10 }]
        [⟨"a", "b"⟩] {}) e.to_id = some b ∧ a < b) := by
  refine ⟨by decide, by decide,
    ⟨fun s => if s = "b" then 1 else 0, by decide⟩, ?_⟩
  exact C1_levels_strictly_increase _ _ {} (by decide) (by decide)
    ⟨fun s => if s = "b" then 1 else 0, by decide⟩

end RatEval
